import Mathlib

/-!
# A tiny imperative language: lexer, parser and tree-walking interpreter

Shallow embedding of `src/lexer.js`, `src/parser.js` and `src/interpreter.js`.

Conventions of the embedding.

* Host numbers are IEEE doubles.  A finite double is embedded as the rational it denotes,
  next to the special values `-0`, `+Infinity`, `-Infinity` and `NaN`.  Every operation that
  produces a number (reading a literal, `+`, `-`, `*`, `/`) rounds the exact result to the
  nearest double, a tie going to the even significand, with overflow to an infinity and
  gradual underflow (`JSNum.roundDouble`).
* A host string is embedded as its sequence of characters.
* An operation whose result depends on how the host converts between text and doubles, or on
  the internals of a host object, yields `Res.unsupported`; a thrown `Error` is `Res.throw`
  with the message of the error; `Res.outOfFuel` marks a recursion budget that ran out.
* `this.keywords` and `this.globalScope` are plain host objects, so a lookup in them also finds
  the members inherited from `Object.prototype`; these are listed in `objectPrototypeNames`.
-/

namespace TinyLang

/-! ## Host values -/

/-- Host numbers: finite values (with `fin 0` the positive zero), negative zero, the two
infinities and NaN.  A finite double is `fin q` with `q` the rational it denotes; reading a
literal and the four arithmetic operations round to such values (`roundDouble`). -/
inductive JSNum
  | fin (q : ℚ)
  | negZero
  | posInf
  | negInf
  | nan
  deriving DecidableEq, Repr

namespace JSNum

/-- The zero of the given sign. -/
def signedZero (neg : Bool) : JSNum := if neg then negZero else fin 0

/-- The infinity of the given sign. -/
def signedInf (neg : Bool) : JSNum := if neg then negInf else posInf

/-- The power of two with an integer exponent. -/
def pow2 (g : Int) : ℚ :=
  if 0 ≤ g then ((2 ^ g.toNat : Nat) : ℚ) else 1 / ((2 ^ (-g).toNat : Nat) : ℚ)

/-- Halving `n` until it is below two, at most `fuel` times, and counting. -/
def log2Fuel : Nat → Nat → Nat
  | 0, _ => 0
  | fuel + 1, n => if 2 ≤ n then log2Fuel fuel (n / 2) + 1 else 0

/-- Position of the leading binary digit of `n`. -/
def floorLog2 (n : Nat) : Nat := log2Fuel n n

/-- The exponent `e` with `2 ^ e ≤ |q| < 2 ^ (e + 1)`, for `q` other than zero: the difference
of the positions of the leading digits of numerator and denominator, or one less. -/
def binade (q : ℚ) : Int :=
  let e0 : Int := (floorLog2 q.num.natAbs : Int) - (floorLog2 q.den : Int)
  if |q| < pow2 e0 then e0 - 1 else e0

/-- Rounding to the nearest integer, a tie going to the even one. -/
def roundHalfEven (x : ℚ) : Int :=
  let k := Int.floor x
  if x - k < 1 / 2 then k
  else if 1 / 2 < x - k then k + 1
  else if k % 2 = 0 then k else k + 1

/-- The double nearest to the real number `q` (IEEE 754 binary64, round to nearest, ties to
even).  The spacing of the doubles around `q` is `2 ^ g` with `g` 52 below the binade of `q`,
and never below `-1074` (subnormal range); a result of `2 ^ 1024` or more is an infinity, and a
result of zero keeps the sign of `q`. -/
def roundDouble (q : ℚ) : JSNum :=
  if q = 0 then fin 0
  else
    let g : Int := max (binade q - 52) (-1074)
    let r : ℚ := (roundHalfEven (|q| / pow2 g) : ℚ) * pow2 g
    if pow2 1024 ≤ r then signedInf (decide (q < 0))
    else if r = 0 then signedZero (decide (q < 0))
    else fin (if q < 0 then -r else r)

end JSNum

/-- Host values that can occur as a token literal or as a runtime value.  `hostMember n` is the
object stored under the name `n` in `Object.prototype` (a built-in function, or for
`__proto__` the prototype object itself). -/
inductive Value
  | number (n : JSNum)
  | string (s : String)
  | boolean (b : Bool)
  | undefined
  | null
  | hostMember (name : String)
  deriving DecidableEq, Repr

/-- Names of the own properties of `Object.prototype`, which every object literal inherits. -/
def objectPrototypeNames : List String :=
  ["constructor", "__defineGetter__", "__defineSetter__", "hasOwnProperty",
   "__lookupGetter__", "__lookupSetter__", "isPrototypeOf", "propertyIsEnumerable",
   "toString", "valueOf", "__proto__", "toLocaleString"]

/-- Outcome of running a piece of the program. -/
inductive Res (α : Type)
  | ok (a : α)
  | throw (message : String)
  | unsupported
  | outOfFuel
  deriving DecidableEq, Repr

/-! ## Lexer (`src/lexer.js`) -/

/-- Token kinds: the strings passed as first argument of `new Token`.  `hostMember w` is the
kind of a token built from `this.keywords[w]` when `w` is inherited from `Object.prototype`. -/
inductive TokenType
  | IF | ELSE | WHILE | FOR | LET | PRINT | RETURN
  | IDENTIFIER | NUMBER | STRING
  | EQUALS | NOT_EQUALS | LESS_EQUALS | GREATER_EQUALS | ASSIGN
  | PLUS | MINUS | MULTIPLY | DIVIDE | LPAREN | RPAREN | LBRACE | RBRACE
  | SEMICOLON | LESS | GREATER | COMMA
  | EOF
  | hostMember (w : String)
  deriving DecidableEq, Repr

/-- Class `Token`. -/
structure Token where
  type : TokenType
  value : Value
  deriving DecidableEq, Repr

/-- Class `Lexer`: the input and the cursor.  The field `currentChar` of the source always
equals the character at `position` (or null past the end), so it is a derived function. -/
structure Lexer where
  input : List Char
  position : Nat
  deriving DecidableEq, Repr

/-- The constructor of `Lexer`. -/
def Lexer.new (input : String) : Lexer := ⟨input.toList, 0⟩

/-- The unread part of the input. -/
def Lexer.rest (l : Lexer) : List Char := l.input.drop l.position

/-- Field `currentChar`: `none` stands for null (and for undefined on an empty input). -/
def Lexer.currentChar (l : Lexer) : Option Char := l.rest.head?

/-- Method `advance`. -/
def Lexer.advance (l : Lexer) : Lexer := { l with position := l.position + 1 }

/-- Method `peek`. -/
def Lexer.peek (l : Lexer) : Option Char := l.advance.rest.head?

/-- The regular expression `\s` of the host. -/
def isSpace (c : Char) : Bool :=
  let n := c.toNat
  (9 ≤ n && n ≤ 13) || n == 32 || n == 160 || n == 5760 || (8192 ≤ n && n ≤ 8202) ||
  n == 8232 || n == 8233 || n == 8239 || n == 8287 || n == 12288 || n == 65279

/-- The regular expression `\d`. -/
def isDigit (c : Char) : Bool := 48 ≤ c.toNat && c.toNat ≤ 57

/-- The regular expression `[a-zA-Z_]`. -/
def isIdentStart (c : Char) : Bool :=
  let n := c.toNat
  (97 ≤ n && n ≤ 122) || (65 ≤ n && n ≤ 90) || n == 95

/-- The regular expression `[a-zA-Z_0-9]`. -/
def isIdentChar (c : Char) : Bool := isIdentStart c || isDigit c

/-- Method `skipWhitespace`: advance while the current character is a space. -/
def Lexer.skipWhitespace (l : Lexer) : Lexer :=
  { l with position := l.position + (l.rest.takeWhile isSpace).length }

/-- The object `this.keywords`, read at `w`: an own entry, a member inherited from
`Object.prototype`, or nothing. -/
def keywords (w : String) : Option TokenType :=
  if w = "if" then some .IF
  else if w = "else" then some .ELSE
  else if w = "while" then some .WHILE
  else if w = "for" then some .FOR
  else if w = "let" then some .LET
  else if w = "print" then some .PRINT
  else if w = "return" then some .RETURN
  else if w ∈ objectPrototypeNames then some (.hostMember w)
  else none

/-- Method `identifier`: the maximal run of identifier characters, looked up in the keyword
table. -/
def Lexer.identifier (l : Lexer) : Token × Lexer :=
  let result := l.rest.takeWhile isIdentChar
  let l1 := { l with position := l.position + result.length }
  match keywords (String.mk result) with
  | some t => (⟨t, .string (String.mk result)⟩, l1)
  | none => (⟨.IDENTIFIER, .string (String.mk result)⟩, l1)

/-- Value of a run of decimal digits. -/
def digitsValue (ds : List Char) : Nat := ds.foldl (fun acc c => 10 * acc + (c.toNat - 48)) 0

/-- Host `parseInt` on a run of decimal digits (NaN on the empty run): the double nearest to
the integer written, as Node computes it for radix 10. -/
def parseInt (ds : List Char) : JSNum :=
  if ds = [] then .nan else JSNum.roundDouble (digitsValue ds)

/-- Host `parseFloat` on text of the form digits, dot, digits (NaN when both runs are
empty): the double nearest to the decimal fraction written. -/
def parseFloat (ds fs : List Char) : JSNum :=
  if ds = [] ∧ fs = [] then .nan
  else JSNum.roundDouble ((digitsValue ds : ℚ) + (digitsValue fs : ℚ) / (10 : ℚ) ^ fs.length)

/-- Method `number`. -/
def Lexer.number (l : Lexer) : Token × Lexer :=
  let ds := l.rest.takeWhile isDigit
  let l1 := { l with position := l.position + ds.length }
  if l1.currentChar = some '.' then
    let l2 := l1.advance
    let fs := l2.rest.takeWhile isDigit
    (⟨.NUMBER, .number (parseFloat ds fs)⟩, { l2 with position := l2.position + fs.length })
  else
    (⟨.NUMBER, .number (parseInt ds)⟩, l1)

/-- Method `string`: skip the opening quote, collect up to the next quote, skip it. -/
def Lexer.string (l : Lexer) : Token × Lexer :=
  let l1 := l.advance
  let result := l1.rest.takeWhile (fun c => c != '"')
  let l2 := { l1 with position := l1.position + result.length }
  (⟨.STRING, .string (String.mk result)⟩, l2.advance)

/-- The object `symbolMap`, read at `c`.  None of the names inherited from `Object.prototype`
is one character long, so only the own entries can be found. -/
def symbolMap (c : Char) : Option TokenType :=
  if c = '+' then some .PLUS
  else if c = '-' then some .MINUS
  else if c = '*' then some .MULTIPLY
  else if c = '/' then some .DIVIDE
  else if c = '(' then some .LPAREN
  else if c = ')' then some .RPAREN
  else if c = '{' then some .LBRACE
  else if c = '}' then some .RBRACE
  else if c = ';' then some .SEMICOLON
  else if c = '<' then some .LESS
  else if c = '>' then some .GREATER
  else if c = ',' then some .COMMA
  else none

/-- Method `getNextToken`.  The loop of the source runs its body at most twice: a space at the
cursor makes it skip the whole run of spaces and start over, and any other character returns
or throws. -/
def Lexer.getNextToken (l : Lexer) : Res (Token × Lexer) :=
  let l := l.skipWhitespace
  match l.currentChar with
  | none => .ok (⟨.EOF, .null⟩, l)
  | some c =>
    if isIdentStart c then .ok l.identifier
    else if isDigit c then .ok l.number
    else if c = '"' then .ok l.string
    else if c = '=' ∧ l.peek = some '=' then
      .ok (⟨.EQUALS, .string "=="⟩, l.advance.advance)
    else if c = '!' ∧ l.peek = some '=' then
      .ok (⟨.NOT_EQUALS, .string "!="⟩, l.advance.advance)
    else if c = '<' ∧ l.peek = some '=' then
      .ok (⟨.LESS_EQUALS, .string "<="⟩, l.advance.advance)
    else if c = '>' ∧ l.peek = some '=' then
      .ok (⟨.GREATER_EQUALS, .string ">="⟩, l.advance.advance)
    else if c = '=' then .ok (⟨.ASSIGN, .string "="⟩, l.advance)
    else match symbolMap c with
      | some t => .ok (⟨t, .string (String.singleton c)⟩, l.advance)
      | none => .throw ("Invalid character: " ++ String.singleton c)

/-! ## Parser (`src/parser.js`) -/

/-- Sequencing of computations that may throw: the first abnormal outcome propagates. -/
def Res.bind {α β : Type} (r : Res α) (f : α → Res β) : Res β :=
  match r with
  | .ok a => f a
  | .throw m => .throw m
  | .unsupported => .unsupported
  | .outOfFuel => .outOfFuel

instance : Monad Res where
  pure := Res.ok
  bind := Res.bind

/-- The node classes of the syntax tree. -/
inductive AST
  | Program (statements : List AST)
  | Block (statements : List AST)
  | VarDecl (name : Value) (initialValue : AST)
  | Assign (name : Value) (value : AST)
  | Var (token : Token)
  | BinOp (left : AST) (op : Token) (right : AST)
  | UnaryOp (op : Token) (expr : AST)
  | Num (token : Token)
  | Str (token : Token)
  | If (condition : AST) (thenStmt : AST) (elseStmt : Option AST)
  | While (condition : AST) (body : AST)
  | Print (expr : AST)

mutual

/-- Boolean equality of trees. -/
def AST.beq : AST → AST → Bool
  | .Program xs, t => match t with
    | .Program ys => AST.beqList xs ys
    | _ => false
  | .Block xs, t => match t with
    | .Block ys => AST.beqList xs ys
    | _ => false
  | .VarDecl n a, t => match t with
    | .VarDecl m b => decide (n = m) && AST.beq a b
    | _ => false
  | .Assign n a, t => match t with
    | .Assign m b => decide (n = m) && AST.beq a b
    | _ => false
  | .Var s, t => match t with
    | .Var u => decide (s = u)
    | _ => false
  | .BinOp a s b, t => match t with
    | .BinOp c u d => AST.beq a c && decide (s = u) && AST.beq b d
    | _ => false
  | .UnaryOp s a, t => match t with
    | .UnaryOp u b => decide (s = u) && AST.beq a b
    | _ => false
  | .Num s, t => match t with
    | .Num u => decide (s = u)
    | _ => false
  | .Str s, t => match t with
    | .Str u => decide (s = u)
    | _ => false
  | .If a b c, t => match t with
    | .If d e f => AST.beq a d && AST.beq b e && AST.beqOption c f
    | _ => false
  | .While a b, t => match t with
    | .While c d => AST.beq a c && AST.beq b d
    | _ => false
  | .Print a, t => match t with
    | .Print b => AST.beq a b
    | _ => false

/-- Boolean equality of lists of trees. -/
def AST.beqList : List AST → List AST → Bool
  | [], [] => true
  | x :: xs, y :: ys => AST.beq x y && AST.beqList xs ys
  | _, _ => false

/-- Boolean equality of optional trees. -/
def AST.beqOption : Option AST → Option AST → Bool
  | none, none => true
  | some x, some y => AST.beq x y
  | _, _ => false

end

/-- Class `Parser`: the lexer and the token of lookahead. -/
structure Parser where
  lexer : Lexer
  currentToken : Token
  deriving DecidableEq, Repr

/-- The constructor of `Parser`: it pulls the first token. -/
def Parser.new (lexer : Lexer) : Res Parser :=
  lexer.getNextToken.bind fun r => .ok ⟨r.2, r.1⟩

/-- Method `error`. -/
def Parser.error {α : Type} : Res α := .throw "Invalid syntax"

/-- Method `eat`. -/
def Parser.eat (p : Parser) (tokenType : TokenType) : Res Parser :=
  if p.currentToken.type = tokenType then
    p.lexer.getNextToken.bind fun r => .ok ⟨r.2, r.1⟩
  else Parser.error

/-- The token kinds that continue the loop of `expr`. -/
def exprOps : List TokenType :=
  [.PLUS, .MINUS, .EQUALS, .NOT_EQUALS, .LESS, .GREATER, .LESS_EQUALS, .GREATER_EQUALS]

/-- The token kinds that continue the loop of `term`. -/
def termOps : List TokenType := [.MULTIPLY, .DIVIDE]

mutual

/-- Method `factor`. -/
def Parser.factor : Nat → Parser → Res (AST × Parser)
  | 0, _ => .outOfFuel
  | fuel + 1, p =>
    let token := p.currentToken
    if token.type = .PLUS then
      (p.eat .PLUS).bind fun p1 =>
      (Parser.factor fuel p1).bind fun r => .ok (.UnaryOp token r.1, r.2)
    else if token.type = .MINUS then
      (p.eat .MINUS).bind fun p1 =>
      (Parser.factor fuel p1).bind fun r => .ok (.UnaryOp token r.1, r.2)
    else if token.type = .NUMBER then
      (p.eat .NUMBER).bind fun p1 => .ok (.Num token, p1)
    else if token.type = .STRING then
      (p.eat .STRING).bind fun p1 => .ok (.Str token, p1)
    else if token.type = .IDENTIFIER then
      (p.eat .IDENTIFIER).bind fun p1 => .ok (.Var token, p1)
    else if token.type = .LPAREN then
      (p.eat .LPAREN).bind fun p1 =>
      (Parser.expr fuel p1).bind fun r =>
      (r.2.eat .RPAREN).bind fun p2 => .ok (r.1, p2)
    else Parser.error

/-- The loop of method `term`, entered with the node built so far. -/
def Parser.termLoop : Nat → AST → Parser → Res (AST × Parser)
  | 0, _, _ => .outOfFuel
  | fuel + 1, node, p =>
    if p.currentToken.type ∈ termOps then
      let token := p.currentToken
      (p.eat token.type).bind fun p1 =>
      (Parser.factor fuel p1).bind fun r =>
      Parser.termLoop fuel (.BinOp node token r.1) r.2
    else .ok (node, p)

/-- Method `term`. -/
def Parser.term : Nat → Parser → Res (AST × Parser)
  | 0, _ => .outOfFuel
  | fuel + 1, p =>
    (Parser.factor fuel p).bind fun r => Parser.termLoop fuel r.1 r.2

/-- The loop of method `expr`, entered with the node built so far.  The chain of tests in the
body eats the kind of the current token. -/
def Parser.exprLoop : Nat → AST → Parser → Res (AST × Parser)
  | 0, _, _ => .outOfFuel
  | fuel + 1, node, p =>
    if p.currentToken.type ∈ exprOps then
      let token := p.currentToken
      (p.eat token.type).bind fun p1 =>
      (Parser.term fuel p1).bind fun r =>
      Parser.exprLoop fuel (.BinOp node token r.1) r.2
    else .ok (node, p)

/-- Method `expr`. -/
def Parser.expr : Nat → Parser → Res (AST × Parser)
  | 0, _ => .outOfFuel
  | fuel + 1, p =>
    (Parser.term fuel p).bind fun r => Parser.exprLoop fuel r.1 r.2

end

mutual

/-- Method `statement`. -/
def Parser.statement : Nat → Parser → Res (AST × Parser)
  | 0, _ => .outOfFuel
  | fuel + 1, p =>
    match p.currentToken.type with
    | .LBRACE => Parser.block fuel p
    | .IF => Parser.ifStatement fuel p
    | .WHILE => Parser.whileStatement fuel p
    | .LET => Parser.varDeclaration fuel p
    | .PRINT => Parser.printStatement fuel p
    | .IDENTIFIER => Parser.assignmentStatement fuel p
    | _ => Parser.expr fuel p

/-- The loop of method `block`, entered with the statements collected so far. -/
def Parser.blockLoop : Nat → List AST → Parser → Res (List AST × Parser)
  | 0, _, _ => .outOfFuel
  | fuel + 1, statements, p =>
    if p.currentToken.type ≠ .RBRACE then
      (Parser.statement fuel p).bind fun r =>
      Parser.blockLoop fuel (statements ++ [r.1]) r.2
    else .ok (statements, p)

/-- Method `block`. -/
def Parser.block : Nat → Parser → Res (AST × Parser)
  | 0, _ => .outOfFuel
  | fuel + 1, p =>
    (p.eat .LBRACE).bind fun p1 =>
    (Parser.blockLoop fuel [] p1).bind fun r =>
    (r.2.eat .RBRACE).bind fun p2 => .ok (.Block r.1, p2)

/-- Method `ifStatement`. -/
def Parser.ifStatement : Nat → Parser → Res (AST × Parser)
  | 0, _ => .outOfFuel
  | fuel + 1, p =>
    (p.eat .IF).bind fun p1 =>
    (p1.eat .LPAREN).bind fun p2 =>
    (Parser.expr fuel p2).bind fun c =>
    (c.2.eat .RPAREN).bind fun p3 =>
    (Parser.statement fuel p3).bind fun t =>
    if t.2.currentToken.type = .ELSE then
      (t.2.eat .ELSE).bind fun p4 =>
      (Parser.statement fuel p4).bind fun e => .ok (.If c.1 t.1 (some e.1), e.2)
    else .ok (.If c.1 t.1 none, t.2)

/-- Method `whileStatement`. -/
def Parser.whileStatement : Nat → Parser → Res (AST × Parser)
  | 0, _ => .outOfFuel
  | fuel + 1, p =>
    (p.eat .WHILE).bind fun p1 =>
    (p1.eat .LPAREN).bind fun p2 =>
    (Parser.expr fuel p2).bind fun c =>
    (c.2.eat .RPAREN).bind fun p3 =>
    (Parser.statement fuel p3).bind fun b => .ok (.While c.1 b.1, b.2)

/-- Method `varDeclaration`. -/
def Parser.varDeclaration : Nat → Parser → Res (AST × Parser)
  | 0, _ => .outOfFuel
  | fuel + 1, p =>
    (p.eat .LET).bind fun p1 =>
    let name := p1.currentToken.value
    (p1.eat .IDENTIFIER).bind fun p2 =>
    (p2.eat .ASSIGN).bind fun p3 =>
    (Parser.expr fuel p3).bind fun r => .ok (.VarDecl name r.1, r.2)

/-- Method `printStatement`. -/
def Parser.printStatement : Nat → Parser → Res (AST × Parser)
  | 0, _ => .outOfFuel
  | fuel + 1, p =>
    (p.eat .PRINT).bind fun p1 =>
    (Parser.expr fuel p1).bind fun r => .ok (.Print r.1, r.2)

/-- Method `assignmentStatement`. -/
def Parser.assignmentStatement : Nat → Parser → Res (AST × Parser)
  | 0, _ => .outOfFuel
  | fuel + 1, p =>
    let name := p.currentToken.value
    (p.eat .IDENTIFIER).bind fun p1 =>
    (p1.eat .ASSIGN).bind fun p2 =>
    (Parser.expr fuel p2).bind fun r => .ok (.Assign name r.1, r.2)

end

/-- The loop of method `program`, entered with the statements collected so far. -/
def Parser.programLoop : Nat → List AST → Parser → Res (List AST × Parser)
  | 0, _, _ => .outOfFuel
  | fuel + 1, statements, p =>
    if p.currentToken.type ≠ .EOF then
      (Parser.statement fuel p).bind fun r =>
      Parser.programLoop fuel (statements ++ [r.1]) r.2
    else .ok (statements, p)

/-- Method `program`. -/
def Parser.program (fuel : Nat) (p : Parser) : Res (AST × Parser) :=
  (Parser.programLoop fuel [] p).bind fun r => .ok (.Program r.1, r.2)

/-- Method `parse`. -/
def Parser.parse (fuel : Nat) (p : Parser) : Res (AST × Parser) :=
  (Parser.program fuel p).bind fun r =>
  if r.2.currentToken.type ≠ .EOF then Parser.error else .ok r

/-- The tree of a source text: `new Parser(new Lexer(source)).parse()`. -/
def parseSource (fuel : Nat) (source : String) : Res AST :=
  (Parser.new (Lexer.new source)).bind fun p =>
  (Parser.parse fuel p).bind fun r => .ok r.1

/-! ## Host operators on values -/

namespace JSNum

/-- Sign bit of a number (false for NaN). -/
def isNeg : JSNum → Bool
  | fin q => decide (q < 0)
  | negZero => true
  | negInf => true
  | posInf => false
  | nan => false

/-- Whether the number is one of the two zeros. -/
def isZero : JSNum → Bool
  | fin q => decide (q = 0)
  | negZero => true
  | _ => false

/-- Whether the number is one of the two infinities. -/
def isInf : JSNum → Bool
  | posInf => true
  | negInf => true
  | _ => false

/-- The rational value of a finite number (zero for the others). -/
def toRat : JSNum → ℚ
  | fin q => q
  | _ => 0

/-- Host `x + y` on numbers: the exact sum of two finite numbers, rounded. -/
def add : JSNum → JSNum → JSNum
  | nan, _ => nan
  | _, nan => nan
  | posInf, negInf => nan
  | negInf, posInf => nan
  | posInf, _ => posInf
  | _, posInf => posInf
  | negInf, _ => negInf
  | _, negInf => negInf
  | negZero, negZero => negZero
  | negZero, fin b => fin b
  | fin a, negZero => fin a
  | fin a, fin b => roundDouble (a + b)

/-- Host unary `-x` on numbers. -/
def neg : JSNum → JSNum
  | fin q => if q = 0 then negZero else fin (-q)
  | negZero => fin 0
  | posInf => negInf
  | negInf => posInf
  | nan => nan

/-- Host `x - y` on numbers. -/
def sub (x y : JSNum) : JSNum := add x (neg y)

/-- Host `x * y` on numbers: the exact product of two finite numbers, rounded. -/
def mul (x y : JSNum) : JSNum :=
  if x = nan ∨ y = nan then nan
  else
    let s := xor x.isNeg y.isNeg
    if x.isInf ∨ y.isInf then
      if x.isZero ∨ y.isZero then nan else signedInf s
    else if x.isZero ∨ y.isZero then signedZero s
    else roundDouble (x.toRat * y.toRat)

/-- Host `x / y` on numbers: the exact quotient of two finite numbers, rounded. -/
def div (x y : JSNum) : JSNum :=
  if x = nan ∨ y = nan then nan
  else
    let s := xor x.isNeg y.isNeg
    if x.isInf then
      if y.isInf then nan else signedInf s
    else if y.isInf then signedZero s
    else if y.isZero then
      if x.isZero then nan else signedInf s
    else if x.isZero then signedZero s
    else roundDouble (x.toRat / y.toRat)

/-- Position of a number other than NaN on the extended line: the first component orders the
infinities around the finite values. -/
def rank : JSNum → Int × ℚ
  | fin q => (0, q)
  | negZero => (0, 0)
  | posInf => (1, 0)
  | negInf => (-1, 0)
  | nan => (0, 0)

/-- Host `x < y` on numbers (false when one of them is NaN). -/
def lt (x y : JSNum) : Bool :=
  if x = nan ∨ y = nan then false
  else decide (x.rank.1 < y.rank.1 ∨ (x.rank.1 = y.rank.1 ∧ x.rank.2 < y.rank.2))

/-- Host `x <= y` on numbers (false when one of them is NaN). -/
def le (x y : JSNum) : Bool :=
  if x = nan ∨ y = nan then false else !(lt y x)

/-- Host `x === y` on numbers: NaN equals nothing, the two zeros are equal. -/
def eq (x y : JSNum) : Bool :=
  if x = nan ∨ y = nan then false else decide (x.rank = y.rank)

/-- Host conversion of a number to text, where it does not depend on the binary
representation: integers below `10 ^ 21` in absolute value and the special values. -/
def toText : JSNum → Res String
  | fin q =>
    if q.den = 1 ∧ q.num.natAbs < 10 ^ 21 then .ok (toString q.num) else .unsupported
  | negZero => .ok "0"
  | posInf => .ok "Infinity"
  | negInf => .ok "-Infinity"
  | nan => .ok "NaN"

end JSNum

namespace Value

/-- Host conversion `ToNumber`.  Parsing the text of a string or of a host object as a number
is left to the host. -/
def toNumber : Value → Res JSNum
  | number n => .ok n
  | boolean b => .ok (if b then .fin 1 else .fin 0)
  | undefined => .ok .nan
  | null => .ok (.fin 0)
  | string _ => .unsupported
  | hostMember _ => .unsupported

/-- Host conversion `ToString` (also the conversion to a property key). -/
def toText : Value → Res String
  | number n => n.toText
  | string s => .ok s
  | boolean b => .ok (if b then "true" else "false")
  | undefined => .ok "undefined"
  | null => .ok "null"
  | hostMember _ => .unsupported

/-- Host truthiness: what `if (v)` and `while (v)` test. -/
def truthy : Value → Bool
  | number n => !(n.isZero || n == .nan)
  | string s => s != ""
  | boolean b => b
  | undefined => false
  | null => false
  | hostMember _ => true

/-- Host `l === r`. -/
def strictEq : Value → Value → Bool
  | number x, number y => JSNum.eq x y
  | string s, string t => s == t
  | boolean a, boolean b => a == b
  | undefined, undefined => true
  | null, null => true
  | hostMember a, hostMember b => a == b
  | _, _ => false

/-- Whether the value is a string, or an object (whose primitive form is a string). -/
def isTextual : Value → Bool
  | string _ => true
  | hostMember _ => true
  | _ => false

/-- Host `l + r`: concatenation when one operand is textual, addition of numbers otherwise. -/
def plus (l r : Value) : Res Value :=
  if l.isTextual ∨ r.isTextual then
    l.toText.bind fun s => r.toText.bind fun t => .ok (string (s ++ t))
  else
    l.toNumber.bind fun x => r.toNumber.bind fun y => .ok (number (x.add y))

/-- Host arithmetic `l - r`, `l * r`, `l / r`: both operands are converted to numbers. -/
def arith (f : JSNum → JSNum → JSNum) (l r : Value) : Res Value :=
  l.toNumber.bind fun x => r.toNumber.bind fun y => .ok (number (f x y))

/-- Host `l < r`: the order of the texts for two strings, of the numbers otherwise. -/
def less (l r : Value) : Res Value :=
  match l, r with
  | string s, string t => .ok (boolean (decide (s < t)))
  | _, _ => l.toNumber.bind fun x => r.toNumber.bind fun y => .ok (boolean (x.lt y))

/-- Host `l <= r`. -/
def lessEq (l r : Value) : Res Value :=
  match l, r with
  | string s, string t => .ok (boolean (!decide (t < s)))
  | _, _ => l.toNumber.bind fun x => r.toNumber.bind fun y => .ok (boolean (x.le y))

end Value

/-! ## Interpreter (`src/interpreter.js`) -/

/-- Class `Interpreter`: the own properties of the object `globalScope`, and the values passed
to `console.log` so far, oldest first. -/
structure Interpreter where
  globalScope : List (String × Value)
  output : List Value
  deriving DecidableEq, Repr

/-- The constructor of `Interpreter`. -/
def Interpreter.new : Interpreter := ⟨[], []⟩

/-- The own property stored under `key`. -/
def ownProperty (scope : List (String × Value)) (key : String) : Option Value :=
  (scope.find? fun kv => kv.1 == key).map Prod.snd

/-- Host `key in scope` for an object literal: own properties and the members inherited from
`Object.prototype`. -/
def hasProperty (scope : List (String × Value)) (key : String) : Bool :=
  (ownProperty scope key).isSome || decide (key ∈ objectPrototypeNames)

/-- Host `scope[key]` for an object literal. -/
def getProperty (scope : List (String × Value)) (key : String) : Value :=
  match ownProperty scope key with
  | some v => v
  | none => if key ∈ objectPrototypeNames then .hostMember key else .undefined

/-- Host `scope[key] = v` for an object literal: an own property is overwritten; otherwise
the setter inherited under `__proto__` ignores a primitive and replaces the prototype by an
object or null (left to the host); any other key gets a new own property. -/
def setProperty (scope : List (String × Value)) (key : String) (v : Value) :
    Res (List (String × Value)) :=
  if (ownProperty scope key).isSome then
    .ok (scope.map fun kv => if kv.1 == key then (key, v) else kv)
  else if key = "__proto__" then
    match v with
    | .hostMember _ => .unsupported
    | .null => .unsupported
    | _ => .ok scope
  else .ok (scope ++ [(key, v)])

/-- The switch of `visit_BinOp` on the kind of the operator; no case matches the other kinds
and the method returns undefined. -/
def applyBinOp (op : TokenType) (left right : Value) : Res Value :=
  match op with
  | .PLUS => Value.plus left right
  | .MINUS => Value.arith JSNum.sub left right
  | .MULTIPLY => Value.arith JSNum.mul left right
  | .DIVIDE => Value.arith JSNum.div left right
  | .EQUALS => .ok (.boolean (Value.strictEq left right))
  | .NOT_EQUALS => .ok (.boolean (!Value.strictEq left right))
  | .LESS => Value.less left right
  | .GREATER => Value.less right left
  | .LESS_EQUALS => Value.lessEq left right
  | .GREATER_EQUALS => Value.lessEq right left
  | _ => .ok .undefined

/-- Outcome of a visit together with the interpreter state reached, also when the outcome is
an error. -/
abbrev Step := Res Value × Interpreter

/-- Sequencing of visits: an abnormal outcome propagates with the state it was raised in. -/
def Step.bind (r : Step) (f : Value → Interpreter → Step) : Step :=
  match r with
  | (.ok v, i) => f v i
  | (.throw m, i) => (.throw m, i)
  | (.unsupported, i) => (.unsupported, i)
  | (.outOfFuel, i) => (.outOfFuel, i)

/-- Use of the outcome of a host operation in state `i`: an abnormal outcome propagates. -/
def Res.run {α : Type} (r : Res α) (i : Interpreter) (f : α → Step) : Step :=
  match r with
  | .ok a => f a
  | .throw m => (.throw m, i)
  | .unsupported => (.unsupported, i)
  | .outOfFuel => (.outOfFuel, i)

/-- The loop `for (const statement of statements) result = this.visit(statement)` around a
visitor: stops at the first abnormal outcome, keeping the state reached. -/
def visitStatements (visit : AST → Interpreter → Step) :
    List AST → Value → Interpreter → Step
  | [], result, i => (.ok result, i)
  | statement :: rest, _, i =>
    (visit statement i).bind fun v i1 => visitStatements visit rest v i1

mutual

/-- Method `visit`, with the `visit_` methods it dispatches to. -/
def Interpreter.visit : Nat → AST → Interpreter → Step
  | 0, _, i => (.outOfFuel, i)
  | fuel + 1, node, i =>
    match node with
    | .Program statements => visitStatements (Interpreter.visit fuel) statements .undefined i
    | .Block statements => visitStatements (Interpreter.visit fuel) statements .undefined i
    | .VarDecl name initialValue =>
      (Interpreter.visit fuel initialValue i).bind fun v i1 =>
      (name.toText.bind fun key => setProperty i1.globalScope key v).run i1 fun scope =>
      (.ok .undefined, { i1 with globalScope := scope })
    | .Assign name value =>
      name.toText.run i fun key =>
      if !hasProperty i.globalScope key then
        (.throw ("Variable '" ++ key ++ "' is not defined"), i)
      else
        (Interpreter.visit fuel value i).bind fun v i1 =>
        (setProperty i1.globalScope key v).run i1 fun scope =>
        (.ok .undefined, { i1 with globalScope := scope })
    | .Var token =>
      token.value.toText.run i fun name =>
      if !hasProperty i.globalScope name then
        (.throw ("Variable '" ++ name ++ "' is not defined"), i)
      else (.ok (getProperty i.globalScope name), i)
    | .BinOp left op right =>
      (Interpreter.visit fuel left i).bind fun l i1 =>
      (Interpreter.visit fuel right i1).bind fun r i2 => (applyBinOp op.type l r, i2)
    | .UnaryOp op expr =>
      if op.type = .PLUS then
        (Interpreter.visit fuel expr i).bind fun v i1 =>
        (v.toNumber.bind fun x => .ok (.number x), i1)
      else if op.type = .MINUS then
        (Interpreter.visit fuel expr i).bind fun v i1 =>
        (v.toNumber.bind fun x => .ok (.number x.neg), i1)
      else (.ok .undefined, i)
    | .Num token => (.ok token.value, i)
    | .Str token => (.ok token.value, i)
    | .If condition thenStmt elseStmt =>
      (Interpreter.visit fuel condition i).bind fun c i1 =>
      if c.truthy then Interpreter.visit fuel thenStmt i1
      else
        match elseStmt with
        | some e => Interpreter.visit fuel e i1
        | none => (.ok .undefined, i1)
    | .While condition body => Interpreter.whileLoop fuel condition body .undefined i
    | .Print expr =>
      (Interpreter.visit fuel expr i).bind fun value i1 =>
      (.ok value, { i1 with output := i1.output ++ [value] })

/-- The loop of `visit_While`, entered with the result of the last run of the body. -/
def Interpreter.whileLoop : Nat → AST → AST → Value → Interpreter → Step
  | 0, _, _, _, i => (.outOfFuel, i)
  | fuel + 1, condition, body, result, i =>
    (Interpreter.visit fuel condition i).bind fun c i1 =>
    if c.truthy then
      (Interpreter.visit fuel body i1).bind fun v i2 =>
      Interpreter.whileLoop fuel condition body v i2
    else (.ok result, i1)

end

/-- Method `interpret`. -/
def Interpreter.interpret (fuel : Nat) (tree : AST) (i : Interpreter) : Step :=
  Interpreter.visit fuel tree i

/-- Function `evaluate` of `src/main.js` (and the body of `testExpression`): lex, parse and
interpret a source text in a fresh interpreter.  An error of the lexer or of the parser leaves
the fresh interpreter untouched. -/
def evaluate (fuel : Nat) (expression : String) : Step :=
  (parseSource fuel expression).run Interpreter.new fun tree =>
  Interpreter.interpret fuel tree Interpreter.new

/-! ## Vocabulary of the statements -/

/-- Order of outcomes by the fuel spent: running out of fuel is below every outcome. -/
def Res.le {α : Type} (r s : Res α) : Prop := r = .outOfFuel ∨ r = s

/-- The five expression methods give, with fuel `m`, at least what they give with fuel `n`. -/
def ExprMono (n m : Nat) : Prop :=
  (∀ p, Res.le (Parser.factor n p) (Parser.factor m p)) ∧
  (∀ node p, Res.le (Parser.termLoop n node p) (Parser.termLoop m node p)) ∧
  (∀ p, Res.le (Parser.term n p) (Parser.term m p)) ∧
  (∀ node p, Res.le (Parser.exprLoop n node p) (Parser.exprLoop m node p)) ∧
  (∀ p, Res.le (Parser.expr n p) (Parser.expr m p))

/-- The statement methods give, with fuel `m`, at least what they give with fuel `n`. -/
def StmtMono (n m : Nat) : Prop :=
  (∀ p, Res.le (Parser.statement n p) (Parser.statement m p)) ∧
  (∀ ss p, Res.le (Parser.blockLoop n ss p) (Parser.blockLoop m ss p)) ∧
  (∀ p, Res.le (Parser.block n p) (Parser.block m p)) ∧
  (∀ p, Res.le (Parser.ifStatement n p) (Parser.ifStatement m p)) ∧
  (∀ p, Res.le (Parser.whileStatement n p) (Parser.whileStatement m p)) ∧
  (∀ p, Res.le (Parser.varDeclaration n p) (Parser.varDeclaration m p)) ∧
  (∀ p, Res.le (Parser.printStatement n p) (Parser.printStatement m p)) ∧
  (∀ p, Res.le (Parser.assignmentStatement n p) (Parser.assignmentStatement m p))

/-- Order of visit outcomes by the fuel spent. -/
def Step.le (r s : Step) : Prop := r.1 = .outOfFuel ∨ r = s

/-- The visitor gives, with fuel `m`, at least what it gives with fuel `n`. -/
def VisitMono (n m : Nat) : Prop :=
  (∀ node i, Step.le (Interpreter.visit n node i) (Interpreter.visit m node i)) ∧
  (∀ c b r i, Step.le (Interpreter.whileLoop n c b r i) (Interpreter.whileLoop m c b r i))

/-- Whether the scope of the state has an own binding for the name `n`. -/
def Interpreter.binds (i : Interpreter) (n : String) : Bool :=
  (ownProperty i.globalScope n).isSome

/-- The tree the parser builds for a number literal of value `n`, for `n` up to two to the 53
(where every natural number is a double). -/
def numLit (n : Nat) : AST := .Num ⟨.NUMBER, .number (.fin n)⟩

/-- The source of the example of the flat scope, without its semicolons. -/
def flatScopeText : String := "let x = 1 while (x < 3) \x7b let y = x x = x + 1 \x7d print y"

/-- The source of the sum loop as the specification and the bundled examples write it. -/
def sumText : String :=
  "let sum=0; let i=1; while (i<=5) \x7b sum=sum+i; i=i+1; \x7d print \"Sum is:\"; print sum;"

/-- The source of the sum loop without its semicolons. -/
def sumPlainText : String :=
  "let sum=0 let i=1 while (i<=5) \x7b sum=sum+i i=i+1 \x7d print \"Sum is:\" print sum"

/-- The token of a number literal of value `n`, for `n` up to two to the 53. -/
def numTok (n : Nat) : Token := ⟨.NUMBER, .number (.fin n)⟩

/-- The source text of the example of C3. -/
def chainInput : List Char := "1 + 1 == 2".toList

/-- The tree of the example of C3: `(1 + 1) == 2`. -/
def chainTree : AST :=
  .BinOp (.BinOp (numLit 1) ⟨.PLUS, .string "+"⟩ (numLit 1)) ⟨.EQUALS, .string "=="⟩ (numLit 2)

/-- The node `Var` for the name `n`, as the parser builds it. -/
def varNode (n : String) : AST := .Var ⟨.IDENTIFIER, .string n⟩

/-- The tree of the source `let x = 1 while (x < 3) { let y = x x = x + 1 } print y`, the
example of the flat scope. -/
def flatScopeTree : AST :=
  .Program
    [.VarDecl (.string "x") (numLit 1),
     .While (.BinOp (varNode "x") ⟨.LESS, .string "<"⟩ (numLit 3))
       (.Block
         [.VarDecl (.string "y") (varNode "x"),
          .Assign (.string "x") (.BinOp (varNode "x") ⟨.PLUS, .string "+"⟩ (numLit 1))]),
     .Print (varNode "y")]

/-- The characters of `flatScopeText`. -/
def flatScopeSource : List Char := flatScopeText.toList

/-- The characters of the source text `let x = 1`. -/
def plainDeclSource : List Char := "let x = 1".toList

/-- The characters of the source text `let x = 1;`. -/
def semiSource : List Char := "let x = 1;".toList

/-- The characters of the source text `let x = 1; print x`. -/
def semiTwoSource : List Char := "let x = 1; print x".toList

/-- The tree of the sum loop: the source of the example without its semicolons. -/
def sumTree : AST :=
  .Program
    [.VarDecl (.string "sum") (numLit 0),
     .VarDecl (.string "i") (numLit 1),
     .While (.BinOp (varNode "i") ⟨.LESS_EQUALS, .string "<="⟩ (numLit 5))
       (.Block
         [.Assign (.string "sum") (.BinOp (varNode "sum") ⟨.PLUS, .string "+"⟩ (varNode "i")),
          .Assign (.string "i") (.BinOp (varNode "i") ⟨.PLUS, .string "+"⟩ (numLit 1))]),
     .Print (.Str ⟨.STRING, .string "Sum is:"⟩),
     .Print (varNode "sum")]

/-- The characters of `sumText`. -/
def sumSource : List Char := sumText.toList

/-- The characters of `sumPlainText`. -/
def sumPlainSource : List Char := sumPlainText.toList

/-- The tree of the source `let x = 1 let x = 2 print x`. -/
def redeclareTree : AST :=
  .Program [.VarDecl (.string "x") (numLit 1), .VarDecl (.string "x") (numLit 2),
    .Print (varNode "x")]

/-- The characters of the source text `let x = 1 let x = 2 print x`. -/
def redeclareSource : List Char := "let x = 1 let x = 2 print x".toList

/-- The characters of the source text `let toString = 1`. -/
def letToStringSource : List Char := "let toString = 1".toList

/-- The call of `getNextToken` that comes after `k` earlier successful calls on the lexer. -/
def Lexer.nthCall : Nat → Lexer → Res (Token × Lexer)
  | 0, l => l.getNextToken
  | k + 1, l => l.getNextToken.bind fun r => Lexer.nthCall k r.2

/-- Repeated calls of `getNextToken` up to the first EOF token or error: the tokens returned
before it, and how the run ended (`fuel` bounds the number of calls). -/
def Lexer.tokenize : Nat → Lexer → List Token × Res Token
  | 0, _ => ([], .outOfFuel)
  | fuel + 1, l =>
    match l.getNextToken with
    | .ok (tok, l1) =>
      if tok.type = .EOF then ([], .ok tok)
      else (tok :: (Lexer.tokenize fuel l1).1, (Lexer.tokenize fuel l1).2)
    | .throw m => ([], .throw m)
    | .unsupported => ([], .unsupported)
    | .outOfFuel => ([], .outOfFuel)

/-- The characters of the source text `1 )`. -/
def strayParenSource : List Char := "1 )".toList

/-- The characters of the source text `(1`. -/
def unclosedParenSource : List Char := "(1".toList

/-- The characters of the source text `if 1`. -/
def ifNoParenSource : List Char := "if 1".toList

/-- The characters of the source text `let 1 = 2`. -/
def letNumberSource : List Char := "let 1 = 2".toList

/-- The characters of the source text `1 +`. -/
def danglingPlusSource : List Char := "1 +".toList

/-- The token kinds with which a factor starts. -/
def factorStarts : List TokenType := [.PLUS, .MINUS, .NUMBER, .STRING, .IDENTIFIER, .LPAREN]

/-- The token kinds with which a statement starts: the six kinds of the switch of `statement`
and the kinds with which an expression starts. -/
def statementStarts : List TokenType :=
  [.LBRACE, .IF, .WHILE, .LET, .PRINT, .IDENTIFIER, .PLUS, .MINUS, .NUMBER, .STRING, .LPAREN]

/-- The characters of the source text `x`. -/
def bareSource : List Char := "x".toList

/-- The characters of the source text `x;`. -/
def bareSemiSource : List Char := "x;".toList

/-- The characters of the source text `x = 1`. -/
def assignSource : List Char := "x = 1".toList

/-- The characters of the source text `(x)`. -/
def parenIdentSource : List Char := "(x)".toList

/-- The characters of the source text `print x`. -/
def printIdentSource : List Char := "print x".toList

/-- The tree of the source `if (0 / 0) print 1`. -/
def nanConditionTree : AST :=
  .Program [.If (.BinOp (numLit 0) ⟨.DIVIDE, .string "/"⟩ (numLit 0)) (.Print (numLit 1)) none]

/-- The characters of the source text `if (0 / 0) print 1`. -/
def nanConditionSource : List Char := "if (0 / 0) print 1".toList

/-- The characters of the source text `print 1 print y`. -/
def printFailSource : List Char := "print 1 print y".toList

/-- Trees built only from `Num`, `Str`, `Var`, `UnaryOp` and `BinOp`. -/
inductive IsExpression : AST → Prop
  | num (t : Token) : IsExpression (.Num t)
  | str (t : Token) : IsExpression (.Str t)
  | var (t : Token) : IsExpression (.Var t)
  | unaryOp (op : Token) (e : AST) : IsExpression e → IsExpression (.UnaryOp op e)
  | binOp (l : AST) (op : Token) (r : AST) :
    IsExpression l → IsExpression r → IsExpression (.BinOp l op r)

/-- Trees in which no `VarDecl`, `Assign` or `Print` node occurs. -/
inductive Inert : AST → Prop
  | num (t : Token) : Inert (.Num t)
  | str (t : Token) : Inert (.Str t)
  | var (t : Token) : Inert (.Var t)
  | unaryOp (op : Token) (e : AST) : Inert e → Inert (.UnaryOp op e)
  | binOp (l : AST) (op : Token) (r : AST) : Inert l → Inert r → Inert (.BinOp l op r)
  | program (ss : List AST) : (∀ s ∈ ss, Inert s) → Inert (.Program ss)
  | block (ss : List AST) : (∀ s ∈ ss, Inert s) → Inert (.Block ss)
  | ifThen (c t : AST) : Inert c → Inert t → Inert (.If c t none)
  | ifThenElse (c t e : AST) : Inert c → Inert t → Inert e → Inert (.If c t (some e))
  | loop (c b : AST) : Inert c → Inert b → Inert (.While c b)

/-- The tree of the source `if (1) if (2) print 3 else print 4`: the else belongs to the
inner if. -/
def danglingTree : AST :=
  .Program [.If (numLit 1) (.If (numLit 2) (.Print (numLit 3)) (some (.Print (numLit 4)))) none]

/-- The characters of the source text `if (1) if (2) print 3 else print 4`. -/
def danglingSource : List Char := "if (1) if (2) print 3 else print 4".toList

/-! ## Equality of trees is decidable -/

mutual

theorem AST.eq_of_beq : ∀ a b : AST, AST.beq a b = true → a = b := by
  intro a b h
  cases a <;> cases b <;>
    simp only [AST.beq, Bool.and_eq_true, decide_eq_true_eq, Bool.false_eq_true] at h
  · rw [AST.eq_of_beqList _ _ h]
  · rw [AST.eq_of_beqList _ _ h]
  · rw [h.1, AST.eq_of_beq _ _ h.2]
  · rw [h.1, AST.eq_of_beq _ _ h.2]
  · rw [h]
  · rw [AST.eq_of_beq _ _ h.1.1, h.1.2, AST.eq_of_beq _ _ h.2]
  · rw [h.1, AST.eq_of_beq _ _ h.2]
  · rw [h]
  · rw [h]
  · rw [AST.eq_of_beq _ _ h.1.1, AST.eq_of_beq _ _ h.1.2, AST.eq_of_beqOption _ _ h.2]
  · rw [AST.eq_of_beq _ _ h.1, AST.eq_of_beq _ _ h.2]
  · rw [AST.eq_of_beq _ _ h]

theorem AST.eq_of_beqList : ∀ xs ys : List AST, AST.beqList xs ys = true → xs = ys := by
  intro xs ys h
  cases xs <;> cases ys <;>
    simp only [AST.beqList, Bool.and_eq_true, Bool.false_eq_true] at h
  · rfl
  · rw [AST.eq_of_beq _ _ h.1, AST.eq_of_beqList _ _ h.2]

theorem AST.eq_of_beqOption : ∀ x y : Option AST, AST.beqOption x y = true → x = y := by
  intro x y h
  cases x <;> cases y <;> simp only [AST.beqOption, Bool.false_eq_true] at h
  · rfl
  · rw [AST.eq_of_beq _ _ h]

end

mutual

theorem AST.beq_self : ∀ a : AST, AST.beq a a = true := by
  intro a
  cases a <;> simp only [AST.beq, Bool.and_eq_true, decide_eq_true_eq, true_and, and_true]
  · exact AST.beqList_self _
  · exact AST.beqList_self _
  · exact AST.beq_self _
  · exact AST.beq_self _
  · exact ⟨AST.beq_self _, AST.beq_self _⟩
  · exact AST.beq_self _
  · exact ⟨⟨AST.beq_self _, AST.beq_self _⟩, AST.beqOption_self _⟩
  · exact ⟨AST.beq_self _, AST.beq_self _⟩
  · exact AST.beq_self _

theorem AST.beqList_self : ∀ xs : List AST, AST.beqList xs xs = true := by
  intro xs
  cases xs <;> simp only [AST.beqList, Bool.and_eq_true]
  exact ⟨AST.beq_self _, AST.beqList_self _⟩

theorem AST.beqOption_self : ∀ x : Option AST, AST.beqOption x x = true := by
  intro x
  cases x <;> simp only [AST.beqOption]
  exact AST.beq_self _

end

instance : DecidableEq AST := fun a b =>
  if h : AST.beq a b = true then isTrue (AST.eq_of_beq a b h)
  else isFalse fun e => h (e ▸ AST.beq_self a)

/-! ## Rounding to the nearest double -/

namespace JSNum

theorem pow2_eq (g : Int) : pow2 g = (2 : ℚ) ^ g := by
  unfold pow2
  rcases g with n | n
  · simp
  · have h : ¬ (0 : Int) ≤ Int.negSucc n := by simp
    rw [if_neg h]
    simp [zpow_negSucc, Int.neg_negSucc]

theorem log2Fuel_eq (fuel : Nat) : ∀ n, n ≤ fuel → log2Fuel fuel n = Nat.log2 n := by
  induction fuel with
  | zero =>
    intro n h
    have : n = 0 := by omega
    subst this; simp [log2Fuel, Nat.log2]
  | succ f ih =>
    intro n h
    rw [log2Fuel, Nat.log2]
    split_ifs with h2
    · rw [ih (n / 2) (by omega)]
    · rfl

theorem floorLog2_eq (n : Nat) : floorLog2 n = Nat.log2 n := log2Fuel_eq n n le_rfl

theorem abs_eq_natAbs_div (q : ℚ) : |q| = (q.num.natAbs : ℚ) / (q.den : ℚ) := by
  conv_lhs => rw [← Rat.num_div_den q]
  rw [abs_div, Nat.abs_cast, Nat.cast_natAbs, Int.cast_abs]

theorem binade_spec (q : ℚ) (hq : q ≠ 0) :
    (2 : ℚ) ^ binade q ≤ |q| ∧ |q| < (2 : ℚ) ^ (binade q + 1) := by
  have hn : q.num.natAbs ≠ 0 := by simpa using hq
  have hd : q.den ≠ 0 := q.den_nz
  have h1 : ((2 ^ q.num.natAbs.log2 : Nat) : ℚ) ≤ q.num.natAbs := by
    exact_mod_cast Nat.log2_self_le hn
  have h2 : (q.num.natAbs : ℚ) < ((2 ^ (q.num.natAbs.log2 + 1) : Nat) : ℚ) := by
    exact_mod_cast Nat.lt_log2_self
  have h3 : ((2 ^ q.den.log2 : Nat) : ℚ) ≤ q.den := by
    exact_mod_cast Nat.log2_self_le hd
  have h4 : (q.den : ℚ) < ((2 ^ (q.den.log2 + 1) : Nat) : ℚ) := by
    exact_mod_cast Nat.lt_log2_self
  have hdpos : (0 : ℚ) < q.den := by exact_mod_cast q.den_pos
  have hnpos : (0 : ℚ) < q.num.natAbs := by exact_mod_cast Nat.pos_of_ne_zero hn
  have habs := abs_eq_natAbs_div q
  push_cast at h1 h2 h3 h4
  have two : (2 : ℚ) ≠ 0 := by norm_num
  have up : |q| < (2 : ℚ) ^ ((q.num.natAbs.log2 : Int) - (q.den.log2 : Int) + 1) := by
    rw [habs, zpow_add₀ two, zpow_sub₀ two, zpow_natCast, zpow_natCast, zpow_one,
      div_lt_iff₀ hdpos]
    have hp : (0 : ℚ) < 2 ^ q.den.log2 := by positivity
    calc (q.num.natAbs : ℚ) < 2 ^ (q.num.natAbs.log2 + 1) := h2
      _ = 2 ^ q.num.natAbs.log2 / 2 ^ q.den.log2 * 2 * 2 ^ q.den.log2 := by
          field_simp; ring
      _ ≤ 2 ^ q.num.natAbs.log2 / 2 ^ q.den.log2 * 2 * q.den := by
          apply mul_le_mul_of_nonneg_left h3; positivity
  have low : (2 : ℚ) ^ ((q.num.natAbs.log2 : Int) - (q.den.log2 : Int) - 1) ≤ |q| := by
    rw [habs, zpow_sub₀ two, zpow_sub₀ two, zpow_natCast, zpow_natCast, zpow_one,
      le_div_iff₀ hdpos]
    have hp : (0 : ℚ) < 2 ^ q.den.log2 := by positivity
    calc (2 : ℚ) ^ q.num.natAbs.log2 / 2 ^ q.den.log2 / 2 * q.den
        ≤ 2 ^ q.num.natAbs.log2 / 2 ^ q.den.log2 / 2 * 2 ^ (q.den.log2 + 1) := by
          apply mul_le_mul_of_nonneg_left h4.le; positivity
      _ = 2 ^ q.num.natAbs.log2 := by field_simp; ring
      _ ≤ q.num.natAbs := h1
  unfold binade
  simp only [pow2_eq, floorLog2_eq]
  split_ifs with h
  · exact ⟨low, by simpa using h⟩
  · exact ⟨not_lt.1 h, up⟩

theorem roundHalfEven_intCast (k : Int) : roundHalfEven (k : ℚ) = k := by
  simp [roundHalfEven]

theorem roundHalfEven_error (x : ℚ) : |(roundHalfEven x : ℚ) - x| ≤ 1 / 2 := by
  have h1 := Int.floor_le x
  have h2 := Int.lt_floor_add_one x
  unfold roundHalfEven
  simp only
  split_ifs with a b c
  · rw [abs_le]; constructor <;> linarith
  · rw [abs_le]; push_cast; constructor <;> linarith
  · rw [abs_le]; constructor <;> linarith
  · rw [abs_le]; push_cast; constructor <;> linarith


theorem natCast_lt_two_zpow (m k : Nat) (h : m < 2 ^ k) : (m : ℚ) < (2 : ℚ) ^ (k : Int) := by
  rw [zpow_natCast]
  exact_mod_cast h

theorem roundDouble_exact (q : ℚ) (m : Nat) (g1 : Int) (h0 : q ≠ 0)
    (hq : |q| = (m : ℚ) * (2 : ℚ) ^ g1) (hm : m < 2 ^ 53) (hg : -1074 ≤ g1)
    (hlt : |q| < (2 : ℚ) ^ (1024 : Int)) : roundDouble q = fin q := by
  obtain ⟨hlo, -⟩ := binade_spec q h0
  have two : (1 : ℚ) < 2 := by norm_num
  have hmq : (m : ℚ) < (2 : ℚ) ^ (53 : Int) := natCast_lt_two_zpow m 53 hm
  have hpos : (0 : ℚ) < (2 : ℚ) ^ g1 := by positivity
  have hlt2 : (2 : ℚ) ^ binade q < (2 : ℚ) ^ (53 + g1) := by
    rw [zpow_add₀ (by norm_num : (2 : ℚ) ≠ 0)]
    calc (2 : ℚ) ^ binade q ≤ |q| := hlo
      _ = (m : ℚ) * (2 : ℚ) ^ g1 := hq
      _ < (2 : ℚ) ^ (53 : Int) * (2 : ℚ) ^ g1 := by
          exact mul_lt_mul_of_pos_right hmq hpos
  have he : binade q < 53 + g1 := (zpow_lt_zpow_iff_right₀ two).1 hlt2
  have hgle : max (binade q - 52) (-1074) ≤ g1 := max_le (by omega) hg
  obtain ⟨d, hd⟩ : ∃ d : Nat, g1 = max (binade q - 52) (-1074) + d :=
    ⟨(g1 - max (binade q - 52) (-1074)).toNat, by omega⟩
  have hsig : |q| / (2 : ℚ) ^ max (binade q - 52) (-1074) = ((m * 2 ^ d : Nat) : Int) := by
    have hp : (0 : ℚ) < (2 : ℚ) ^ max (binade q - 52) (-1074) := by positivity
    rw [hq, div_eq_iff hp.ne']
    conv_lhs => rw [hd]
    rw [zpow_add₀ (by norm_num : (2 : ℚ) ≠ 0), zpow_natCast]
    push_cast
    ring
  have hr : ((roundHalfEven (|q| / (2 : ℚ) ^ max (binade q - 52) (-1074)) : Int) : ℚ) *
      (2 : ℚ) ^ max (binade q - 52) (-1074) = |q| := by
    rw [hsig, roundHalfEven_intCast, ← hsig]
    have hp : (0 : ℚ) < (2 : ℚ) ^ max (binade q - 52) (-1074) := by positivity
    field_simp
  have habs : |q| ≠ 0 := by simpa using h0
  unfold roundDouble
  simp only [pow2_eq, hr, if_neg h0, if_neg (not_le.2 hlt), if_neg habs]
  congr 1
  split_ifs with hneg
  · rw [abs_of_neg hneg]; ring
  · rw [abs_of_nonneg (not_lt.1 hneg)]

theorem roundDouble_natCast (n : Nat) (h : n ≤ 2 ^ 53) : roundDouble (n : ℚ) = fin n := by
  by_cases h0 : n = 0
  · subst h0; simp [roundDouble]
  have hq : ((n : ℚ)) ≠ 0 := by exact_mod_cast h0
  have hbig : (n : ℚ) < (2 : ℚ) ^ (1024 : Int) :=
    lt_of_lt_of_le (natCast_lt_two_zpow n 54 (lt_of_le_of_lt h (by norm_num)))
      ((zpow_le_zpow_iff_right₀ (by norm_num : (1 : ℚ) < 2)).2 (by norm_num))
  by_cases h1 : n = 2 ^ 53
  · refine roundDouble_exact _ (2 ^ 52) 1 hq ?_ (by norm_num) (by norm_num) ?_
    · subst h1; rw [abs_of_nonneg (by positivity)]; norm_num
    · rwa [abs_of_nonneg (by positivity)]
  · refine roundDouble_exact _ n 0 hq ?_ (by omega) (by norm_num) ?_
    · rw [abs_of_nonneg (by positivity)]; simp
    · rwa [abs_of_nonneg (by positivity)]

theorem roundDouble_intCast (z : Int) (h : z.natAbs ≤ 2 ^ 53) : roundDouble (z : ℚ) = fin z := by
  by_cases h0 : z = 0
  · subst h0; simp [roundDouble]
  have hq : ((z : ℚ)) ≠ 0 := by exact_mod_cast h0
  have habs : |(z : ℚ)| = (z.natAbs : ℚ) := by
    rw [Nat.cast_natAbs, Int.cast_abs]
  have hbig : |(z : ℚ)| < (2 : ℚ) ^ (1024 : Int) := by
    rw [habs]
    exact lt_of_lt_of_le (natCast_lt_two_zpow _ 54 (lt_of_le_of_lt h (by norm_num)))
      ((zpow_le_zpow_iff_right₀ (by norm_num : (1 : ℚ) < 2)).2 (by norm_num))
  by_cases h1 : z.natAbs = 2 ^ 53
  · refine roundDouble_exact _ (2 ^ 52) 1 hq ?_ (by norm_num) (by norm_num) hbig
    rw [habs, h1]; norm_num
  · refine roundDouble_exact _ z.natAbs 0 hq ?_ (by omega) (by norm_num) hbig
    rw [habs]; simp

theorem roundDouble_normal (q : ℚ) (hq : 0 < q) (hlo : (2 : ℚ) ^ (-1022 : Int) ≤ q)
    (hhi : q ≤ (2 : ℚ) ^ (1023 : Int)) :
    ∃ r, roundDouble q = fin r ∧ 0 < r ∧ |r - q| ≤ (2 : ℚ) ^ (binade q - 53) ∧
      (2 : ℚ) ^ binade q ≤ q := by
  obtain ⟨blo, bhi⟩ := binade_spec q hq.ne'
  rw [abs_of_pos hq] at blo bhi
  have two : (1 : ℚ) < 2 := by norm_num
  have two0 : (2 : ℚ) ≠ 0 := by norm_num
  have he : -1022 ≤ binade q := by
    have := (zpow_lt_zpow_iff_right₀ two).1 (lt_of_le_of_lt hlo bhi)
    omega
  have he2 : binade q ≤ 1023 := (zpow_le_zpow_iff_right₀ two).1 (le_trans blo hhi)
  have hg : max (binade q - 52) (-1074) = binade q - 52 := max_eq_left (by omega)
  have hp : (0 : ℚ) < (2 : ℚ) ^ (binade q - 52) := by positivity
  have herr := roundHalfEven_error (q / (2 : ℚ) ^ (binade q - 52))
  have hhalf : (2 : ℚ) ^ (binade q - 53) = (2 : ℚ) ^ (binade q - 52) / 2 := by
    rw [show binade q - 53 = binade q - 52 - 1 by ring, zpow_sub₀ two0, zpow_one]
  have hb52 : (2 : ℚ) ^ binade q = (2 : ℚ) ^ (binade q - 52) * (2 : ℚ) ^ (52 : Int) := by
    rw [← zpow_add₀ two0]; congr 1; ring
  have hdist : |(roundHalfEven (q / (2 : ℚ) ^ (binade q - 52)) : ℚ) * (2 : ℚ) ^ (binade q - 52)
      - q| ≤ (2 : ℚ) ^ (binade q - 53) := by
    have e : (roundHalfEven (q / (2 : ℚ) ^ (binade q - 52)) : ℚ) * (2 : ℚ) ^ (binade q - 52) - q
        = ((roundHalfEven (q / (2 : ℚ) ^ (binade q - 52)) : ℚ) - q / (2 : ℚ) ^ (binade q - 52))
          * (2 : ℚ) ^ (binade q - 52) := by
      field_simp
    rw [e, abs_mul, abs_of_pos hp, hhalf]
    calc _ ≤ 1 / 2 * (2 : ℚ) ^ (binade q - 52) := mul_le_mul_of_nonneg_right herr hp.le
      _ = _ := by ring
  have hsmall : (2 : ℚ) ^ (binade q - 53) < (2 : ℚ) ^ binade q :=
    (zpow_lt_zpow_iff_right₀ two).2 (by omega)
  have hrpos : 0 < (roundHalfEven (q / (2 : ℚ) ^ (binade q - 52)) : ℚ) *
      (2 : ℚ) ^ (binade q - 52) := by
    have := (abs_le.1 hdist).1
    linarith
  have hrlt : (roundHalfEven (q / (2 : ℚ) ^ (binade q - 52)) : ℚ) *
      (2 : ℚ) ^ (binade q - 52) < (2 : ℚ) ^ (1024 : Int) := by
    have := (abs_le.1 hdist).2
    have h1 : (2 : ℚ) ^ (binade q - 53) < (2 : ℚ) ^ (1023 : Int) :=
      (zpow_lt_zpow_iff_right₀ two).2 (by omega)
    have h2 : (2 : ℚ) ^ (1024 : Int) = 2 * (2 : ℚ) ^ (1023 : Int) := by
      rw [show (1024 : Int) = 1 + 1023 by norm_num, zpow_add₀ two0, zpow_one]
    linarith
  refine ⟨_, ?_, hrpos, hdist, blo⟩
  unfold roundDouble
  simp only [pow2_eq, if_neg hq.ne', hg, abs_of_pos hq, if_neg (not_le.2 hrlt),
    if_neg hrpos.ne', if_neg (not_lt.2 hq.le)]

end JSNum

/-! ## Decimal literals and the lexer on them -/

theorem digitChar_spec (k : Nat) (hk : k < 10) :
    isDigit (Nat.digitChar k) = true ∧ (Nat.digitChar k).toNat - 48 = k := by
  interval_cases k <;> decide

theorem digitsValue_append (xs : List Char) (c : Char) :
    digitsValue (xs ++ [c]) = 10 * digitsValue xs + (c.toNat - 48) := by
  simp [digitsValue, List.foldl_append]

theorem toDigitsCore_spec (fuel : Nat) : ∀ (n : Nat) (ds : List Char), n < fuel →
    ∃ pre, Nat.toDigitsCore 10 fuel n ds = pre ++ ds ∧ pre ≠ [] ∧
      (∀ c ∈ pre, isDigit c = true) ∧ digitsValue pre = n := by
  induction fuel with
  | zero => intro n ds h; omega
  | succ fuel ih =>
    intro n ds h
    have hd := digitChar_spec (n % 10) (Nat.mod_lt _ (by decide))
    by_cases h0 : n / 10 = 0
    · refine ⟨[Nat.digitChar (n % 10)], ?_, by simp, ?_, ?_⟩
      · simp [Nat.toDigitsCore, h0]
      · simpa using hd.1
      · have : n < 10 := by omega
        simp [digitsValue, hd.2]; omega
    · obtain ⟨pre, hpre, hne, hall, hval⟩ := ih (n / 10) (Nat.digitChar (n % 10) :: ds) (by omega)
      refine ⟨pre ++ [Nat.digitChar (n % 10)], ?_, by simp, ?_, ?_⟩
      · simp [Nat.toDigitsCore, h0, hpre]
      · intro c hc
        rcases List.mem_append.1 hc with hc | hc
        · exact hall c hc
        · simp at hc; subst hc; exact hd.1
      · rw [digitsValue_append, hval, hd.2]; omega

theorem toString_nat_spec (n : Nat) :
    (toString n).toList ≠ [] ∧ (∀ c ∈ (toString n).toList, isDigit c = true) ∧
      digitsValue (toString n).toList = n := by
  obtain ⟨pre, hpre, hne, hall, hval⟩ := toDigitsCore_spec (n + 1) n [] (by omega)
  have : (toString n).toList = pre := by
    show (Nat.repr n).toList = pre
    simp [Nat.repr, Nat.toDigits, hpre, List.asString]
  rw [this]; exact ⟨hne, hall, hval⟩

theorem takeWhile_run (p : Char → Bool) (xs r : List Char) (hall : ∀ c ∈ xs, p c = true)
    (hr : ∀ c, r.head? = some c → p c = false) : (xs ++ r).takeWhile p = xs := by
  induction xs with
  | nil =>
    cases r with
    | nil => rfl
    | cons c r => simp [List.takeWhile, hr c rfl]
  | cons x xs ih =>
    have hx : p x = true := hall x (List.mem_cons_self _ _)
    simp only [List.cons_append, List.takeWhile_cons, hx, if_true]
    rw [ih (fun c hc => hall c (List.mem_cons_of_mem _ hc))]

theorem Lexer.rest_mk_add (l : Lexer) (k : Nat) :
    Lexer.rest ⟨l.input, l.position + k⟩ = l.rest.drop k := by
  simp [Lexer.rest, List.drop_drop, Nat.add_comm]

theorem Lexer.getNextToken_skip (l : Lexer) (ws r : List Char) (h : l.rest = ws ++ r)
    (hws : ∀ c ∈ ws, isSpace c = true) (hr : ∀ c, r.head? = some c → isSpace c = false) :
    l.getNextToken = Lexer.getNextToken ⟨l.input, l.position + ws.length⟩ ∧
      Lexer.rest ⟨l.input, l.position + ws.length⟩ = r := by
  have h2 : Lexer.rest ⟨l.input, l.position + ws.length⟩ = r := by
    rw [Lexer.rest_mk_add, h]; simp
  have e1 : l.skipWhitespace = ⟨l.input, l.position + ws.length⟩ := by
    simp [Lexer.skipWhitespace, h, takeWhile_run isSpace ws r hws hr]
  have e2 : Lexer.skipWhitespace ⟨l.input, l.position + ws.length⟩
      = ⟨l.input, l.position + ws.length⟩ := by
    have := takeWhile_run isSpace [] r (by simp) hr
    simp only [List.nil_append] at this
    simp [Lexer.skipWhitespace, h2, this]
  refine ⟨?_, h2⟩
  simp only [Lexer.getNextToken, e1, e2]

theorem Lexer.skipWhitespace_of_head (l : Lexer)
    (hr : ∀ c, l.rest.head? = some c → isSpace c = false) : l.skipWhitespace = l := by
  have := takeWhile_run isSpace [] l.rest (by simp) hr
  simp only [List.nil_append] at this
  simp [Lexer.skipWhitespace, this]

theorem isDigit_not_space (c : Char) (h : isDigit c = true) :
    isSpace c = false ∧ isIdentStart c = false := by
  simp only [isDigit, isSpace, isIdentStart, Bool.and_eq_true, Bool.or_eq_true,
    decide_eq_true_eq, beq_iff_eq, Bool.or_eq_false_iff, Bool.and_eq_false_imp,
    decide_eq_false_iff_not, beq_eq_false_iff_ne] at h ⊢
  omega

theorem Lexer.lex_number (l : Lexer) (ws ds r : List Char) (h : l.rest = ws ++ (ds ++ r))
    (hws : ∀ c ∈ ws, isSpace c = true) (hne : ds ≠ []) (hds : ∀ c ∈ ds, isDigit c = true)
    (hr : ∀ c, r.head? = some c → isDigit c = false ∧ c ≠ '.') :
    ∃ l1, l.getNextToken =
        .ok (⟨.NUMBER, .number (JSNum.roundDouble (digitsValue ds))⟩, l1) ∧
      l1.rest = r ∧ l1.input = l.input := by
  obtain ⟨d, ds1, rfl⟩ := List.exists_cons_of_ne_nil hne
  have hd : isDigit d = true := hds d (List.mem_cons_self _ _)
  obtain ⟨e, hrest⟩ := l.getNextToken_skip ws (d :: ds1 ++ r) h hws
    (by intro c hc; simp at hc; subst hc; exact (isDigit_not_space _ hd).1)
  refine ⟨⟨l.input, l.position + ws.length + (d :: ds1).length⟩, ?_, ?_, rfl⟩
  · rw [e]
    have hsk := Lexer.skipWhitespace_of_head ⟨l.input, l.position + ws.length⟩
      (by rw [hrest]; intro c hc; simp at hc; subst hc; exact (isDigit_not_space _ hd).1)
    have htw := takeWhile_run isDigit (d :: ds1) r hds (fun c hc => (hr c hc).1)
    have hcur : Lexer.currentChar ⟨l.input, l.position + ws.length + (d :: ds1).length⟩
        ≠ some '.' := by
      have := Lexer.rest_mk_add ⟨l.input, l.position + ws.length⟩ (d :: ds1).length
      simp only [hrest] at this
      simp only [Lexer.currentChar, this, List.drop_left]
      intro hc
      exact (hr _ hc).2 rfl
    simp only [Lexer.getNextToken, hsk, Lexer.currentChar, hrest, List.head?_cons,
      List.cons_append, (isDigit_not_space _ hd).2, hd, if_true, Bool.false_eq_true, if_false,
      Lexer.number]
    simp only [← List.cons_append, htw]
    simp only [Lexer.currentChar, List.length_cons] at hcur
    simp [hcur, parseInt]
  · have := Lexer.rest_mk_add ⟨l.input, l.position + ws.length⟩ (d :: ds1).length
    rw [this, hrest]; simp

theorem symbolMap_mem (c : Char) (t : TokenType) (h : symbolMap c = some t) :
    c ∈ ['+', '-', '*', '/', '(', ')', '{', '}', ';', '<', '>', ','] := by
  by_contra hn
  simp only [List.mem_cons, List.mem_singleton, not_or, List.not_mem_nil, not_false_eq_true,
    and_true] at hn
  obtain ⟨h1, h2, h3, h4, h5, h6, h7, h8, h9, h10, h11, h12⟩ := hn
  unfold symbolMap at h
  rw [if_neg h1, if_neg h2, if_neg h3, if_neg h4, if_neg h5, if_neg h6, if_neg h7, if_neg h8,
    if_neg h9, if_neg h10, if_neg h11, if_neg h12] at h
  cases h

theorem symbolMap_toNat (c : Char) (t : TokenType) (h : symbolMap c = some t) :
    c.toNat = 43 ∨ c.toNat = 45 ∨ c.toNat = 42 ∨ c.toNat = 47 ∨ c.toNat = 40 ∨ c.toNat = 41 ∨
      c.toNat = 123 ∨ c.toNat = 125 ∨ c.toNat = 59 ∨ c.toNat = 60 ∨ c.toNat = 62 ∨
      c.toNat = 44 := by
  have hm := symbolMap_mem c t h
  simp only [List.mem_cons, List.mem_singleton, List.not_mem_nil, or_false] at hm
  rcases hm with h | h | h | h | h | h | h | h | h | h | h | h <;> subst h <;> decide

theorem char_ne_of_toNat (c d : Char) (h : c.toNat ≠ d.toNat) : c ≠ d := by
  rintro rfl; exact h rfl

theorem symbolMap_char (c : Char) (t : TokenType) (h : symbolMap c = some t) :
    isSpace c = false ∧ isIdentStart c = false ∧ isDigit c = false ∧ c ≠ '"' ∧ c ≠ '=' ∧
      c ≠ '!' := by
  have hc := symbolMap_toNat c t h
  have e1 : ('"' : Char).toNat = 34 := by decide
  have e2 : ('=' : Char).toNat = 61 := by decide
  have e3 : ('!' : Char).toNat = 33 := by decide
  refine ⟨?_, ?_, ?_, char_ne_of_toNat _ _ (by omega), char_ne_of_toNat _ _ (by omega),
    char_ne_of_toNat _ _ (by omega)⟩
  · simp only [isSpace, Bool.or_eq_false_iff, Bool.and_eq_false_imp, decide_eq_true_eq,
      decide_eq_false_iff_not, beq_eq_false_iff_ne]
    omega
  · simp only [isIdentStart, Bool.or_eq_false_iff, Bool.and_eq_false_imp, decide_eq_true_eq,
      decide_eq_false_iff_not, beq_eq_false_iff_ne]
    omega
  · simp only [isDigit, Bool.and_eq_false_imp, decide_eq_true_eq, decide_eq_false_iff_not]
    omega

theorem Lexer.lex_symbol (l : Lexer) (ws r : List Char) (c : Char) (t : TokenType)
    (h : l.rest = ws ++ c :: r) (hws : ∀ c ∈ ws, isSpace c = true)
    (hsym : symbolMap c = some t) (hlt : c ≠ '<') (hgt : c ≠ '>') :
    ∃ l1, l.getNextToken = .ok (⟨t, .string (String.singleton c)⟩, l1) ∧
      l1.rest = r ∧ l1.input = l.input := by
  obtain ⟨h1, h2, h3, h4, h5, h6⟩ := symbolMap_char c t hsym
  obtain ⟨e, hrest⟩ := l.getNextToken_skip ws (c :: r) h hws
    (by intro x hx; simp at hx; subst hx; exact h1)
  refine ⟨⟨l.input, l.position + ws.length + 1⟩, ?_, ?_, rfl⟩
  · rw [e]
    have hsk := Lexer.skipWhitespace_of_head ⟨l.input, l.position + ws.length⟩
      (by rw [hrest]; intro x hx; simp at hx; subst hx; exact h1)
    simp [Lexer.getNextToken, hsk, Lexer.currentChar, hrest, h2, h3, h4, h5, h6, hlt, hgt,
      hsym, Lexer.advance]
  · have := Lexer.rest_mk_add ⟨l.input, l.position + ws.length⟩ 1
    rw [this, hrest]; simp

theorem Lexer.lex_eof (l : Lexer) (h : ∀ c ∈ l.rest, isSpace c = true) :
    ∃ l1, l.getNextToken = .ok (⟨.EOF, .null⟩, l1) ∧ l1.rest = [] ∧ l1.input = l.input := by
  obtain ⟨e, hrest⟩ := l.getNextToken_skip l.rest [] (by simp) h (by simp)
  refine ⟨⟨l.input, l.position + l.rest.length⟩, ?_, hrest, rfl⟩
  rw [e]
  have hsk := Lexer.skipWhitespace_of_head ⟨l.input, l.position + l.rest.length⟩
    (by rw [hrest]; simp)
  simp [Lexer.getNextToken, hsk, Lexer.currentChar, hrest]

/-! ## More fuel never changes a result -/

theorem Res.le_refl {α : Type} (r : Res α) : Res.le r r := Or.inr rfl

theorem Res.le_bind {α β : Type} {r s : Res α} {f g : α → Res β} (h : Res.le r s)
    (hfg : ∀ a, Res.le (f a) (g a)) : Res.le (r.bind f) (s.bind g) := by
  rcases h with h | h
  · left; rw [h]; rfl
  · subst h
    cases r with
    | ok a => exact hfg a
    | throw m => exact Res.le_refl _
    | unsupported => exact Res.le_refl _
    | outOfFuel => exact Res.le_refl _

theorem Res.eq_of_le {α : Type} {r s : Res α} (h : Res.le r s) (hr : r ≠ .outOfFuel) :
    s = r := by
  rcases h with h | h
  · exact absurd h hr
  · exact h.symm

theorem exprMono_zero (m : Nat) : ExprMono 0 m := by
  refine ⟨?_, ?_, ?_, ?_, ?_⟩ <;> intros <;> left <;> simp [Parser.factor, Parser.termLoop,
    Parser.term, Parser.exprLoop, Parser.expr]

theorem exprMono_succ {n m : Nat} (ih : ExprMono n m) : ExprMono (n + 1) (m + 1) := by
  obtain ⟨hf, htl, ht, hel, he⟩ := ih
  refine ⟨?_, ?_, ?_, ?_, ?_⟩
  · intro p
    simp only [Parser.factor]
    split_ifs
    · exact Res.le_bind (Res.le_refl _) fun p1 => Res.le_bind (hf p1) fun _ => Res.le_refl _
    · exact Res.le_bind (Res.le_refl _) fun p1 => Res.le_bind (hf p1) fun _ => Res.le_refl _
    · exact Res.le_refl _
    · exact Res.le_refl _
    · exact Res.le_refl _
    · exact Res.le_bind (Res.le_refl _) fun p1 => Res.le_bind (he p1) fun _ => Res.le_refl _
    · exact Res.le_refl _
  · intro node p
    simp only [Parser.termLoop]
    split_ifs
    · exact Res.le_bind (Res.le_refl _) fun p1 => Res.le_bind (hf p1) fun _ => htl _ _
    · exact Res.le_refl _
  · intro p
    simp only [Parser.term]
    exact Res.le_bind (hf p) fun _ => htl _ _
  · intro node p
    simp only [Parser.exprLoop]
    split_ifs
    · exact Res.le_bind (Res.le_refl _) fun p1 => Res.le_bind (ht p1) fun _ => hel _ _
    · exact Res.le_refl _
  · intro p
    simp only [Parser.expr]
    exact Res.le_bind (ht p) fun _ => hel _ _

theorem exprMono_add (n k : Nat) : ExprMono n (n + k) := by
  induction n with
  | zero => exact exprMono_zero _
  | succ n ih =>
    have := exprMono_succ ih
    rwa [show n + k + 1 = n + 1 + k by omega] at this

theorem stmtMono_zero (m : Nat) : StmtMono 0 m := by
  refine ⟨?_, ?_, ?_, ?_, ?_, ?_, ?_, ?_⟩ <;> intros <;> left <;>
    simp [Parser.statement, Parser.blockLoop, Parser.block, Parser.ifStatement,
      Parser.whileStatement, Parser.varDeclaration, Parser.printStatement,
      Parser.assignmentStatement]

theorem stmtMono_succ {n m : Nat} (ih : StmtMono n m) (he : ExprMono n m) :
    StmtMono (n + 1) (m + 1) := by
  obtain ⟨hs, hbl, hb, hi, hw, hv, hp, ha⟩ := ih
  have he := he.2.2.2.2
  refine ⟨?_, ?_, ?_, ?_, ?_, ?_, ?_, ?_⟩
  · intro p
    simp only [Parser.statement]
    split
    · exact hb p
    · exact hi p
    · exact hw p
    · exact hv p
    · exact hp p
    · exact ha p
    · exact he p
  · intro ss p
    simp only [Parser.blockLoop]
    split_ifs
    · exact Res.le_bind (hs p) fun _ => hbl _ _
    · exact Res.le_refl _
  · intro p
    simp only [Parser.block]
    exact Res.le_bind (Res.le_refl _) fun p1 => Res.le_bind (hbl _ p1) fun _ => Res.le_refl _
  · intro p
    simp only [Parser.ifStatement]
    refine Res.le_bind (Res.le_refl _) fun p1 => Res.le_bind (Res.le_refl _) fun p2 =>
      Res.le_bind (he p2) fun c => Res.le_bind (Res.le_refl _) fun p3 =>
      Res.le_bind (hs p3) fun t => ?_
    split_ifs
    · exact Res.le_bind (Res.le_refl _) fun p4 => Res.le_bind (hs p4) fun _ => Res.le_refl _
    · exact Res.le_refl _
  · intro p
    simp only [Parser.whileStatement]
    exact Res.le_bind (Res.le_refl _) fun p1 => Res.le_bind (Res.le_refl _) fun p2 =>
      Res.le_bind (he p2) fun c => Res.le_bind (Res.le_refl _) fun p3 =>
      Res.le_bind (hs p3) fun _ => Res.le_refl _
  · intro p
    simp only [Parser.varDeclaration]
    exact Res.le_bind (Res.le_refl _) fun p1 => Res.le_bind (Res.le_refl _) fun p2 =>
      Res.le_bind (Res.le_refl _) fun p3 => Res.le_bind (he p3) fun _ => Res.le_refl _
  · intro p
    simp only [Parser.printStatement]
    exact Res.le_bind (Res.le_refl _) fun p1 => Res.le_bind (he p1) fun _ => Res.le_refl _
  · intro p
    simp only [Parser.assignmentStatement]
    exact Res.le_bind (Res.le_refl _) fun p1 => Res.le_bind (Res.le_refl _) fun p2 =>
      Res.le_bind (he p2) fun _ => Res.le_refl _

theorem stmtMono_add (n k : Nat) : StmtMono n (n + k) := by
  induction n with
  | zero => exact stmtMono_zero _
  | succ n ih =>
    have := stmtMono_succ ih (exprMono_add n k)
    rwa [show n + k + 1 = n + 1 + k by omega] at this

theorem Parser.programLoop_mono (n k : Nat) :
    ∀ ss p, Res.le (Parser.programLoop n ss p) (Parser.programLoop (n + k) ss p) := by
  induction n with
  | zero => intro ss p; left; simp [Parser.programLoop]
  | succ n ih =>
    intro ss p
    rw [show n + 1 + k = n + k + 1 by omega]
    simp only [Parser.programLoop]
    split_ifs
    · exact Res.le_bind ((stmtMono_add n k).1 p) fun _ => ih _ _
    · exact Res.le_refl _

theorem Parser.parse_mono (n k : Nat) (p : Parser) :
    Res.le (Parser.parse n p) (Parser.parse (n + k) p) := by
  simp only [Parser.parse, Parser.program]
  exact Res.le_bind (Res.le_bind (Parser.programLoop_mono n k _ p) fun _ => Res.le_refl _)
    fun _ => Res.le_refl _

theorem parseSource_mono (n k : Nat) (source : String) :
    Res.le (parseSource n source) (parseSource (n + k) source) := by
  simp only [parseSource]
  exact Res.le_bind (Res.le_refl _) fun p =>
    Res.le_bind (Parser.parse_mono n k p) fun _ => Res.le_refl _

theorem Step.le_self (r : Step) : Step.le r r := Or.inr rfl

theorem Step.le_of_bind {r s : Step} {f g : Value → Interpreter → Step} (h : Step.le r s)
    (hfg : ∀ v i, Step.le (f v i) (g v i)) : Step.le (r.bind f) (s.bind g) := by
  rcases h with h | h
  · left
    obtain ⟨a, i⟩ := r
    simp only at h
    subst h
    rfl
  · subst h
    obtain ⟨a, i⟩ := r
    cases a with
    | ok a => exact hfg a i
    | throw m => exact Step.le_self _
    | unsupported => exact Step.le_self _
    | outOfFuel => exact Step.le_self _

theorem Res.run_le {α : Type} (r : Res α) (i : Interpreter) {f g : α → Step}
    (hfg : ∀ a, Step.le (f a) (g a)) : Step.le (r.run i f) (r.run i g) := by
  cases r with
  | ok a => exact hfg a
  | throw m => exact Step.le_self _
  | unsupported => exact Step.le_self _
  | outOfFuel => exact Step.le_self _

theorem Step.eq_of_fuel_le {r s : Step} (h : Step.le r s) (hr : r.1 ≠ .outOfFuel) : s = r := by
  rcases h with h | h
  · exact absurd h hr
  · exact h.symm

theorem visitStatements_le {f g : AST → Interpreter → Step}
    (hfg : ∀ node i, Step.le (f node i) (g node i)) :
    ∀ ss r i, Step.le (visitStatements f ss r i) (visitStatements g ss r i) := by
  intro ss
  induction ss with
  | nil => intro r i; exact Step.le_self _
  | cons s ss ih =>
    intro r i
    simp only [visitStatements]
    exact Step.le_of_bind (hfg s i) fun v i1 => ih v i1

theorem visitMono_zero (m : Nat) : VisitMono 0 m := by
  refine ⟨?_, ?_⟩ <;> intros <;> left <;> simp [Interpreter.visit, Interpreter.whileLoop]

theorem visitMono_succ {n m : Nat} (ih : VisitMono n m) : VisitMono (n + 1) (m + 1) := by
  obtain ⟨hv, hw⟩ := ih
  refine ⟨?_, ?_⟩
  · intro node i
    cases node with
    | Program ss => simp only [Interpreter.visit]; exact visitStatements_le hv ss _ i
    | Block ss => simp only [Interpreter.visit]; exact visitStatements_le hv ss _ i
    | VarDecl name init =>
      simp only [Interpreter.visit]
      exact Step.le_of_bind (hv _ _) fun v i1 => Step.le_self _
    | Assign name value =>
      simp only [Interpreter.visit]
      refine Res.run_le _ _ fun key => ?_
      split_ifs
      · exact Step.le_self _
      · exact Step.le_of_bind (hv _ _) fun v i1 => Step.le_self _
    | Var token => simp only [Interpreter.visit]; exact Step.le_self _
    | BinOp l op r =>
      simp only [Interpreter.visit]
      exact Step.le_of_bind (hv _ _) fun v i1 => Step.le_of_bind (hv _ _) fun _ _ => Step.le_self _
    | UnaryOp op e =>
      simp only [Interpreter.visit]
      split_ifs
      · exact Step.le_of_bind (hv _ _) fun v i1 => Step.le_self _
      · exact Step.le_of_bind (hv _ _) fun v i1 => Step.le_self _
      · exact Step.le_self _
    | Num token => simp only [Interpreter.visit]; exact Step.le_self _
    | Str token => simp only [Interpreter.visit]; exact Step.le_self _
    | If c t e =>
      simp only [Interpreter.visit]
      refine Step.le_of_bind (hv _ _) fun v i1 => ?_
      split_ifs
      · exact hv _ _
      · cases e with
        | some e => exact hv _ _
        | none => exact Step.le_self _
    | While c b => simp only [Interpreter.visit]; exact hw _ _ _ _
    | Print e =>
      simp only [Interpreter.visit]
      exact Step.le_of_bind (hv _ _) fun v i1 => Step.le_self _
  · intro c b r i
    simp only [Interpreter.whileLoop]
    refine Step.le_of_bind (hv _ _) fun v i1 => ?_
    split_ifs
    · exact Step.le_of_bind (hv _ _) fun _ _ => hw _ _ _ _
    · exact Step.le_self _

theorem visitMono_add (n k : Nat) : VisitMono n (n + k) := by
  induction n with
  | zero => exact visitMono_zero _
  | succ n ih =>
    have := visitMono_succ ih
    rwa [show n + k + 1 = n + 1 + k by omega] at this

/-- A visit that does not run out of fuel gives the same outcome with any larger fuel. -/
theorem Interpreter.visit_fuel (n m : Nat) (node : AST) (i : Interpreter) (h : n ≤ m)
    (hr : (Interpreter.visit n node i).1 ≠ .outOfFuel) :
    Interpreter.visit m node i = Interpreter.visit n node i := by
  obtain ⟨k, rfl⟩ := Nat.exists_eq_add_of_le h
  exact Step.eq_of_fuel_le ((visitMono_add n k).1 node i) hr

/-- A parse that does not run out of fuel gives the same outcome with any larger fuel. -/
theorem parseSource_fuel (n m : Nat) (source : String) (h : n ≤ m)
    (hr : parseSource n source ≠ .outOfFuel) : parseSource m source = parseSource n source := by
  obtain ⟨k, rfl⟩ := Nat.exists_eq_add_of_le h
  exact Res.eq_of_le (parseSource_mono n k source) hr

/-- An evaluation that does not run out of fuel gives the same outcome with any larger
fuel. -/
theorem evaluate_fuel (n m : Nat) (source : String) (h : n ≤ m)
    (hr : (evaluate n source).1 ≠ .outOfFuel) : evaluate m source = evaluate n source := by
  have hp : parseSource n source ≠ .outOfFuel := by
    intro hp; apply hr; simp [evaluate, hp, Res.run]
  have e := parseSource_fuel n m source h hp
  simp only [evaluate, e] at hr ⊢
  cases hps : parseSource n source with
  | ok tree =>
    simp only [hps, Res.run, Interpreter.interpret] at hr ⊢
    exact Interpreter.visit_fuel n m tree _ h hr
  | throw msg => rfl
  | unsupported => rfl
  | outOfFuel => exact absurd hps hp

/-! ## Arithmetic on literals: from the source text to the value -/

theorem toList_append (s t : String) : (s ++ t).toList = s.toList ++ t.toList := by
  simp [String.toList, String.data_append]

theorem Lexer.lex_nat (l : Lexer) (ws r : List Char) (n : Nat)
    (h : l.rest = ws ++ ((toString n).toList ++ r)) (hws : ∀ c ∈ ws, isSpace c = true)
    (hr : ∀ c, r.head? = some c → isDigit c = false ∧ c ≠ '.') :
    ∃ l1, l.getNextToken = .ok (⟨.NUMBER, .number (JSNum.roundDouble n)⟩, l1) ∧ l1.rest = r ∧
      l1.input = l.input := by
  obtain ⟨hne, hall, hval⟩ := toString_nat_spec n
  have := l.lex_number ws (toString n).toList r h hws hne hall hr
  rwa [hval] at this

theorem Lexer.rest_new (s : String) : (Lexer.new s).rest = s.toList := by
  simp [Lexer.new, Lexer.rest]

theorem space_is_space : ∀ c ∈ [' '], isSpace c = true := by
  intro c hc; simp at hc; subst hc; decide

theorem lex_num_op_num_op_num (l0 : Lexer) (a b c : Nat) (c1 c2 : Char) (t1 t2 : TokenType)
    (h1 : symbolMap c1 = some t1) (h1a : c1 ≠ '<') (h1b : c1 ≠ '>')
    (h2 : symbolMap c2 = some t2) (h2a : c2 ≠ '<') (h2b : c2 ≠ '>')
    (h : l0.rest = (toString a).toList ++ ' ' :: c1 :: ' ' ::
      ((toString b).toList ++ ' ' :: c2 :: ' ' :: (toString c).toList)) :
    ∃ l1 l2 l3 l4 l5 l6,
      l0.getNextToken = .ok (⟨.NUMBER, .number (JSNum.roundDouble a)⟩, l1) ∧
      l1.getNextToken = .ok (⟨t1, .string (String.singleton c1)⟩, l2) ∧
      l2.getNextToken = .ok (⟨.NUMBER, .number (JSNum.roundDouble b)⟩, l3) ∧
      l3.getNextToken = .ok (⟨t2, .string (String.singleton c2)⟩, l4) ∧
      l4.getNextToken = .ok (⟨.NUMBER, .number (JSNum.roundDouble c)⟩, l5) ∧
      l5.getNextToken = .ok (⟨.EOF, .null⟩, l6) := by
  have hsp : ∀ x, (' ' :: ([] : List Char)).head? = some x →
      isDigit x = false ∧ x ≠ '.' := by
    intro x hx; simp at hx; subst hx; decide
  obtain ⟨l1, e1, r1, -⟩ := l0.lex_nat [] _ a (by simpa using h)
    (by simp) (by intro x hx; simp at hx; subst hx; decide)
  obtain ⟨l2, e2, r2, -⟩ := l1.lex_symbol [' '] _ c1 t1 (by simpa using r1) space_is_space
    h1 h1a h1b
  obtain ⟨l3, e3, r3, -⟩ := l2.lex_nat [' '] _ b (by simpa using r2) space_is_space
    (by intro x hx; simp at hx; subst hx; decide)
  obtain ⟨l4, e4, r4, -⟩ := l3.lex_symbol [' '] _ c2 t2 (by simpa using r3) space_is_space
    h2 h2a h2b
  obtain ⟨l5, e5, r5, -⟩ := l4.lex_nat [' '] [] c (by simpa using r4) space_is_space
    (by simp)
  obtain ⟨l6, e6, -, -⟩ := l5.lex_eof (by simp [r5])
  exact ⟨l1, l2, l3, l4, l5, l6, e1, e2, e3, e4, e5, e6⟩

theorem parse_num_op_mul (fuel : Nat) (l0 l1 l2 l3 l4 l5 l6 : Lexer) (x y z : JSNum)
    (op : Token) (hop : op.type = .PLUS ∨ op.type = .MINUS)
    (h0 : l0.getNextToken = .ok (⟨.NUMBER, .number x⟩, l1))
    (h1 : l1.getNextToken = .ok (op, l2))
    (h2 : l2.getNextToken = .ok (⟨.NUMBER, .number y⟩, l3))
    (h3 : l3.getNextToken = .ok (⟨.MULTIPLY, .string "*"⟩, l4))
    (h4 : l4.getNextToken = .ok (⟨.NUMBER, .number z⟩, l5))
    (h5 : l5.getNextToken = .ok (⟨.EOF, .null⟩, l6)) :
    (Parser.new l0).bind (fun p => (Parser.parse (fuel + 8) p).bind fun r => .ok r.1) =
      .ok (.Program [.BinOp (.Num ⟨.NUMBER, .number x⟩) op
        (.BinOp (.Num ⟨.NUMBER, .number y⟩) ⟨.MULTIPLY, .string "*"⟩
          (.Num ⟨.NUMBER, .number z⟩))]) := by
  rcases hop with hop | hop <;>
  simp [Parser.new, Parser.parse, Parser.program, Parser.programLoop, Parser.statement,
    Parser.expr, Parser.term, Parser.factor, Parser.termLoop, Parser.exprLoop, Parser.eat,
    Res.bind, exprOps, termOps, h0, h1, h2, h3, h4, h5, hop]

theorem JSNum.mul_nat (b c : Nat) (h : b * c ≤ 2 ^ 53) :
    JSNum.mul (.fin b) (.fin c) = .fin ((b : ℚ) * c) := by
  by_cases hb : (b : ℚ) = 0
  · simp [JSNum.mul, JSNum.isNeg, JSNum.isInf, JSNum.isZero, JSNum.signedZero, hb]
  · by_cases hc : (c : ℚ) = 0
    · simp [JSNum.mul, JSNum.isNeg, JSNum.isInf, JSNum.isZero, JSNum.signedZero, hc]
    · have := JSNum.roundDouble_natCast (b * c) h
      push_cast at this
      simp [JSNum.mul, JSNum.isNeg, JSNum.isInf, JSNum.isZero, JSNum.toRat, hb, hc, this]

theorem JSNum.add_nat (a b : Nat) (h : a + b ≤ 2 ^ 53) :
    JSNum.add (.fin a) (.fin b) = .fin ((a : ℚ) + b) := by
  have := JSNum.roundDouble_natCast (a + b) h
  push_cast at this
  simp [JSNum.add, this]

theorem JSNum.sub_nat (a b : Nat) (ha : a ≤ 2 ^ 53) (hb : b ≤ 2 ^ 53) :
    JSNum.sub (.fin a) (.fin b) = .fin ((a : ℚ) - b) := by
  by_cases h0 : (b : ℚ) = 0
  · simp [JSNum.sub, JSNum.neg, JSNum.add, h0]
  · have := JSNum.roundDouble_intCast ((a : Int) - b) (by omega)
    push_cast at this
    simp [JSNum.sub, JSNum.neg, JSNum.add, h0, ← sub_eq_add_neg, this]

theorem eval_add_mul (a b c fuel : Nat) :
    evaluate (fuel + 8) (toString a ++ " + " ++ toString b ++ " * " ++ toString c) =
      (.ok (.number (JSNum.add (JSNum.roundDouble a)
        (JSNum.mul (JSNum.roundDouble b) (JSNum.roundDouble c)))), Interpreter.new) := by
  obtain ⟨l1, l2, l3, l4, l5, l6, e1, e2, e3, e4, e5, e6⟩ :=
    lex_num_op_num_op_num (Lexer.new (toString a ++ " + " ++ toString b ++ " * " ++ toString c))
      a b c '+' '*' .PLUS .MULTIPLY rfl (by decide) (by decide) rfl (by decide) (by decide)
      (by simp [Lexer.rest_new, toList_append])
  have hp := parse_num_op_mul fuel _ l1 l2 l3 l4 l5 l6 _ _ _ ⟨.PLUS, .string "+"⟩
    (Or.inl rfl) e1 e2 e3 e4 e5 e6
  simp only [evaluate, parseSource, hp, Res.run, Interpreter.interpret]
  simp [Interpreter.visit, visitStatements, Step.bind, applyBinOp, Value.plus,
    Value.arith, Value.isTextual, Value.toNumber, Res.bind]

theorem eval_sub_mul (a b c fuel : Nat) :
    evaluate (fuel + 8) (toString a ++ " - " ++ toString b ++ " * " ++ toString c) =
      (.ok (.number (JSNum.sub (JSNum.roundDouble a)
        (JSNum.mul (JSNum.roundDouble b) (JSNum.roundDouble c)))), Interpreter.new) := by
  obtain ⟨l1, l2, l3, l4, l5, l6, e1, e2, e3, e4, e5, e6⟩ :=
    lex_num_op_num_op_num (Lexer.new (toString a ++ " - " ++ toString b ++ " * " ++ toString c))
      a b c '-' '*' .MINUS .MULTIPLY rfl (by decide) (by decide) rfl (by decide) (by decide)
      (by simp [Lexer.rest_new, toList_append])
  have hp := parse_num_op_mul fuel _ l1 l2 l3 l4 l5 l6 _ _ _ ⟨.MINUS, .string "-"⟩
    (Or.inr rfl) e1 e2 e3 e4 e5 e6
  simp only [evaluate, parseSource, hp, Res.run, Interpreter.interpret]
  simp [Interpreter.visit, visitStatements, Step.bind, applyBinOp,
    Value.arith, Value.toNumber, Res.bind]

theorem lex_paren_sum_mul (l0 : Lexer) (a b c : Nat)
    (h : l0.rest = '(' :: ((toString a).toList ++ ' ' :: '+' :: ' ' ::
      ((toString b).toList ++ ')' :: ' ' :: '*' :: ' ' :: (toString c).toList))) :
    ∃ l1 l2 l3 l4 l5 l6 l7 l8, l0.getNextToken = .ok (⟨.LPAREN, .string "("⟩, l1) ∧
      l1.getNextToken = .ok (⟨.NUMBER, .number (JSNum.roundDouble a)⟩, l2) ∧
      l2.getNextToken = .ok (⟨.PLUS, .string "+"⟩, l3) ∧
      l3.getNextToken = .ok (⟨.NUMBER, .number (JSNum.roundDouble b)⟩, l4) ∧
      l4.getNextToken = .ok (⟨.RPAREN, .string ")"⟩, l5) ∧
      l5.getNextToken = .ok (⟨.MULTIPLY, .string "*"⟩, l6) ∧
      l6.getNextToken = .ok (⟨.NUMBER, .number (JSNum.roundDouble c)⟩, l7) ∧
      l7.getNextToken = .ok (⟨.EOF, .null⟩, l8) := by
  obtain ⟨l1, e1, r1, -⟩ := l0.lex_symbol [] _ '(' .LPAREN (by simpa using h) (by simp)
    rfl (by decide) (by decide)
  obtain ⟨l2, e2, r2, -⟩ := l1.lex_nat [] _ a (by simpa using r1)
    (by simp) (by intro x hx; simp at hx; subst hx; decide)
  obtain ⟨l3, e3, r3, -⟩ := l2.lex_symbol [' '] _ '+' .PLUS (by simpa using r2) space_is_space
    rfl (by decide) (by decide)
  obtain ⟨l4, e4, r4, -⟩ := l3.lex_nat [' '] _ b (by simpa using r3) space_is_space
    (by intro x hx; simp at hx; subst hx; decide)
  obtain ⟨l5, e5, r5, -⟩ := l4.lex_symbol [] _ ')' .RPAREN (by simpa using r4) (by simp)
    rfl (by decide) (by decide)
  obtain ⟨l6, e6, r6, -⟩ := l5.lex_symbol [' '] _ '*' .MULTIPLY (by simpa using r5)
    space_is_space rfl (by decide) (by decide)
  obtain ⟨l7, e7, r7, -⟩ := l6.lex_nat [' '] [] c (by simpa using r6) space_is_space
    (by simp)
  obtain ⟨l8, e8, -, -⟩ := l7.lex_eof (by simp [r7])
  exact ⟨l1, l2, l3, l4, l5, l6, l7, l8, e1, e2, e3, e4, e5, e6, e7, e8⟩

theorem eval_paren_sum_mul (a b c fuel : Nat) :
    evaluate (fuel + 10) ("(" ++ toString a ++ " + " ++ toString b ++ ") * " ++ toString c) =
      (.ok (.number (JSNum.mul (JSNum.add (JSNum.roundDouble a) (JSNum.roundDouble b))
        (JSNum.roundDouble c))), Interpreter.new) := by
  obtain ⟨l1, l2, l3, l4, l5, l6, l7, l8, e1, e2, e3, e4, e5, e6, e7, e8⟩ :=
    lex_paren_sum_mul
      (Lexer.new ("(" ++ toString a ++ " + " ++ toString b ++ ") * " ++ toString c)) a b c
      (by simp [Lexer.rest_new, toList_append])
  have hp : parseSource (fuel + 10)
      ("(" ++ toString a ++ " + " ++ toString b ++ ") * " ++ toString c) =
      .ok (.Program [.BinOp (.BinOp (.Num ⟨.NUMBER, .number (JSNum.roundDouble a)⟩)
        ⟨.PLUS, .string "+"⟩ (.Num ⟨.NUMBER, .number (JSNum.roundDouble b)⟩))
        ⟨.MULTIPLY, .string "*"⟩ (.Num ⟨.NUMBER, .number (JSNum.roundDouble c)⟩)]) := by
    simp [parseSource, Parser.new, Parser.parse, Parser.program, Parser.programLoop,
      Parser.statement, Parser.expr, Parser.term, Parser.factor, Parser.termLoop,
      Parser.exprLoop, Parser.eat, Res.bind, exprOps, termOps, e1, e2, e3, e4, e5, e6, e7, e8]
  simp only [evaluate, hp, Res.run, Interpreter.interpret]
  simp [Interpreter.visit, visitStatements, Step.bind, applyBinOp, Value.plus,
    Value.arith, Value.isTextual, Value.toNumber, Res.bind]

theorem evaluate_of_le {n m : Nat} {source : String} {r : Step} (h : evaluate n source = r)
    (hr : r.1 ≠ .outOfFuel) (hnm : n ≤ m) : evaluate m source = r := by
  rw [← h]
  exact evaluate_fuel n m source hnm (by rw [h]; exact hr)

/-- C1, counterexample: the literal `9007199254740993` (two to the 53, plus one) is read as the
double `9007199254740992`, so the source `9007199254740993 + 0 * 0` returns
`9007199254740992`, which is not `a + (b * c)` for the integers written. -/
theorem large_literal_is_rounded :
    evaluate 10 "9007199254740993 + 0 * 0" =
      (.ok (.number (.fin (9007199254740992 : Nat))), Interpreter.new) ∧
    (.fin (9007199254740992 : Nat) : JSNum) ≠
      .fin (((9007199254740993 : Nat) : ℚ) + ((0 : Nat) : ℚ) * (0 : Nat)) := by
  refine ⟨?_, by decide!⟩
  have h := eval_add_mul 9007199254740993 0 0 2
  have e : toString 9007199254740993 ++ " + " ++ toString 0 ++ " * " ++ toString 0 =
      "9007199254740993 + 0 * 0" := by decide
  have v : JSNum.add (JSNum.roundDouble (9007199254740993 : Nat))
      (JSNum.mul (JSNum.roundDouble (0 : Nat)) (JSNum.roundDouble (0 : Nat))) =
      .fin (9007199254740992 : Nat) := by
    decide!
  rw [e, v] at h
  exact h

/-- C1, amended: multiplication binds tighter than addition and subtraction, and parentheses
override it.  For all natural numbers `a`, `b`, `c` written as decimal literals, the sources
`a + b * c`, `a - b * c` and `(a + b) * c` return the host sum (difference) of `a` and the host
product of `b` and `c`, and the host product of the host sum of `a` and `b` by `c`, every
literal being read as the nearest double; when `a + b`, `c`, `a + b * c` and `(a + b) * c` are
at most two to the 53, these are the exact integers `a + (b * c)`, `a - (b * c)` and
`(a + b) * c`.  The interpreter is left as it was created. -/
theorem multiplication_binds_tighter (a b c fuel : Nat) (hab : a + b ≤ 2 ^ 53)
    (hc : c ≤ 2 ^ 53) (h1 : a + b * c ≤ 2 ^ 53) (h2 : (a + b) * c ≤ 2 ^ 53) :
    (∀ x y z : Nat,
      evaluate (fuel + 10) (toString x ++ " + " ++ toString y ++ " * " ++ toString z) =
        (.ok (.number (JSNum.add (JSNum.roundDouble x)
          (JSNum.mul (JSNum.roundDouble y) (JSNum.roundDouble z)))), Interpreter.new) ∧
      evaluate (fuel + 10) (toString x ++ " - " ++ toString y ++ " * " ++ toString z) =
        (.ok (.number (JSNum.sub (JSNum.roundDouble x)
          (JSNum.mul (JSNum.roundDouble y) (JSNum.roundDouble z)))), Interpreter.new) ∧
      evaluate (fuel + 10) ("(" ++ toString x ++ " + " ++ toString y ++ ") * " ++ toString z) =
        (.ok (.number (JSNum.mul (JSNum.add (JSNum.roundDouble x) (JSNum.roundDouble y))
          (JSNum.roundDouble z))), Interpreter.new)) ∧
    evaluate (fuel + 10) (toString a ++ " + " ++ toString b ++ " * " ++ toString c) =
      (.ok (.number (.fin ((a : ℚ) + (b : ℚ) * c))), Interpreter.new) ∧
    evaluate (fuel + 10) (toString a ++ " - " ++ toString b ++ " * " ++ toString c) =
      (.ok (.number (.fin ((a : ℚ) - (b : ℚ) * c))), Interpreter.new) ∧
    evaluate (fuel + 10) ("(" ++ toString a ++ " + " ++ toString b ++ ") * " ++ toString c) =
      (.ok (.number (.fin (((a : ℚ) + (b : ℚ)) * c))), Interpreter.new) := by
  have ha : a ≤ 2 ^ 53 := by omega
  have hb : b ≤ 2 ^ 53 := by omega
  have hbc : b * c ≤ 2 ^ 53 := by omega
  have ra := JSNum.roundDouble_natCast a ha
  have rb := JSNum.roundDouble_natCast b hb
  have rc := JSNum.roundDouble_natCast c hc
  have m1 := JSNum.mul_nat b c hbc
  have a1 : JSNum.add (.fin a) (.fin ((b : ℚ) * c)) = .fin ((a : ℚ) + (b : ℚ) * c) := by
    have := JSNum.add_nat a (b * c) h1
    push_cast at this
    exact this
  have s1 : JSNum.sub (.fin a) (.fin ((b : ℚ) * c)) = .fin ((a : ℚ) - (b : ℚ) * c) := by
    have := JSNum.sub_nat a (b * c) ha hbc
    push_cast at this
    exact this
  have a2 := JSNum.add_nat a b hab
  have m2 : JSNum.mul (.fin ((a : ℚ) + b)) (.fin c) = .fin (((a : ℚ) + b) * c) := by
    have := JSNum.mul_nat (a + b) c h2
    push_cast at this
    exact this
  refine ⟨fun x y z => ⟨eval_add_mul x y z (fuel + 2), eval_sub_mul x y z (fuel + 2),
    eval_paren_sum_mul x y z fuel⟩, ?_, ?_, ?_⟩
  · rw [eval_add_mul a b c (fuel + 2), ra, rb, rc, m1, a1]
  · rw [eval_sub_mul a b c (fuel + 2), ra, rb, rc, m1, s1]
  · rw [eval_paren_sum_mul a b c fuel, ra, rb, rc, a2, m2]

theorem multiplication_binds_tighter_witness :
    evaluate (0 + 10) (toString 2 ++ " + " ++ toString 3 ++ " * " ++ toString 4) =
      (.ok (.number (.fin (((2 : Nat) : ℚ) + ((3 : Nat) : ℚ) * (4 : Nat)))), Interpreter.new) ∧
    evaluate (0 + 10) (toString 2 ++ " - " ++ toString 3 ++ " * " ++ toString 4) =
      (.ok (.number (.fin (((2 : Nat) : ℚ) - ((3 : Nat) : ℚ) * (4 : Nat)))), Interpreter.new) ∧
    evaluate (0 + 10) ("(" ++ toString 2 ++ " + " ++ toString 3 ++ ") * " ++ toString 4) =
      (.ok (.number (.fin ((((2 : Nat) : ℚ) + ((3 : Nat) : ℚ)) * (4 : Nat)))),
        Interpreter.new) :=
  (multiplication_binds_tighter 2 3 4 0 (by norm_num) (by norm_num) (by norm_num)
    (by norm_num)).2

/-! ## Division -/

theorem lex_num_op_num (l0 : Lexer) (a b : Nat) (c1 : Char) (t1 : TokenType)
    (h1 : symbolMap c1 = some t1) (h1a : c1 ≠ '<') (h1b : c1 ≠ '>')
    (h : l0.rest = (toString a).toList ++ ' ' :: c1 :: ' ' :: (toString b).toList) :
    ∃ l1 l2 l3 l4, l0.getNextToken = .ok (⟨.NUMBER, .number (JSNum.roundDouble a)⟩, l1) ∧
      l1.getNextToken = .ok (⟨t1, .string (String.singleton c1)⟩, l2) ∧
      l2.getNextToken = .ok (⟨.NUMBER, .number (JSNum.roundDouble b)⟩, l3) ∧
      l3.getNextToken = .ok (⟨.EOF, .null⟩, l4) := by
  obtain ⟨l1, e1, r1, -⟩ := l0.lex_nat [] _ a (by simpa using h)
    (by simp) (by intro x hx; simp at hx; subst hx; decide)
  obtain ⟨l2, e2, r2, -⟩ := l1.lex_symbol [' '] _ c1 t1 (by simpa using r1) space_is_space
    h1 h1a h1b
  obtain ⟨l3, e3, r3, -⟩ := l2.lex_nat [' '] [] b (by simpa using r2) space_is_space
    (by simp)
  obtain ⟨l4, e4, -, -⟩ := l3.lex_eof (by simp [r3])
  exact ⟨l1, l2, l3, l4, e1, e2, e3, e4⟩

theorem eval_div (a b fuel : Nat) :
    evaluate (fuel + 8) (toString a ++ " / " ++ toString b) =
      (.ok (.number (JSNum.div (JSNum.roundDouble a) (JSNum.roundDouble b))),
        Interpreter.new) := by
  obtain ⟨l1, l2, l3, l4, e1, e2, e3, e4⟩ :=
    lex_num_op_num (Lexer.new (toString a ++ " / " ++ toString b)) a b '/' .DIVIDE rfl
      (by decide) (by decide) (by simp [Lexer.rest_new, toList_append])
  have hp : parseSource (fuel + 8) (toString a ++ " / " ++ toString b) =
      .ok (.Program [.BinOp (.Num ⟨.NUMBER, .number (JSNum.roundDouble a)⟩)
        ⟨.DIVIDE, .string "/"⟩ (.Num ⟨.NUMBER, .number (JSNum.roundDouble b)⟩)]) := by
    simp [parseSource, Parser.new, Parser.parse, Parser.program, Parser.programLoop,
      Parser.statement, Parser.expr, Parser.term, Parser.factor, Parser.termLoop,
      Parser.exprLoop, Parser.eat, Res.bind, exprOps, termOps, e1, e2, e3, e4,
      (by decide : String.singleton '/' = "/")]
  simp only [evaluate, hp, Res.run, Interpreter.interpret]
  simp [Interpreter.visit, visitStatements, Step.bind, applyBinOp,
    Value.arith, Value.toNumber, Res.bind]

theorem JSNum.div_nat (a b : Nat) (hb : b ≠ 0) :
    JSNum.div (.fin a) (.fin b) = JSNum.roundDouble ((a : ℚ) / b) := by
  have hb1 : (b : ℚ) ≠ 0 := by exact_mod_cast hb
  by_cases ha : (a : ℚ) = 0
  · simp [JSNum.div, JSNum.isNeg, JSNum.isInf, JSNum.isZero, JSNum.signedZero, ha, hb1,
      JSNum.roundDouble]
  · simp [JSNum.div, JSNum.isNeg, JSNum.isInf, JSNum.isZero, JSNum.toRat, ha, hb1]

theorem int_far_from_quotient (a b : Nat) (hb : b ≠ 0) (hdiv : ¬ b ∣ a) (z : Int) :
    (1 : ℚ) / b ≤ |(z : ℚ) - (a : ℚ) / b| := by
  have hbq : (0 : ℚ) < b := by exact_mod_cast Nat.pos_of_ne_zero hb
  have hne : z * (b : Int) - (a : Int) ≠ 0 := by
    intro h
    apply hdiv
    have h1 : (a : Int) = z * (b : Int) := by omega
    have h2 : (b : Int) ∣ (a : Int) := ⟨z, by rw [h1]; ring⟩
    exact Int.natCast_dvd_natCast.1 h2
  have h1 : (1 : Int) ≤ |z * (b : Int) - (a : Int)| := Int.one_le_abs hne
  have h2 : (1 : ℚ) ≤ |(z : ℚ) * b - a| := by exact_mod_cast h1
  have e : (z : ℚ) - (a : ℚ) / b = ((z : ℚ) * b - a) / b := by field_simp
  rw [e, abs_div, abs_of_pos hbq]
  exact div_le_div_of_nonneg_right h2 hbq.le

theorem JSNum.quotient_rounded (a b : Nat) (hb : b ≠ 0) (ha : a ≤ 2 ^ 53) (hb2 : b ≤ 2 ^ 53) :
    ∃ r : ℚ, JSNum.roundDouble ((a : ℚ) / b) = .fin r ∧
      |r - (a : ℚ) / b| ≤ (a : ℚ) / b / 2 ^ 53 ∧
      (¬ b ∣ a → ∀ z : Int, r ≠ (z : ℚ)) ∧
      (∀ (m : Nat) (g : Int), m < 2 ^ 53 → -1074 ≤ g → (a : ℚ) / b = m * (2 : ℚ) ^ g →
        r = (a : ℚ) / b) := by
  have hbq : (0 : ℚ) < b := by exact_mod_cast Nat.pos_of_ne_zero hb
  by_cases ha0 : a = 0
  · subst ha0
    refine ⟨0, by simp [JSNum.roundDouble], by simp, fun h => absurd (dvd_zero b) h, ?_⟩
    intro m g _ _ _; simp
  have haq : (0 : ℚ) < a := by exact_mod_cast Nat.pos_of_ne_zero ha0
  have hq : (0 : ℚ) < (a : ℚ) / b := div_pos haq hbq
  have two : (1 : ℚ) < 2 := by norm_num
  have two0 : (2 : ℚ) ≠ 0 := by norm_num
  have ha53 : (a : ℚ) ≤ (2 : ℚ) ^ (53 : Int) := by
    rw [show ((53 : Int)) = ((53 : Nat) : Int) by rfl, zpow_natCast]; exact_mod_cast ha
  have hb53 : (b : ℚ) ≤ (2 : ℚ) ^ (53 : Int) := by
    rw [show ((53 : Int)) = ((53 : Nat) : Int) by rfl, zpow_natCast]; exact_mod_cast hb2
  have ha1 : (1 : ℚ) ≤ a := by exact_mod_cast Nat.pos_of_ne_zero ha0
  have hb1 : (1 : ℚ) ≤ b := by exact_mod_cast Nat.pos_of_ne_zero hb
  have hp53 : (0 : ℚ) < (2 : ℚ) ^ (53 : Int) := by positivity
  have hlow : (2 : ℚ) ^ (-53 : Int) ≤ (a : ℚ) / b := by
    rw [zpow_neg, le_div_iff₀ hbq, inv_mul_le_iff₀ hp53]
    calc (b : ℚ) ≤ (2 : ℚ) ^ (53 : Int) := hb53
      _ = (2 : ℚ) ^ (53 : Int) * 1 := by ring
      _ ≤ (2 : ℚ) ^ (53 : Int) * a := mul_le_mul_of_nonneg_left ha1 hp53.le
  have hhigh : (a : ℚ) / b ≤ (2 : ℚ) ^ (53 : Int) := by
    rw [div_le_iff₀ hbq]
    calc (a : ℚ) ≤ (2 : ℚ) ^ (53 : Int) := ha53
      _ = (2 : ℚ) ^ (53 : Int) * 1 := by ring
      _ ≤ (2 : ℚ) ^ (53 : Int) * b := mul_le_mul_of_nonneg_left hb1 hp53.le
  have hlo2 : (2 : ℚ) ^ (-1022 : Int) ≤ (a : ℚ) / b :=
    le_trans ((zpow_le_zpow_iff_right₀ two).2 (by norm_num)) hlow
  have hhi2 : (a : ℚ) / b ≤ (2 : ℚ) ^ (1023 : Int) :=
    le_trans hhigh ((zpow_le_zpow_iff_right₀ two).2 (by norm_num))
  have hlt1024 : |(a : ℚ) / b| < (2 : ℚ) ^ (1024 : Int) := by
    rw [abs_of_pos hq]
    exact lt_of_le_of_lt hhigh ((zpow_lt_zpow_iff_right₀ two).2 (by norm_num))
  obtain ⟨r, hr, -, hdist, hle⟩ := JSNum.roundDouble_normal _ hq hlo2 hhi2
  obtain ⟨-, bhi⟩ := JSNum.binade_spec _ hq.ne'
  rw [abs_of_pos hq] at bhi
  have he : -1074 ≤ JSNum.binade ((a : ℚ) / b) := by
    have := (zpow_lt_zpow_iff_right₀ two).1 (lt_of_le_of_lt hlow bhi)
    omega
  have hsplit : (2 : ℚ) ^ (JSNum.binade ((a : ℚ) / b) - 53) =
      (2 : ℚ) ^ JSNum.binade ((a : ℚ) / b) / 2 ^ 53 := by
    rw [zpow_sub₀ two0]; norm_cast
  have hexact : ∀ (m : Nat) (g : Int), m < 2 ^ 53 → -1074 ≤ g →
      (a : ℚ) / b = m * (2 : ℚ) ^ g → r = (a : ℚ) / b := by
    intro m g hm hg e
    have := JSNum.roundDouble_exact _ m g hq.ne' (by rw [abs_of_pos hq]; exact e) hm hg hlt1024
    rw [hr] at this
    exact JSNum.fin.inj this
  have hq1 : (a : ℚ) / b / 2 ^ 53 ≤ 1 / b := by
    rw [div_div, div_le_div_iff₀ (by positivity) hbq]
    have : (a : ℚ) ≤ 2 ^ 53 := by exact_mod_cast ha
    nlinarith
  refine ⟨r, hr, ?_, ?_, hexact⟩
  · rw [hsplit] at hdist
    exact le_trans hdist (div_le_div_of_nonneg_right hle (by positivity))
  · intro hdiv z hz
    have hfar := int_far_from_quotient a b hb hdiv z
    rw [← hz] at hfar
    by_cases hpow : (a : ℚ) / b = (2 : ℚ) ^ JSNum.binade ((a : ℚ) / b)
    · have := hexact 1 _ (by norm_num) he (by rw [Nat.cast_one, one_mul]; exact hpow)
      rw [this, sub_self, abs_zero] at hfar
      have : (0 : ℚ) < 1 / b := by positivity
      linarith
    · have hlt : (2 : ℚ) ^ JSNum.binade ((a : ℚ) / b) < (a : ℚ) / b :=
        lt_of_le_of_ne hle (Ne.symm hpow)
      rw [hsplit] at hdist
      have : (2 : ℚ) ^ JSNum.binade ((a : ℚ) / b) / 2 ^ 53 < (a : ℚ) / b / 2 ^ 53 :=
        div_lt_div_of_pos_right hlt (by positivity)
      linarith

/-- C2, counterexample: the source `1 / 3` returns the double nearest to one third, which is
not the rational one third. -/
theorem one_third_is_rounded :
    evaluate 8 "1 / 3" =
      (.ok (.number (.fin (6004799503160661 / 18014398509481984))), Interpreter.new) ∧
    (.fin (6004799503160661 / 18014398509481984) : JSNum) ≠
      .fin (((1 : Nat) : ℚ) / ((3 : Nat) : ℚ)) :=
  ⟨by decide!, by decide!⟩

/-- C2, amended: division is the floating-point division of the host.  For natural numbers
`a` and `b` up to two to the 53, written as decimal literals, with `b` not zero, the source
`a / b` returns the double nearest to the quotient `a / b`.  That double differs from the
quotient by at most the quotient over two to the 53; it is no integer unless `b` divides `a`,
so it is never the integer-truncated quotient; and it is the quotient itself whenever the
quotient is a double.  For all natural literals the result is the host quotient of the doubles
nearest to them.  `10 / 4` yields five halves, which is not 2, and `10 / 2` yields 5. -/
theorem division_is_rounded (a b fuel : Nat) (hb : b ≠ 0) (ha : a ≤ 2 ^ 53)
    (hb2 : b ≤ 2 ^ 53) :
    evaluate (fuel + 8) (toString a ++ " / " ++ toString b) =
      (.ok (.number (JSNum.roundDouble ((a : ℚ) / b))), Interpreter.new) ∧
    (∃ r : ℚ, JSNum.roundDouble ((a : ℚ) / b) = .fin r ∧
      |r - (a : ℚ) / b| ≤ (a : ℚ) / b / 2 ^ 53 ∧
      (¬ b ∣ a → ∀ z : Int, r ≠ (z : ℚ)) ∧
      (∀ (m : Nat) (g : Int), m < 2 ^ 53 → -1074 ≤ g → (a : ℚ) / b = m * (2 : ℚ) ^ g →
        r = (a : ℚ) / b)) ∧
    (∀ x y : Nat, evaluate (fuel + 8) (toString x ++ " / " ++ toString y) =
      (.ok (.number (JSNum.div (JSNum.roundDouble x) (JSNum.roundDouble y))),
        Interpreter.new)) ∧
    evaluate (fuel + 8) "10 / 4" = (.ok (.number (.fin (5 / 2))), Interpreter.new) ∧
    (evaluate (fuel + 8) "10 / 4").1 ≠ .ok (.number (.fin 2)) ∧
    evaluate (fuel + 8) "10 / 2" = (.ok (.number (.fin 5)), Interpreter.new) := by
  have h4 : evaluate (fuel + 8) "10 / 4" = (.ok (.number (.fin (5 / 2))), Interpreter.new) :=
    evaluate_of_le (n := 8) (by decide!) (by decide) (by omega)
  refine ⟨?_, JSNum.quotient_rounded a b hb ha hb2, fun x y => eval_div x y fuel, h4, ?_,
    evaluate_of_le (n := 8) (by decide!) (by decide) (by omega)⟩
  · rw [eval_div a b fuel, JSNum.roundDouble_natCast a ha, JSNum.roundDouble_natCast b hb2,
      JSNum.div_nat a b hb]
  · rw [h4]; decide!

theorem division_is_rounded_witness :
    evaluate (0 + 8) (toString 10 ++ " / " ++ toString 4) =
      (.ok (.number (JSNum.roundDouble (((10 : Nat) : ℚ) / (4 : Nat)))), Interpreter.new) ∧
    JSNum.roundDouble (((10 : Nat) : ℚ) / (4 : Nat)) = .fin (5 / 2) :=
  ⟨(division_is_rounded 10 4 0 (by decide) (by norm_num) (by norm_num)).1, by decide!⟩


/-! ## The tier of additive and comparison operators -/

theorem Parser.term_fuel {n : Nat} (k : Nat) {p : Parser} {r : AST × Parser}
    (h : Parser.term n p = .ok r) : Parser.term (n + k) p = .ok r := by
  have := Res.eq_of_le ((exprMono_add n k).2.2.1 p) (by rw [h]; simp)
  rw [this, h]

theorem Parser.expr_fuel {n : Nat} (k : Nat) {p : Parser} {r : AST × Parser}
    (h : Parser.expr n p = .ok r) : Parser.expr (n + k) p = .ok r := by
  have := Res.eq_of_le ((exprMono_add n k).2.2.2.2 p) (by rw [h]; simp)
  rw [this, h]

theorem parseSource_of_le {n m : Nat} {source : String} {r : Res AST}
    (h : parseSource n source = r) (hr : r ≠ .outOfFuel) (hnm : n ≤ m) :
    parseSource m source = r := by
  rw [← h]
  exact parseSource_fuel n m source hnm (by rw [h]; exact hr)

/-- C3: additive and comparison operators form one left-associative tier.  Whenever `term`
parses `t1`, `t2` and `t3` around two tokens `op1` and `op2` of the kinds PLUS, MINUS, EQUALS,
NOT_EQUALS, LESS, GREATER, LESS_EQUALS, GREATER_EQUALS, and no such token follows `t3`,
`expr` returns `BinOp(BinOp(t1, op1, t2), op2, t3)`; the source `1 + 1 == 2` parses as
`(1 + 1) == 2` and evaluates to true. -/
theorem additive_comparison_left_assoc (fuel : Nat) (p0 p1 q1 p2 q2 p3 : Parser)
    (t1 t2 t3 : AST)
    (h1 : Parser.term fuel p0 = .ok (t1, p1))
    (o1 : p1.currentToken.type ∈ exprOps) (e1 : p1.eat p1.currentToken.type = .ok q1)
    (h2 : Parser.term fuel q1 = .ok (t2, p2))
    (o2 : p2.currentToken.type ∈ exprOps) (e2 : p2.eat p2.currentToken.type = .ok q2)
    (h3 : Parser.term fuel q2 = .ok (t3, p3))
    (hend : p3.currentToken.type ∉ exprOps) :
    Parser.expr (fuel + 4) p0 =
      .ok (.BinOp (.BinOp t1 p1.currentToken t2) p2.currentToken t3, p3) ∧
    parseSource (fuel + 8) "1 + 1 == 2" = .ok (.Program [chainTree]) ∧
    evaluate (fuel + 8) "1 + 1 == 2" = (.ok (.boolean true), Interpreter.new) := by
  refine ⟨?_, parseSource_of_le (n := 8) (by decide!) (by simp) (by omega),
    evaluate_of_le (n := 8) (by decide!) (by decide) (by omega)⟩
  have a1 := Parser.term_fuel 3 h1
  have a2 := Parser.term_fuel 2 h2
  have a3 := Parser.term_fuel 1 h3
  simp [Parser.expr, Parser.exprLoop, a1, a2, a3, o1, o2, e1, e2, hend, Res.bind]

theorem additive_comparison_left_assoc_witness :
    Parser.expr (2 + 4) ⟨⟨chainInput, 1⟩, numTok 1⟩ =
      .ok (chainTree, ⟨⟨chainInput, 10⟩, ⟨.EOF, .null⟩⟩) :=
  (additive_comparison_left_assoc 2 ⟨⟨chainInput, 1⟩, numTok 1⟩
    ⟨⟨chainInput, 3⟩, ⟨.PLUS, .string "+"⟩⟩ ⟨⟨chainInput, 5⟩, numTok 1⟩
    ⟨⟨chainInput, 8⟩, ⟨.EQUALS, .string "=="⟩⟩ ⟨⟨chainInput, 10⟩, numTok 2⟩
    ⟨⟨chainInput, 10⟩, ⟨.EOF, .null⟩⟩ (numLit 1) (numLit 1) (numLit 2)
    (by decide!) (by decide) (by decide!) (by decide!) (by decide) (by decide!) (by decide!)
    (by decide)).1

/-! ## Names that are not bound -/

theorem visit_Var_unbound (fuel : Nat) (n : String) (i : Interpreter)
    (h : ownProperty i.globalScope n = none) (hn : n ∉ objectPrototypeNames) :
    Interpreter.visit (fuel + 1) (varNode n) i =
      (.throw ("Variable '" ++ n ++ "' is not defined"), i) := by
  simp [Interpreter.visit, varNode, Value.toText, Res.run, hasProperty, h, hn]

theorem visit_Assign_unbound (fuel : Nat) (n : String) (e : AST) (i : Interpreter)
    (h : ownProperty i.globalScope n = none) (hn : n ∉ objectPrototypeNames) :
    Interpreter.visit (fuel + 1) (.Assign (.string n) e) i =
      (.throw ("Variable '" ++ n ++ "' is not defined"), i) := by
  simp [Interpreter.visit, Value.toText, Res.run, hasProperty, h, hn]

theorem visit_Var_bound (fuel : Nat) (n : String) (v : Value) (i : Interpreter)
    (h : ownProperty i.globalScope n = some v) :
    Interpreter.visit (fuel + 1) (varNode n) i = (.ok v, i) := by
  simp [Interpreter.visit, varNode, Value.toText, Res.run, hasProperty, getProperty, h]

/-- C4, at the inputs where the code departs from it: in a fresh interpreter, whose scope has
no binding at all, the name `toString` is found all the same, so that reading it returns a
host object and assigning to it creates a binding, both without error; the names `x` and `y`
of the examples do fail with the message that carries the name. -/
theorem inherited_names_count_as_bound (fuel : Nat) :
    ownProperty Interpreter.new.globalScope "toString" = none ∧
    Interpreter.visit (fuel + 1) (varNode "toString") Interpreter.new =
      (.ok (.hostMember "toString"), Interpreter.new) ∧
    Interpreter.visit (fuel + 2) (.Assign (.string "toString") (numLit 1)) Interpreter.new =
      (.ok .undefined, ⟨[("toString", .number (.fin 1))], []⟩) ∧
    evaluate (fuel + 8) "x = 1" = (.throw "Variable 'x' is not defined", Interpreter.new) ∧
    evaluate (fuel + 8) "print y" = (.throw "Variable 'y' is not defined", Interpreter.new) := by
  refine ⟨rfl, ?_, ?_, evaluate_of_le (n := 8) (by decide!) (by decide) (by omega),
    evaluate_of_le (n := 8) (by decide!) (by decide) (by omega)⟩
  · have h := Interpreter.visit_fuel 1 (fuel + 1) (varNode "toString") Interpreter.new
      (by omega) (by decide)
    rw [h]; decide!
  · have h := Interpreter.visit_fuel 2 (fuel + 2) (.Assign (.string "toString") (numLit 1))
      Interpreter.new (by omega) (by decide!)
    rw [h]; decide!

/-! ## Characters outside the alphabet -/

theorem symbolMap_none (c : Char)
    (h : c ∉ ['+', '-', '*', '/', '(', ')', '{', '}', ';', '<', '>', ',']) :
    symbolMap c = none := by
  simp only [List.mem_cons, List.mem_singleton, not_or, List.not_mem_nil, not_false_eq_true,
    and_true] at h
  obtain ⟨h1, h2, h3, h4, h5, h6, h7, h8, h9, h10, h11, h12⟩ := h
  unfold symbolMap
  rw [if_neg h1, if_neg h2, if_neg h3, if_neg h4, if_neg h5, if_neg h6, if_neg h7, if_neg h8,
    if_neg h9, if_neg h10, if_neg h11, if_neg h12]

/-- C5: the lexer rejects every character outside its alphabet.  When the character `c` at the
cursor, after the spaces are skipped, is no letter, underscore or digit, no double quote, no
`=`, none of `+ - * / ( ) { } ; < > ,` and not a `!` followed by `=`, `getNextToken` throws
the error whose message carries exactly `c`; a lone `!` is rejected in this way, and running
`let x = @` fails with the error for `@`. -/
theorem lexer_rejects_foreign_character (l : Lexer) (c : Char) (fuel : Nat)
    (hc : l.skipWhitespace.currentChar = some c)
    (h1 : isIdentStart c = false) (h2 : isDigit c = false) (h3 : c ≠ '"') (h4 : c ≠ '=')
    (h5 : c ∉ ['+', '-', '*', '/', '(', ')', '{', '}', ';', '<', '>', ','])
    (h6 : ¬ (c = '!' ∧ l.skipWhitespace.peek = some '=')) :
    l.getNextToken = .throw ("Invalid character: " ++ String.singleton c) ∧
    (Lexer.new "! 1").getNextToken = .throw "Invalid character: !" ∧
    evaluate (fuel + 8) "let x = @" = (.throw "Invalid character: @", Interpreter.new) := by
  refine ⟨?_, by decide, evaluate_of_le (n := 8) (by decide!) (by decide) (by omega)⟩
  have hlt : c ≠ '<' := fun h => h5 (by simp [h])
  have hgt : c ≠ '>' := fun h => h5 (by simp [h])
  have h6a : ¬ (c = '!' ∧ l.skipWhitespace.advance.rest.head? = some '=') := h6
  simp only [Lexer.getNextToken, hc, h1, h2, h3, h4, hlt, hgt, symbolMap_none c h5,
    Bool.false_eq_true, if_false, false_and, Lexer.peek, h6a]

theorem lexer_rejects_foreign_character_witness :
    (Lexer.new "let x = @").getNextToken.bind (fun r => r.2.getNextToken.bind
      fun r => r.2.getNextToken) = .ok (⟨.ASSIGN, .string "="⟩, ⟨"let x = @".toList, 7⟩) ∧
    Lexer.getNextToken ⟨"let x = @".toList, 7⟩ =
      .throw ("Invalid character: " ++ String.singleton '@') :=
  ⟨by decide, (lexer_rejects_foreign_character ⟨"let x = @".toList, 7⟩ '@' 0 (by decide)
    (by decide) (by decide) (by decide) (by decide) (by decide) (by decide)).1⟩

/-! ## Running the parser on a known token -/

@[simp]
theorem Res.ok_bind {α β : Type} (a : α) (f : α → Res β) : (Res.ok a).bind f = f a := rfl

@[simp]
theorem Res.throw_bind {α β : Type} (m : String) (f : α → Res β) :
    (Res.throw m : Res α).bind f = .throw m := rfl

@[simp]
theorem Parser.eat_same (l : Lexer) (t : TokenType) (v : Value) :
    Parser.eat ⟨l, ⟨t, v⟩⟩ t = l.getNextToken.bind fun r => .ok ⟨r.2, r.1⟩ := by
  simp [Parser.eat]

@[simp]
theorem Parser.eat_other (l : Lexer) (t u : TokenType) (v : Value) (h : t ≠ u) :
    Parser.eat ⟨l, ⟨t, v⟩⟩ u = .throw "Invalid syntax" := by
  simp [Parser.eat, h, Parser.error]

@[simp]
theorem Parser.factor_at (fuel : Nat) (l : Lexer) (t : TokenType) (v : Value) :
    Parser.factor (fuel + 1) ⟨l, ⟨t, v⟩⟩ =
      if t = .PLUS then
        (Parser.eat ⟨l, ⟨t, v⟩⟩ .PLUS).bind fun p1 =>
        (Parser.factor fuel p1).bind fun r => .ok (.UnaryOp ⟨t, v⟩ r.1, r.2)
      else if t = .MINUS then
        (Parser.eat ⟨l, ⟨t, v⟩⟩ .MINUS).bind fun p1 =>
        (Parser.factor fuel p1).bind fun r => .ok (.UnaryOp ⟨t, v⟩ r.1, r.2)
      else if t = .NUMBER then
        (Parser.eat ⟨l, ⟨t, v⟩⟩ .NUMBER).bind fun p1 => .ok (.Num ⟨t, v⟩, p1)
      else if t = .STRING then
        (Parser.eat ⟨l, ⟨t, v⟩⟩ .STRING).bind fun p1 => .ok (.Str ⟨t, v⟩, p1)
      else if t = .IDENTIFIER then
        (Parser.eat ⟨l, ⟨t, v⟩⟩ .IDENTIFIER).bind fun p1 => .ok (.Var ⟨t, v⟩, p1)
      else if t = .LPAREN then
        (Parser.eat ⟨l, ⟨t, v⟩⟩ .LPAREN).bind fun p1 =>
        (Parser.expr fuel p1).bind fun r =>
        (r.2.eat .RPAREN).bind fun p2 => .ok (r.1, p2)
      else .throw "Invalid syntax" := by
  simp only [Parser.factor, Parser.error]

@[simp]
theorem Parser.termLoop_at (fuel : Nat) (node : AST) (l : Lexer) (t : TokenType) (v : Value) :
    Parser.termLoop (fuel + 1) node ⟨l, ⟨t, v⟩⟩ =
      if t ∈ termOps then
        (Parser.eat ⟨l, ⟨t, v⟩⟩ t).bind fun p1 =>
        (Parser.factor fuel p1).bind fun r =>
        Parser.termLoop fuel (.BinOp node ⟨t, v⟩ r.1) r.2
      else .ok (node, ⟨l, ⟨t, v⟩⟩) := by
  simp only [Parser.termLoop]

@[simp]
theorem Parser.term_at (fuel : Nat) (l : Lexer) (t : TokenType) (v : Value) :
    Parser.term (fuel + 1) ⟨l, ⟨t, v⟩⟩ =
      (Parser.factor fuel ⟨l, ⟨t, v⟩⟩).bind fun r => Parser.termLoop fuel r.1 r.2 := by
  simp only [Parser.term]

@[simp]
theorem Parser.exprLoop_at (fuel : Nat) (node : AST) (l : Lexer) (t : TokenType) (v : Value) :
    Parser.exprLoop (fuel + 1) node ⟨l, ⟨t, v⟩⟩ =
      if t ∈ exprOps then
        (Parser.eat ⟨l, ⟨t, v⟩⟩ t).bind fun p1 =>
        (Parser.term fuel p1).bind fun r =>
        Parser.exprLoop fuel (.BinOp node ⟨t, v⟩ r.1) r.2
      else .ok (node, ⟨l, ⟨t, v⟩⟩) := by
  simp only [Parser.exprLoop]

@[simp]
theorem Parser.expr_at (fuel : Nat) (l : Lexer) (t : TokenType) (v : Value) :
    Parser.expr (fuel + 1) ⟨l, ⟨t, v⟩⟩ =
      (Parser.term fuel ⟨l, ⟨t, v⟩⟩).bind fun r => Parser.exprLoop fuel r.1 r.2 := by
  simp only [Parser.expr]

@[simp]
theorem Parser.statement_at (fuel : Nat) (l : Lexer) (t : TokenType) (v : Value) :
    Parser.statement (fuel + 1) ⟨l, ⟨t, v⟩⟩ =
      match t with
      | .LBRACE => Parser.block fuel ⟨l, ⟨t, v⟩⟩
      | .IF => Parser.ifStatement fuel ⟨l, ⟨t, v⟩⟩
      | .WHILE => Parser.whileStatement fuel ⟨l, ⟨t, v⟩⟩
      | .LET => Parser.varDeclaration fuel ⟨l, ⟨t, v⟩⟩
      | .PRINT => Parser.printStatement fuel ⟨l, ⟨t, v⟩⟩
      | .IDENTIFIER => Parser.assignmentStatement fuel ⟨l, ⟨t, v⟩⟩
      | _ => Parser.expr fuel ⟨l, ⟨t, v⟩⟩ := by
  simp only [Parser.statement]

@[simp]
theorem Parser.blockLoop_at (fuel : Nat) (ss : List AST) (l : Lexer) (t : TokenType)
    (v : Value) :
    Parser.blockLoop (fuel + 1) ss ⟨l, ⟨t, v⟩⟩ =
      if t ≠ .RBRACE then
        (Parser.statement fuel ⟨l, ⟨t, v⟩⟩).bind fun r =>
        Parser.blockLoop fuel (ss ++ [r.1]) r.2
      else .ok (ss, ⟨l, ⟨t, v⟩⟩) := by
  simp only [Parser.blockLoop]

@[simp]
theorem Parser.block_at (fuel : Nat) (l : Lexer) (t : TokenType) (v : Value) :
    Parser.block (fuel + 1) ⟨l, ⟨t, v⟩⟩ =
      (Parser.eat ⟨l, ⟨t, v⟩⟩ .LBRACE).bind fun p1 =>
      (Parser.blockLoop fuel [] p1).bind fun r =>
      (r.2.eat .RBRACE).bind fun p2 => .ok (.Block r.1, p2) := by
  simp only [Parser.block]

@[simp]
theorem Parser.ifStatement_at (fuel : Nat) (l : Lexer) (t : TokenType) (v : Value) :
    Parser.ifStatement (fuel + 1) ⟨l, ⟨t, v⟩⟩ =
      (Parser.eat ⟨l, ⟨t, v⟩⟩ .IF).bind fun p1 =>
      (p1.eat .LPAREN).bind fun p2 =>
      (Parser.expr fuel p2).bind fun c =>
      (c.2.eat .RPAREN).bind fun p3 =>
      (Parser.statement fuel p3).bind fun s =>
      if s.2.currentToken.type = .ELSE then
        (s.2.eat .ELSE).bind fun p4 =>
        (Parser.statement fuel p4).bind fun e => .ok (.If c.1 s.1 (some e.1), e.2)
      else .ok (.If c.1 s.1 none, s.2) := by
  simp only [Parser.ifStatement]

@[simp]
theorem Parser.whileStatement_at (fuel : Nat) (l : Lexer) (t : TokenType) (v : Value) :
    Parser.whileStatement (fuel + 1) ⟨l, ⟨t, v⟩⟩ =
      (Parser.eat ⟨l, ⟨t, v⟩⟩ .WHILE).bind fun p1 =>
      (p1.eat .LPAREN).bind fun p2 =>
      (Parser.expr fuel p2).bind fun c =>
      (c.2.eat .RPAREN).bind fun p3 =>
      (Parser.statement fuel p3).bind fun b => .ok (.While c.1 b.1, b.2) := by
  simp only [Parser.whileStatement]

@[simp]
theorem Parser.varDeclaration_at (fuel : Nat) (l : Lexer) (t : TokenType) (v : Value) :
    Parser.varDeclaration (fuel + 1) ⟨l, ⟨t, v⟩⟩ =
      (Parser.eat ⟨l, ⟨t, v⟩⟩ .LET).bind fun p1 =>
      (p1.eat .IDENTIFIER).bind fun p2 =>
      (p2.eat .ASSIGN).bind fun p3 =>
      (Parser.expr fuel p3).bind fun r => .ok (.VarDecl p1.currentToken.value r.1, r.2) := by
  simp only [Parser.varDeclaration]

@[simp]
theorem Parser.printStatement_at (fuel : Nat) (l : Lexer) (t : TokenType) (v : Value) :
    Parser.printStatement (fuel + 1) ⟨l, ⟨t, v⟩⟩ =
      (Parser.eat ⟨l, ⟨t, v⟩⟩ .PRINT).bind fun p1 =>
      (Parser.expr fuel p1).bind fun r => .ok (.Print r.1, r.2) := by
  simp only [Parser.printStatement]

@[simp]
theorem Parser.assignmentStatement_at (fuel : Nat) (l : Lexer) (t : TokenType) (v : Value) :
    Parser.assignmentStatement (fuel + 1) ⟨l, ⟨t, v⟩⟩ =
      (Parser.eat ⟨l, ⟨t, v⟩⟩ .IDENTIFIER).bind fun p1 =>
      (p1.eat .ASSIGN).bind fun p2 =>
      (Parser.expr fuel p2).bind fun r => .ok (.Assign v r.1, r.2) := by
  simp only [Parser.assignmentStatement]

@[simp]
theorem Parser.programLoop_at (fuel : Nat) (ss : List AST) (l : Lexer) (t : TokenType)
    (v : Value) :
    Parser.programLoop (fuel + 1) ss ⟨l, ⟨t, v⟩⟩ =
      if t ≠ .EOF then
        (Parser.statement fuel ⟨l, ⟨t, v⟩⟩).bind fun r =>
        Parser.programLoop fuel (ss ++ [r.1]) r.2
      else .ok (ss, ⟨l, ⟨t, v⟩⟩) := by
  simp only [Parser.programLoop]

/-! ## Flat scope -/

theorem Step.bind_ok (r : Step) : (r.bind fun v i => (.ok v, i)) = r := by
  obtain ⟨a, i⟩ := r
  cases a <;> rfl

theorem parse_flatScope (fuel : Nat) :
    parseSource (fuel + 16) flatScopeText =
      .ok flatScopeTree := by
  have hs : Lexer.new flatScopeText =
      ⟨flatScopeSource, 0⟩ := rfl
  have h0 : Lexer.getNextToken ⟨flatScopeSource, 0⟩ =
      .ok (⟨.LET, .string "let"⟩, ⟨flatScopeSource, 3⟩) := by decide
  have h1 : Lexer.getNextToken ⟨flatScopeSource, 3⟩ =
      .ok (⟨.IDENTIFIER, .string "x"⟩, ⟨flatScopeSource, 5⟩) := by decide
  have h2 : Lexer.getNextToken ⟨flatScopeSource, 5⟩ =
      .ok (⟨.ASSIGN, .string "="⟩, ⟨flatScopeSource, 7⟩) := by decide
  have h3 : Lexer.getNextToken ⟨flatScopeSource, 7⟩ =
      .ok (⟨.NUMBER, .number (.fin 1)⟩, ⟨flatScopeSource, 9⟩) := by decide!
  have h4 : Lexer.getNextToken ⟨flatScopeSource, 9⟩ =
      .ok (⟨.WHILE, .string "while"⟩, ⟨flatScopeSource, 15⟩) := by decide
  have h5 : Lexer.getNextToken ⟨flatScopeSource, 15⟩ =
      .ok (⟨.LPAREN, .string "("⟩, ⟨flatScopeSource, 17⟩) := by decide
  have h6 : Lexer.getNextToken ⟨flatScopeSource, 17⟩ =
      .ok (⟨.IDENTIFIER, .string "x"⟩, ⟨flatScopeSource, 18⟩) := by decide
  have h7 : Lexer.getNextToken ⟨flatScopeSource, 18⟩ =
      .ok (⟨.LESS, .string "<"⟩, ⟨flatScopeSource, 20⟩) := by decide
  have h8 : Lexer.getNextToken ⟨flatScopeSource, 20⟩ =
      .ok (⟨.NUMBER, .number (.fin 3)⟩, ⟨flatScopeSource, 22⟩) := by decide!
  have h9 : Lexer.getNextToken ⟨flatScopeSource, 22⟩ =
      .ok (⟨.RPAREN, .string ")"⟩, ⟨flatScopeSource, 23⟩) := by decide
  have h10 : Lexer.getNextToken ⟨flatScopeSource, 23⟩ =
      .ok (⟨.LBRACE, .string "\x7b"⟩, ⟨flatScopeSource, 25⟩) := by decide
  have h11 : Lexer.getNextToken ⟨flatScopeSource, 25⟩ =
      .ok (⟨.LET, .string "let"⟩, ⟨flatScopeSource, 29⟩) := by decide
  have h12 : Lexer.getNextToken ⟨flatScopeSource, 29⟩ =
      .ok (⟨.IDENTIFIER, .string "y"⟩, ⟨flatScopeSource, 31⟩) := by decide
  have h13 : Lexer.getNextToken ⟨flatScopeSource, 31⟩ =
      .ok (⟨.ASSIGN, .string "="⟩, ⟨flatScopeSource, 33⟩) := by decide
  have h14 : Lexer.getNextToken ⟨flatScopeSource, 33⟩ =
      .ok (⟨.IDENTIFIER, .string "x"⟩, ⟨flatScopeSource, 35⟩) := by decide
  have h15 : Lexer.getNextToken ⟨flatScopeSource, 35⟩ =
      .ok (⟨.IDENTIFIER, .string "x"⟩, ⟨flatScopeSource, 37⟩) := by decide
  have h16 : Lexer.getNextToken ⟨flatScopeSource, 37⟩ =
      .ok (⟨.ASSIGN, .string "="⟩, ⟨flatScopeSource, 39⟩) := by decide
  have h17 : Lexer.getNextToken ⟨flatScopeSource, 39⟩ =
      .ok (⟨.IDENTIFIER, .string "x"⟩, ⟨flatScopeSource, 41⟩) := by decide
  have h18 : Lexer.getNextToken ⟨flatScopeSource, 41⟩ =
      .ok (⟨.PLUS, .string "+"⟩, ⟨flatScopeSource, 43⟩) := by decide
  have h19 : Lexer.getNextToken ⟨flatScopeSource, 43⟩ =
      .ok (⟨.NUMBER, .number (.fin 1)⟩, ⟨flatScopeSource, 45⟩) := by decide!
  have h20 : Lexer.getNextToken ⟨flatScopeSource, 45⟩ =
      .ok (⟨.RBRACE, .string "\x7d"⟩, ⟨flatScopeSource, 47⟩) := by decide
  have h21 : Lexer.getNextToken ⟨flatScopeSource, 47⟩ =
      .ok (⟨.PRINT, .string "print"⟩, ⟨flatScopeSource, 53⟩) := by decide
  have h22 : Lexer.getNextToken ⟨flatScopeSource, 53⟩ =
      .ok (⟨.IDENTIFIER, .string "y"⟩, ⟨flatScopeSource, 55⟩) := by decide
  have h23 : Lexer.getNextToken ⟨flatScopeSource, 55⟩ =
      .ok (⟨.EOF, .null⟩, ⟨flatScopeSource, 55⟩) := by decide
  simp [parseSource, Parser.new, Parser.parse, Parser.program, exprOps, termOps, hs,
    h0, h1, h2, h3, h4, h5, h6, h7, h8, h9, h10, h11, h12, h13, h14, h15, h16, h17, h18, h19, h20, h21, h22, h23]
  rfl

/-! ## Semicolons -/

theorem parse_plainDecl (fuel : Nat) :
    parseSource (fuel + 8) "let x = 1" =
      .ok (.Program [.VarDecl (.string "x") (numLit 1)]) := by
  have hs : Lexer.new "let x = 1" = ⟨plainDeclSource, 0⟩ := rfl
  have h0 : Lexer.getNextToken ⟨plainDeclSource, 0⟩ =
      .ok (⟨.LET, .string "let"⟩, ⟨plainDeclSource, 3⟩) := by decide
  have h1 : Lexer.getNextToken ⟨plainDeclSource, 3⟩ =
      .ok (⟨.IDENTIFIER, .string "x"⟩, ⟨plainDeclSource, 5⟩) := by decide
  have h2 : Lexer.getNextToken ⟨plainDeclSource, 5⟩ =
      .ok (⟨.ASSIGN, .string "="⟩, ⟨plainDeclSource, 7⟩) := by decide
  have h3 : Lexer.getNextToken ⟨plainDeclSource, 7⟩ =
      .ok (⟨.NUMBER, .number (.fin 1)⟩, ⟨plainDeclSource, 9⟩) := by decide!
  have h4 : Lexer.getNextToken ⟨plainDeclSource, 9⟩ =
      .ok (⟨.EOF, .null⟩, ⟨plainDeclSource, 9⟩) := by decide
  simp [parseSource, Parser.new, Parser.parse, Parser.program, exprOps, termOps, hs,
    h0, h1, h2, h3, h4]
  rfl

theorem parse_semi (fuel : Nat) :
    parseSource (fuel + 8) "let x = 1;" =
      .throw "Invalid syntax" := by
  have hs : Lexer.new "let x = 1;" = ⟨semiSource, 0⟩ := rfl
  have h0 : Lexer.getNextToken ⟨semiSource, 0⟩ =
      .ok (⟨.LET, .string "let"⟩, ⟨semiSource, 3⟩) := by decide
  have h1 : Lexer.getNextToken ⟨semiSource, 3⟩ =
      .ok (⟨.IDENTIFIER, .string "x"⟩, ⟨semiSource, 5⟩) := by decide
  have h2 : Lexer.getNextToken ⟨semiSource, 5⟩ =
      .ok (⟨.ASSIGN, .string "="⟩, ⟨semiSource, 7⟩) := by decide
  have h3 : Lexer.getNextToken ⟨semiSource, 7⟩ =
      .ok (⟨.NUMBER, .number (.fin 1)⟩, ⟨semiSource, 9⟩) := by decide!
  have h4 : Lexer.getNextToken ⟨semiSource, 9⟩ =
      .ok (⟨.SEMICOLON, .string ";"⟩, ⟨semiSource, 10⟩) := by decide
  simp [parseSource, Parser.new, Parser.parse, Parser.program, exprOps, termOps, hs,
    h0, h1, h2, h3, h4]

theorem parse_semiTwo (fuel : Nat) :
    parseSource (fuel + 8) "let x = 1; print x" =
      .throw "Invalid syntax" := by
  have hs : Lexer.new "let x = 1; print x" = ⟨semiTwoSource, 0⟩ := rfl
  have h0 : Lexer.getNextToken ⟨semiTwoSource, 0⟩ =
      .ok (⟨.LET, .string "let"⟩, ⟨semiTwoSource, 3⟩) := by decide
  have h1 : Lexer.getNextToken ⟨semiTwoSource, 3⟩ =
      .ok (⟨.IDENTIFIER, .string "x"⟩, ⟨semiTwoSource, 5⟩) := by decide
  have h2 : Lexer.getNextToken ⟨semiTwoSource, 5⟩ =
      .ok (⟨.ASSIGN, .string "="⟩, ⟨semiTwoSource, 7⟩) := by decide
  have h3 : Lexer.getNextToken ⟨semiTwoSource, 7⟩ =
      .ok (⟨.NUMBER, .number (.fin 1)⟩, ⟨semiTwoSource, 9⟩) := by decide!
  have h4 : Lexer.getNextToken ⟨semiTwoSource, 9⟩ =
      .ok (⟨.SEMICOLON, .string ";"⟩, ⟨semiTwoSource, 10⟩) := by decide
  simp [parseSource, Parser.new, Parser.parse, Parser.program, exprOps, termOps, hs,
    h0, h1, h2, h3, h4]

/-- C7, at the inputs where the code departs from it: no rule of the parser consumes a
SEMICOLON token, so a statement that starts at one is a syntax error; the source `let x = 1`
parses, and the same source with a semicolon after the statement, or between it and a second
statement, fails with "Invalid syntax". -/
theorem semicolon_is_a_syntax_error (fuel : Nat) (l : Lexer) (v : Value) :
    Parser.statement (fuel + 4) ⟨l, ⟨.SEMICOLON, v⟩⟩ = .throw "Invalid syntax" ∧
    parseSource (fuel + 8) "let x = 1" = .ok (.Program [.VarDecl (.string "x") (numLit 1)]) ∧
    parseSource (fuel + 8) "let x = 1;" = .throw "Invalid syntax" ∧
    parseSource (fuel + 8) "let x = 1; print x" = .throw "Invalid syntax" :=
  ⟨by simp, parse_plainDecl fuel, parse_semi fuel, parse_semiTwo fuel⟩

/-! ## The sum loop -/

theorem parse_sum (fuel : Nat) :
    parseSource (fuel + 8) sumText =
      .throw "Invalid syntax" := by
  have hs : Lexer.new sumText = ⟨sumSource, 0⟩ := rfl
  have h0 : Lexer.getNextToken ⟨sumSource, 0⟩ =
      .ok (⟨.LET, .string "let"⟩, ⟨sumSource, 3⟩) := by decide
  have h1 : Lexer.getNextToken ⟨sumSource, 3⟩ =
      .ok (⟨.IDENTIFIER, .string "sum"⟩, ⟨sumSource, 7⟩) := by decide
  have h2 : Lexer.getNextToken ⟨sumSource, 7⟩ =
      .ok (⟨.ASSIGN, .string "="⟩, ⟨sumSource, 8⟩) := by decide
  have h3 : Lexer.getNextToken ⟨sumSource, 8⟩ =
      .ok (⟨.NUMBER, .number (.fin 0)⟩, ⟨sumSource, 9⟩) := by decide!
  have h4 : Lexer.getNextToken ⟨sumSource, 9⟩ =
      .ok (⟨.SEMICOLON, .string ";"⟩, ⟨sumSource, 10⟩) := by decide
  simp [parseSource, Parser.new, Parser.parse, Parser.program, exprOps, termOps, hs,
    h0, h1, h2, h3, h4]

theorem parse_sumPlain (fuel : Nat) :
    parseSource (fuel + 20) sumPlainText =
      .ok sumTree := by
  have hs : Lexer.new sumPlainText = ⟨sumPlainSource, 0⟩ := rfl
  have h0 : Lexer.getNextToken ⟨sumPlainSource, 0⟩ =
      .ok (⟨.LET, .string "let"⟩, ⟨sumPlainSource, 3⟩) := by decide
  have h1 : Lexer.getNextToken ⟨sumPlainSource, 3⟩ =
      .ok (⟨.IDENTIFIER, .string "sum"⟩, ⟨sumPlainSource, 7⟩) := by decide
  have h2 : Lexer.getNextToken ⟨sumPlainSource, 7⟩ =
      .ok (⟨.ASSIGN, .string "="⟩, ⟨sumPlainSource, 8⟩) := by decide
  have h3 : Lexer.getNextToken ⟨sumPlainSource, 8⟩ =
      .ok (⟨.NUMBER, .number (.fin 0)⟩, ⟨sumPlainSource, 9⟩) := by decide!
  have h4 : Lexer.getNextToken ⟨sumPlainSource, 9⟩ =
      .ok (⟨.LET, .string "let"⟩, ⟨sumPlainSource, 13⟩) := by decide
  have h5 : Lexer.getNextToken ⟨sumPlainSource, 13⟩ =
      .ok (⟨.IDENTIFIER, .string "i"⟩, ⟨sumPlainSource, 15⟩) := by decide
  have h6 : Lexer.getNextToken ⟨sumPlainSource, 15⟩ =
      .ok (⟨.ASSIGN, .string "="⟩, ⟨sumPlainSource, 16⟩) := by decide
  have h7 : Lexer.getNextToken ⟨sumPlainSource, 16⟩ =
      .ok (⟨.NUMBER, .number (.fin 1)⟩, ⟨sumPlainSource, 17⟩) := by decide!
  have h8 : Lexer.getNextToken ⟨sumPlainSource, 17⟩ =
      .ok (⟨.WHILE, .string "while"⟩, ⟨sumPlainSource, 23⟩) := by decide
  have h9 : Lexer.getNextToken ⟨sumPlainSource, 23⟩ =
      .ok (⟨.LPAREN, .string "("⟩, ⟨sumPlainSource, 25⟩) := by decide
  have h10 : Lexer.getNextToken ⟨sumPlainSource, 25⟩ =
      .ok (⟨.IDENTIFIER, .string "i"⟩, ⟨sumPlainSource, 26⟩) := by decide
  have h11 : Lexer.getNextToken ⟨sumPlainSource, 26⟩ =
      .ok (⟨.LESS_EQUALS, .string "<="⟩, ⟨sumPlainSource, 28⟩) := by decide
  have h12 : Lexer.getNextToken ⟨sumPlainSource, 28⟩ =
      .ok (⟨.NUMBER, .number (.fin 5)⟩, ⟨sumPlainSource, 29⟩) := by decide!
  have h13 : Lexer.getNextToken ⟨sumPlainSource, 29⟩ =
      .ok (⟨.RPAREN, .string ")"⟩, ⟨sumPlainSource, 30⟩) := by decide
  have h14 : Lexer.getNextToken ⟨sumPlainSource, 30⟩ =
      .ok (⟨.LBRACE, .string "\x7b"⟩, ⟨sumPlainSource, 32⟩) := by decide
  have h15 : Lexer.getNextToken ⟨sumPlainSource, 32⟩ =
      .ok (⟨.IDENTIFIER, .string "sum"⟩, ⟨sumPlainSource, 36⟩) := by decide
  have h16 : Lexer.getNextToken ⟨sumPlainSource, 36⟩ =
      .ok (⟨.ASSIGN, .string "="⟩, ⟨sumPlainSource, 37⟩) := by decide
  have h17 : Lexer.getNextToken ⟨sumPlainSource, 37⟩ =
      .ok (⟨.IDENTIFIER, .string "sum"⟩, ⟨sumPlainSource, 40⟩) := by decide
  have h18 : Lexer.getNextToken ⟨sumPlainSource, 40⟩ =
      .ok (⟨.PLUS, .string "+"⟩, ⟨sumPlainSource, 41⟩) := by decide
  have h19 : Lexer.getNextToken ⟨sumPlainSource, 41⟩ =
      .ok (⟨.IDENTIFIER, .string "i"⟩, ⟨sumPlainSource, 42⟩) := by decide
  have h20 : Lexer.getNextToken ⟨sumPlainSource, 42⟩ =
      .ok (⟨.IDENTIFIER, .string "i"⟩, ⟨sumPlainSource, 44⟩) := by decide
  have h21 : Lexer.getNextToken ⟨sumPlainSource, 44⟩ =
      .ok (⟨.ASSIGN, .string "="⟩, ⟨sumPlainSource, 45⟩) := by decide
  have h22 : Lexer.getNextToken ⟨sumPlainSource, 45⟩ =
      .ok (⟨.IDENTIFIER, .string "i"⟩, ⟨sumPlainSource, 46⟩) := by decide
  have h23 : Lexer.getNextToken ⟨sumPlainSource, 46⟩ =
      .ok (⟨.PLUS, .string "+"⟩, ⟨sumPlainSource, 47⟩) := by decide
  have h24 : Lexer.getNextToken ⟨sumPlainSource, 47⟩ =
      .ok (⟨.NUMBER, .number (.fin 1)⟩, ⟨sumPlainSource, 48⟩) := by decide!
  have h25 : Lexer.getNextToken ⟨sumPlainSource, 48⟩ =
      .ok (⟨.RBRACE, .string "\x7d"⟩, ⟨sumPlainSource, 50⟩) := by decide
  have h26 : Lexer.getNextToken ⟨sumPlainSource, 50⟩ =
      .ok (⟨.PRINT, .string "print"⟩, ⟨sumPlainSource, 56⟩) := by decide
  have h27 : Lexer.getNextToken ⟨sumPlainSource, 56⟩ =
      .ok (⟨.STRING, .string "Sum is:"⟩, ⟨sumPlainSource, 66⟩) := by decide
  have h28 : Lexer.getNextToken ⟨sumPlainSource, 66⟩ =
      .ok (⟨.PRINT, .string "print"⟩, ⟨sumPlainSource, 72⟩) := by decide
  have h29 : Lexer.getNextToken ⟨sumPlainSource, 72⟩ =
      .ok (⟨.IDENTIFIER, .string "sum"⟩, ⟨sumPlainSource, 76⟩) := by decide
  have h30 : Lexer.getNextToken ⟨sumPlainSource, 76⟩ =
      .ok (⟨.EOF, .null⟩, ⟨sumPlainSource, 76⟩) := by decide
  simp [parseSource, Parser.new, Parser.parse, Parser.program, exprOps, termOps, hs,
    h0, h1, h2, h3, h4, h5, h6, h7, h8, h9, h10, h11, h12, h13, h14, h15, h16, h17, h18, h19, h20, h21, h22, h23, h24, h25, h26, h27, h28, h29, h30]
  rfl

/-- C8, at the input where the code departs from it: the source of the sum loop, as the
specification and the bundled examples write it, fails with "Invalid syntax" at its first
semicolon and prints nothing; the same source without the semicolons parses, runs to the end
and prints the two lines "Sum is:" and 15, in that order. -/
theorem sum_loop_with_semicolons_fails (fuel : Nat) :
    evaluate (fuel + 8) sumText = (.throw "Invalid syntax", Interpreter.new) ∧
    parseSource (fuel + 20) sumPlainText = .ok sumTree ∧
    (evaluate (fuel + 20) sumPlainText).1 = .ok (.number (.fin 15)) ∧
    (evaluate (fuel + 20) sumPlainText).2.output = [.string "Sum is:", .number (.fin 15)] ∧
    (Value.string "Sum is:").toText = .ok "Sum is:" ∧
    (Value.number (.fin 15)).toText = .ok "15" := by
  have hv : Interpreter.visit (fuel + 20) sumTree Interpreter.new =
      Interpreter.visit 20 sumTree Interpreter.new :=
    Interpreter.visit_fuel 20 (fuel + 20) sumTree Interpreter.new (by omega) (by decide!)
  refine ⟨by simp [evaluate, parse_sum, Res.run], parse_sumPlain fuel, ?_, ?_, rfl, by decide!⟩
  · simp only [evaluate, parse_sumPlain, Res.run, Interpreter.interpret, hv]; decide!
  · simp only [evaluate, parse_sumPlain, Res.run, Interpreter.interpret, hv]; decide!

/-! ## Declarations -/

theorem ownProperty_cons (kv : String × Value) (scope : List (String × Value)) (k : String) :
    ownProperty (kv :: scope) k = if kv.1 = k then some kv.2 else ownProperty scope k := by
  by_cases h : kv.1 = k <;> simp [ownProperty, List.find?_cons, h]

theorem ownProperty_map_set (scope : List (String × Value)) (key k : String) (v : Value) :
    ownProperty (scope.map fun kv => if kv.1 == key then (key, v) else kv) k =
      if k = key then (ownProperty scope key).map (fun _ => v) else ownProperty scope k := by
  induction scope with
  | nil => simp [ownProperty]
  | cons kv scope ih =>
    rw [List.map_cons, ownProperty_cons, ih, ownProperty_cons, ownProperty_cons]
    by_cases h1 : kv.1 = key
    · by_cases h2 : k = key
      · subst h2; simp [h1]
      · have h3 : ¬ key = k := fun h => h2 h.symm
        have h4 : ¬ kv.1 = k := fun h => h2 (h.symm.trans h1)
        simp [h1, h2, h3, h4]
    · by_cases h2 : k = key
      · subst h2; simp [h1]
      · simp [h1, h2]

theorem ownProperty_append (scope : List (String × Value)) (key k : String) (v : Value)
    (h : ownProperty scope key = none) :
    ownProperty (scope ++ [(key, v)]) k =
      if k = key then some v else ownProperty scope k := by
  induction scope with
  | nil =>
    rw [List.nil_append, ownProperty_cons]
    by_cases hk : k = key
    · subst hk; simp
    · have hk2 : ¬ key = k := fun e => hk e.symm
      simp [hk, hk2, ownProperty]
  | cons kv scope ih =>
    rw [ownProperty_cons] at h
    by_cases h1 : kv.1 = key
    · simp [h1] at h
    · simp only [h1, if_false] at h
      rw [List.cons_append, ownProperty_cons, ih h, ownProperty_cons]
      by_cases hk : k = key
      · subst hk; simp [h1]
      · simp [hk]

/-- Declaring any name but `__proto__` binds it and leaves the other names as they were. -/
theorem setProperty_spec (scope : List (String × Value)) (key : String) (v : Value)
    (hk : key ≠ "__proto__") :
    ∃ scope1, setProperty scope key v = .ok scope1 ∧ ownProperty scope1 key = some v ∧
      ∀ k, k ≠ key → ownProperty scope1 k = ownProperty scope k := by
  cases h : ownProperty scope key with
  | some w =>
    refine ⟨scope.map fun kv => if kv.1 == key then (key, v) else kv,
      by simp [setProperty, h], ?_, ?_⟩
    · rw [ownProperty_map_set]; simp [h]
    · intro k hne; rw [ownProperty_map_set]; simp [hne]
  | none =>
    refine ⟨scope ++ [(key, v)], by simp [setProperty, h, hk], ?_, ?_⟩
    · rw [ownProperty_append _ _ _ _ h]; simp
    · intro k hne; rw [ownProperty_append _ _ _ _ h]; simp [hne]

theorem visit_VarDecl_spec (fuel : Nat) (n : String) (e : AST) (v : Value)
    (i i1 : Interpreter) (hk : n ≠ "__proto__")
    (he : Interpreter.visit fuel e i = (.ok v, i1)) :
    ∃ scope1, Interpreter.visit (fuel + 1) (.VarDecl (.string n) e) i =
        (.ok .undefined, ⟨scope1, i1.output⟩) ∧
      ownProperty scope1 n = some v ∧
      ∀ k, k ≠ n → ownProperty scope1 k = ownProperty i1.globalScope k := by
  obtain ⟨scope1, h1, h2, h3⟩ := setProperty_spec i1.globalScope n v hk
  exact ⟨scope1, by simp [Interpreter.visit, he, Step.bind, Value.toText, Res.bind, h1, Res.run],
    h2, h3⟩

theorem parse_redeclare (fuel : Nat) :
    parseSource (fuel + 10) "let x = 1 let x = 2 print x" =
      .ok redeclareTree := by
  have hs : Lexer.new "let x = 1 let x = 2 print x" = ⟨redeclareSource, 0⟩ := rfl
  have h0 : Lexer.getNextToken ⟨redeclareSource, 0⟩ =
      .ok (⟨.LET, .string "let"⟩, ⟨redeclareSource, 3⟩) := by decide
  have h1 : Lexer.getNextToken ⟨redeclareSource, 3⟩ =
      .ok (⟨.IDENTIFIER, .string "x"⟩, ⟨redeclareSource, 5⟩) := by decide
  have h2 : Lexer.getNextToken ⟨redeclareSource, 5⟩ =
      .ok (⟨.ASSIGN, .string "="⟩, ⟨redeclareSource, 7⟩) := by decide
  have h3 : Lexer.getNextToken ⟨redeclareSource, 7⟩ =
      .ok (⟨.NUMBER, .number (.fin 1)⟩, ⟨redeclareSource, 9⟩) := by decide!
  have h4 : Lexer.getNextToken ⟨redeclareSource, 9⟩ =
      .ok (⟨.LET, .string "let"⟩, ⟨redeclareSource, 13⟩) := by decide
  have h5 : Lexer.getNextToken ⟨redeclareSource, 13⟩ =
      .ok (⟨.IDENTIFIER, .string "x"⟩, ⟨redeclareSource, 15⟩) := by decide
  have h6 : Lexer.getNextToken ⟨redeclareSource, 15⟩ =
      .ok (⟨.ASSIGN, .string "="⟩, ⟨redeclareSource, 17⟩) := by decide
  have h7 : Lexer.getNextToken ⟨redeclareSource, 17⟩ =
      .ok (⟨.NUMBER, .number (.fin 2)⟩, ⟨redeclareSource, 19⟩) := by decide!
  have h8 : Lexer.getNextToken ⟨redeclareSource, 19⟩ =
      .ok (⟨.PRINT, .string "print"⟩, ⟨redeclareSource, 25⟩) := by decide
  have h9 : Lexer.getNextToken ⟨redeclareSource, 25⟩ =
      .ok (⟨.IDENTIFIER, .string "x"⟩, ⟨redeclareSource, 27⟩) := by decide
  have h10 : Lexer.getNextToken ⟨redeclareSource, 27⟩ =
      .ok (⟨.EOF, .null⟩, ⟨redeclareSource, 27⟩) := by decide
  simp [parseSource, Parser.new, Parser.parse, Parser.program, exprOps, termOps, hs,
    h0, h1, h2, h3, h4, h5, h6, h7, h8, h9, h10]
  rfl

/-- C9, at the input where the code departs from it: declaring the name `__proto__` with the
value 1 succeeds and leaves the scope of a fresh interpreter without any binding, and reading
the name afterwards gives the inherited host object, not 1; declaring `x` twice and printing it
prints the second value. -/
theorem proto_declaration_binds_nothing (fuel : Nat) :
    Interpreter.visit (fuel + 2) (.VarDecl (.string "__proto__") (numLit 1)) Interpreter.new =
      (.ok .undefined, Interpreter.new) ∧
    Interpreter.visit (fuel + 3)
      (.Program [.VarDecl (.string "__proto__") (numLit 1), varNode "__proto__"])
      Interpreter.new = (.ok (.hostMember "__proto__"), Interpreter.new) ∧
    parseSource (fuel + 10) "let x = 1 let x = 2 print x" = .ok redeclareTree ∧
    evaluate (fuel + 10) "let x = 1 let x = 2 print x" =
      (.ok (.number (.fin 2)), ⟨[("x", .number (.fin 2))], [.number (.fin 2)]⟩) := by
  refine ⟨?_, ?_, parse_redeclare fuel, ?_⟩
  · rw [Interpreter.visit_fuel 2 (fuel + 2) _ _ (by omega) (by decide!)]; decide!
  · rw [Interpreter.visit_fuel 3 (fuel + 3) _ _ (by omega) (by decide!)]; decide!
  · simp only [evaluate, parse_redeclare, Res.run, Interpreter.interpret]
    rw [Interpreter.visit_fuel 10 (fuel + 10) _ _ (by omega) (by decide!)]; decide!

/-! ## Identifiers and keywords -/

theorem isIdentStart_not_space (c : Char) (h : isIdentStart c = true) :
    isSpace c = false := by
  simp only [isIdentStart, isSpace, Bool.and_eq_true, Bool.or_eq_true,
    decide_eq_true_eq, beq_iff_eq, Bool.or_eq_false_iff, Bool.and_eq_false_imp,
    decide_eq_false_iff_not, beq_eq_false_iff_ne] at h ⊢
  omega

/-- A maximal run of identifier characters is returned as one token, whose kind is read from
the keyword table. -/
theorem Lexer.lex_identifier (l : Lexer) (ws cs r : List Char) (c : Char)
    (h : l.rest = ws ++ (c :: cs ++ r)) (hws : ∀ x ∈ ws, isSpace x = true)
    (hc : isIdentStart c = true) (hcs : ∀ x ∈ cs, isIdentChar x = true)
    (hr : ∀ x, r.head? = some x → isIdentChar x = false) :
    ∃ l1, l.getNextToken =
        .ok (⟨(keywords (String.mk (c :: cs))).getD .IDENTIFIER,
          .string (String.mk (c :: cs))⟩, l1) ∧
      l1.rest = r ∧ l1.input = l.input := by
  have hsp := isIdentStart_not_space c hc
  obtain ⟨e, hrest⟩ := l.getNextToken_skip ws (c :: cs ++ r) h hws
    (by intro x hx; simp at hx; subst hx; exact hsp)
  have hall : ∀ x ∈ c :: cs, isIdentChar x = true := by
    intro x hx
    rcases List.mem_cons.1 hx with hx | hx
    · subst hx; simp [isIdentChar, hc]
    · exact hcs x hx
  refine ⟨⟨l.input, l.position + ws.length + (c :: cs).length⟩, ?_, ?_, rfl⟩
  · rw [e]
    have hsk := Lexer.skipWhitespace_of_head ⟨l.input, l.position + ws.length⟩
      (by rw [hrest]; intro x hx; simp at hx; subst hx; exact hsp)
    have htw := takeWhile_run isIdentChar (c :: cs) r hall hr
    simp only [Lexer.getNextToken, hsk, Lexer.currentChar, hrest, List.head?_cons,
      List.cons_append, hc, if_true, Lexer.identifier]
    simp only [← List.cons_append, htw]
    cases keywords (String.mk (c :: cs)) <;> rfl
  · have := Lexer.rest_mk_add ⟨l.input, l.position + ws.length⟩ (c :: cs).length
    rw [this, hrest]; simp

/-- The keyword table on the words that no object inherits: the seven keywords have their
kinds and every other such word has none, so that it is lexed as an IDENTIFIER. -/
theorem keywords_spec (w : String) (hw : w ∉ objectPrototypeNames) :
    keywords "if" = some .IF ∧ keywords "else" = some .ELSE ∧ keywords "while" = some .WHILE ∧
    keywords "for" = some .FOR ∧ keywords "let" = some .LET ∧ keywords "print" = some .PRINT ∧
    keywords "return" = some .RETURN ∧
    (w ∉ ["if", "else", "while", "for", "let", "print", "return"] → keywords w = none) := by
  refine ⟨by decide, by decide, by decide, by decide, by decide, by decide, by decide, ?_⟩
  intro h
  simp only [List.mem_cons, List.mem_singleton, not_or, List.not_mem_nil, not_false_eq_true,
    and_true] at h
  obtain ⟨h1, h2, h3, h4, h5, h6, h7⟩ := h
  simp [keywords, h1, h2, h3, h4, h5, h6, h7, hw]

theorem parse_let_toString (fuel : Nat) :
    parseSource (fuel + 8) "let toString = 1" =
      .throw "Invalid syntax" := by
  have hs : Lexer.new "let toString = 1" = ⟨letToStringSource, 0⟩ := rfl
  have h0 : Lexer.getNextToken ⟨letToStringSource, 0⟩ =
      .ok (⟨.LET, .string "let"⟩, ⟨letToStringSource, 3⟩) := by decide
  have h1 : Lexer.getNextToken ⟨letToStringSource, 3⟩ =
      .ok (⟨.hostMember "toString", .string "toString"⟩, ⟨letToStringSource, 12⟩) := by decide
  simp [parseSource, Parser.new, Parser.parse, Parser.program, exprOps, termOps, hs,
    h0, h1]

/-- C10, at the input where the code departs from it: the run `toString` is neither a keyword
nor lexed as an IDENTIFIER: the lookup in the keyword object finds the member every object
inherits, which becomes the kind of the token, and the parser then rejects
`let toString = 1`; the same holds for `constructor`. -/
theorem inherited_word_is_no_identifier (fuel : Nat) :
    (Lexer.new "toString").getNextToken =
      .ok (⟨.hostMember "toString", .string "toString"⟩, ⟨"toString".toList, 8⟩) ∧
    (Lexer.new "constructor = 1").getNextToken =
      .ok (⟨.hostMember "constructor", .string "constructor"⟩,
        ⟨"constructor = 1".toList, 11⟩) ∧
    (Lexer.new "total").getNextToken =
      .ok (⟨.IDENTIFIER, .string "total"⟩, ⟨"total".toList, 5⟩) ∧
    parseSource (fuel + 8) "let toString = 1" = .throw "Invalid syntax" :=
  ⟨by decide, by decide, by decide, parse_let_toString fuel⟩

/-! ## String literals -/

theorem Lexer.string_spec (l : Lexer) (s r : List Char) (h : l.advance.rest = s ++ r)
    (hs : '"' ∉ s) (hr : ∀ x, r.head? = some x → x = '"') :
    l.string = (⟨.STRING, .string (String.mk s)⟩, ⟨l.input, l.position + 1 + s.length + 1⟩) := by
  have htw := takeWhile_run (fun c => c != '"') s r
    (by intro c hc; simp only [bne_iff_ne, ne_eq]; rintro rfl; exact hs hc)
    (by intro c hc; simp [hr c hc])
  simp only [Lexer.string, h, htw]
  rfl

theorem quote_char : isSpace '"' = false ∧ isIdentStart '"' = false ∧ isDigit '"' = false := by
  decide

/-- C11: string literals are lexed raw.  When the unread input is a double quote, a text `s`
without double quote, a double quote and a remainder `r`, `getNextToken` returns the STRING
token whose literal is exactly `s` and leaves the cursor at the start of `r`; a backslash is an
ordinary character of the literal; when the unread input is a double quote and `s` with no
closing quote, it returns the STRING token of `s` without error and the next token is EOF. -/
theorem string_literal_is_raw (l : Lexer) (s r : List Char) (hs : '"' ∉ s) :
    (l.rest = '"' :: (s ++ '"' :: r) →
      ∃ l1, l.getNextToken = .ok (⟨.STRING, .string (String.mk s)⟩, l1) ∧ l1.rest = r ∧
        l1.input = l.input ∧ l1.position = l.position + s.length + 2) ∧
    (l.rest = '"' :: s →
      ∃ l1 l2, l.getNextToken = .ok (⟨.STRING, .string (String.mk s)⟩, l1) ∧
        l1.getNextToken = .ok (⟨.EOF, .null⟩, l2)) ∧
    (Lexer.new "\"a\\n\" 1").getNextToken =
      .ok (⟨.STRING, .string "a\\n"⟩, ⟨"\"a\\n\" 1".toList, 5⟩) := by
  have hq := quote_char
  have key : ∀ r1 : List Char, l.rest = '"' :: (s ++ r1) → (∀ x, r1.head? = some x → x = '"') →
      l.getNextToken = .ok (⟨.STRING, .string (String.mk s)⟩,
        ⟨l.input, l.position + 1 + s.length + 1⟩) ∧
      Lexer.rest ⟨l.input, l.position + 1 + s.length + 1⟩ = r1.drop 1 := by
    intro r1 h hr
    have hsk := l.skipWhitespace_of_head
      (by rw [h]; intro x hx; simp at hx; subst hx; exact hq.1)
    have hadv : l.advance.rest = s ++ r1 := by
      have := Lexer.rest_mk_add l 1
      simp only [Lexer.advance, this, h, List.drop_succ_cons, List.drop_zero]
    refine ⟨?_, ?_⟩
    · simp only [Lexer.getNextToken, hsk, Lexer.currentChar, h, List.head?_cons, hq.2.1, hq.2.2,
        Bool.false_eq_true, if_false, if_true, Lexer.string_spec l s r1 hadv hs hr]
    · have := Lexer.rest_mk_add l (1 + s.length + 1)
      rw [show l.position + 1 + s.length + 1 = l.position + (1 + s.length + 1) by omega, this, h,
        show 1 + s.length + 1 = (s.length + 1) + 1 by omega, List.drop_succ_cons,
        ← List.drop_drop]
      simp
  refine ⟨?_, ?_, by decide⟩
  · intro h
    obtain ⟨e, hrest⟩ := key ('"' :: r) h (by intro x hx; simp at hx; exact hx.symm)
    exact ⟨_, e, by simpa using hrest, rfl, by simp only; omega⟩
  · intro h
    obtain ⟨e, hrest⟩ := key [] (by simpa using h) (by simp)
    obtain ⟨l2, e2, -, -⟩ := Lexer.lex_eof ⟨l.input, l.position + 1 + s.length + 1⟩
      (by rw [hrest]; simp)
    exact ⟨_, l2, e, e2⟩

theorem string_literal_is_raw_witness :
    ∃ l1, Lexer.getNextToken ⟨"x = \"hi\" + y".toList, 4⟩ =
        .ok (⟨.STRING, .string (String.mk "hi".toList)⟩, l1) ∧ l1.rest = " + y".toList ∧
      l1.input = "x = \"hi\" + y".toList ∧ l1.position = 4 + "hi".toList.length + 2 :=
  (string_literal_is_raw ⟨"x = \"hi\" + y".toList, 4⟩ "hi".toList " + y".toList
    (by decide)).1 (by decide)

/-! ## End of input and progress of the lexer -/

theorem keywords_ne_eof (w : String) : keywords w ≠ some .EOF := by
  unfold keywords
  split_ifs <;> simp

theorem symbolMap_ne_eof (c : Char) : symbolMap c ≠ some .EOF := by
  intro h
  have hm := symbolMap_mem c _ h
  simp only [List.mem_cons, List.mem_singleton, List.not_mem_nil, or_false] at hm
  rcases hm with e | e | e | e | e | e | e | e | e | e | e | e <;> subst e <;>
    exact absurd h (by decide)

theorem takeWhile_length_pos (p : Char → Bool) (c : Char) (cs : List Char) (h : p c = true) :
    0 < ((c :: cs).takeWhile p).length := by
  simp [List.takeWhile_cons, h]

theorem Lexer.skipWhitespace_input (l : Lexer) :
    l.skipWhitespace.input = l.input ∧ l.position ≤ l.skipWhitespace.position := by
  simp [Lexer.skipWhitespace]

/-- What a successful call of `getNextToken` does to the cursor: at the end of the input it
returns the EOF token and stays on the state reached by skipping the spaces; otherwise the
token is no EOF token and the cursor has moved forward within the same input. -/
theorem Lexer.getNextToken_progress (l l1 : Lexer) (tok : Token)
    (h : l.getNextToken = .ok (tok, l1)) :
    (l.skipWhitespace.rest = [] ∧ tok = ⟨.EOF, .null⟩ ∧ l1 = l.skipWhitespace) ∨
    (l.skipWhitespace.rest ≠ [] ∧ tok.type ≠ .EOF ∧ l1.input = l.input ∧
      l.skipWhitespace.position < l1.position) := by
  obtain ⟨hin, -⟩ := l.skipWhitespace_input
  generalize hl : l.skipWhitespace = m at h hin ⊢
  cases hr : m.rest with
  | nil =>
    left
    simp only [Lexer.getNextToken, hl, Lexer.currentChar, hr, List.head?_nil] at h
    injection h with h
    injection h with h1 h2
    exact ⟨rfl, h1.symm, h2.symm⟩
  | cons c cs =>
    right
    refine ⟨by simp, ?_⟩
    simp only [Lexer.getNextToken, hl, Lexer.currentChar, hr, List.head?_cons] at h
    split_ifs at h with h1 h2 h3 h4 h5 h6 h7 h8
    · -- identifier
      have hpos := takeWhile_length_pos isIdentChar c cs (by simp [isIdentChar, h1])
      simp only [Lexer.identifier, hr] at h
      cases hk : keywords (String.mk (List.takeWhile isIdentChar (c :: cs))) with
      | none =>
        simp only [hk] at h
        injection h with h; injection h with ha hb
        subst ha; subst hb
        exact ⟨by simp, hin, by simp only; omega⟩
      | some t =>
        simp only [hk] at h
        injection h with h; injection h with ha hb
        subst ha; subst hb
        refine ⟨?_, hin, by simp only; omega⟩
        intro e
        simp only at e
        exact keywords_ne_eof _ (by rw [hk, e])
    · -- number
      have hpos := takeWhile_length_pos isDigit c cs h2
      simp only [Lexer.number, hr] at h
      split_ifs at h
      · injection h with h; injection h with ha hb
        subst ha; subst hb
        exact ⟨by simp, hin, by simp only [Lexer.advance]; omega⟩
      · injection h with h; injection h with ha hb
        subst ha; subst hb
        exact ⟨by simp, hin, by simp only; omega⟩
    · -- string
      simp only [Lexer.string] at h
      injection h with h; injection h with ha hb
      subst ha; subst hb
      exact ⟨by simp, hin, by simp only [Lexer.advance]; omega⟩
    · injection h with h; injection h with ha hb
      subst ha; subst hb
      exact ⟨by simp, hin, by simp only [Lexer.advance]; omega⟩
    · injection h with h; injection h with ha hb
      subst ha; subst hb
      exact ⟨by simp, hin, by simp only [Lexer.advance]; omega⟩
    · injection h with h; injection h with ha hb
      subst ha; subst hb
      exact ⟨by simp, hin, by simp only [Lexer.advance]; omega⟩
    · injection h with h; injection h with ha hb
      subst ha; subst hb
      exact ⟨by simp, hin, by simp only [Lexer.advance]; omega⟩
    · injection h with h; injection h with ha hb
      subst ha; subst hb
      exact ⟨by simp, hin, by simp only [Lexer.advance]; omega⟩
    · cases hsym : symbolMap c with
      | none => simp [hsym] at h
      | some t =>
        simp only [hsym] at h
        injection h with h; injection h with ha hb
        subst ha; subst hb
        refine ⟨?_, hin, by simp only [Lexer.advance]; omega⟩
        intro e
        simp only at e
        exact symbolMap_ne_eof c (by rw [hsym, e])

theorem Lexer.getNextToken_at_end (l : Lexer) (h : l.rest = []) :
    l.getNextToken = .ok (⟨.EOF, .null⟩, l) := by
  have hsk := l.skipWhitespace_of_head (by rw [h]; simp)
  simp [Lexer.getNextToken, hsk, Lexer.currentChar, h]

/-- C12: EOF is sticky.  Once `getNextToken` has returned an EOF token, the lexer is in a
state on which every later call returns the EOF token again and never fails; a lexer over the
empty string returns EOF on the first call and on all the later ones. -/
theorem eof_is_sticky (l l1 : Lexer) (tok : Token) (k : Nat)
    (h : l.getNextToken = .ok (tok, l1)) (he : tok.type = .EOF) :
    tok = ⟨.EOF, .null⟩ ∧ Lexer.nthCall k l1 = .ok (⟨.EOF, .null⟩, l1) ∧
    Lexer.nthCall k (Lexer.new "") = .ok (⟨.EOF, .null⟩, Lexer.new "") := by
  have fix : ∀ m : Lexer, m.rest = [] → ∀ k, Lexer.nthCall k m = .ok (⟨.EOF, .null⟩, m) := by
    intro m hm k
    induction k with
    | zero => exact m.getNextToken_at_end hm
    | succ k ih => simp only [Lexer.nthCall, m.getNextToken_at_end hm, Res.ok_bind, ih]
  rcases l.getNextToken_progress l1 tok h with ⟨hr, ht, hl⟩ | ⟨-, hne, -⟩
  · exact ⟨ht, fix l1 (by rw [hl]; exact hr) k, fix (Lexer.new "") rfl k⟩
  · exact absurd he hne

theorem eof_is_sticky_witness :
    (⟨.EOF, .null⟩ : Token) = ⟨.EOF, .null⟩ ∧
    Lexer.nthCall 3 ⟨"x  ".toList, 3⟩ = .ok (⟨.EOF, .null⟩, ⟨"x  ".toList, 3⟩) ∧
    Lexer.nthCall 3 (Lexer.new "") = .ok (⟨.EOF, .null⟩, Lexer.new "") :=
  eof_is_sticky ⟨"x  ".toList, 1⟩ ⟨"x  ".toList, 3⟩ ⟨.EOF, .null⟩ 3 (by decide) rfl

theorem Lexer.rest_length (l : Lexer) : l.rest.length = l.input.length - l.position := by
  simp [Lexer.rest]

theorem Lexer.getNextToken_rest_lt (l l1 : Lexer) (tok : Token)
    (h : l.getNextToken = .ok (tok, l1)) (hne : tok.type ≠ .EOF) :
    l.position < l1.position ∧ l1.rest.length < l.rest.length := by
  rcases l.getNextToken_progress l1 tok h with ⟨-, ht, -⟩ | ⟨hr, -, hin, hpos⟩
  · exact absurd (by rw [ht]) hne
  · obtain ⟨hin2, hle⟩ := l.skipWhitespace_input
    have h1 : 0 < l.skipWhitespace.rest.length := List.length_pos.2 hr
    rw [Lexer.rest_length, hin2] at h1
    rw [Lexer.rest_length, Lexer.rest_length, hin]
    omega

theorem Lexer.tokenize_bound (fuel : Nat) : ∀ l : Lexer,
    (l.tokenize fuel).1.length ≤ l.rest.length ∧
    (l.rest.length < fuel → (l.tokenize fuel).2 ≠ .outOfFuel) := by
  induction fuel with
  | zero => intro l; simp [Lexer.tokenize]
  | succ fuel ih =>
    intro l
    cases h : l.getNextToken with
    | ok r =>
      obtain ⟨tok, l1⟩ := r
      by_cases he : tok.type = .EOF
      · simp [Lexer.tokenize, h, he]
      · obtain ⟨-, hlt⟩ := l.getNextToken_rest_lt l1 tok h he
        obtain ⟨h1, h2⟩ := ih l1
        simp only [Lexer.tokenize, h, he, if_false, List.length_cons]
        exact ⟨by omega, fun hf => h2 (by omega)⟩
    | throw m => simp [Lexer.tokenize, h]
    | unsupported => simp [Lexer.tokenize, h]
    | outOfFuel =>
      exfalso
      revert h
      simp only [Lexer.getNextToken]
      split
      · simp
      · split_ifs <;> try simp
        split <;> simp

/-- C13: tokenization is finite.  Every call of `getNextToken` that returns a token other than
EOF moves the cursor strictly forward and shortens the unread input; hence repeated calls on
an input of `n` characters return at most `n` tokens other than EOF, and within `n + 1` calls
the run has ended with the EOF token or with the error of the lexer. -/
theorem tokenization_is_finite (source : String) (l l1 : Lexer) (tok : Token) (fuel : Nat)
    (h : l.getNextToken = .ok (tok, l1)) (hne : tok.type ≠ .EOF) :
    l.position < l1.position ∧ l1.rest.length < l.rest.length ∧
    ((Lexer.new source).tokenize fuel).1.length ≤ source.length ∧
    ((∃ t, ((Lexer.new source).tokenize (source.length + 1)).2 = .ok t ∧ t.type = .EOF) ∨
      ∃ m, ((Lexer.new source).tokenize (source.length + 1)).2 = .throw m) := by
  obtain ⟨h1, h2⟩ := l.getNextToken_rest_lt l1 tok h hne
  have hlen : (Lexer.new source).rest.length = source.length := by
    rw [Lexer.rest_new]; rfl
  obtain ⟨h3, -⟩ := Lexer.tokenize_bound fuel (Lexer.new source)
  obtain ⟨-, h4⟩ := Lexer.tokenize_bound (source.length + 1) (Lexer.new source)
  refine ⟨h1, h2, by omega, ?_⟩
  have h5 := h4 (by omega)
  have hend : ∀ (n : Nat) (m : Lexer) (t : Token), (m.tokenize n).2 = .ok t → t.type = .EOF := by
    intro n
    induction n with
    | zero => intro m t e; simp [Lexer.tokenize] at e
    | succ n ih =>
      intro m t e
      cases hg : m.getNextToken with
      | ok r =>
        obtain ⟨tk, m1⟩ := r
        by_cases hk : tk.type = .EOF
        · simp only [Lexer.tokenize, hg, hk, if_true] at e
          injection e with e; rw [← e]; exact hk
        · simp only [Lexer.tokenize, hg, hk, if_false] at e
          exact ih m1 t e
      | throw msg => simp [Lexer.tokenize, hg] at e
      | unsupported => simp [Lexer.tokenize, hg] at e
      | outOfFuel => simp [Lexer.tokenize, hg] at e
  have hunsup : ∀ (n : Nat) (m : Lexer), (m.tokenize n).2 ≠ .unsupported := by
    intro n
    induction n with
    | zero => intro m; simp [Lexer.tokenize]
    | succ n ih =>
      intro m
      cases hg : m.getNextToken with
      | ok r =>
        obtain ⟨tk, m1⟩ := r
        by_cases hk : tk.type = .EOF
        · simp [Lexer.tokenize, hg, hk]
        · simp only [Lexer.tokenize, hg, hk, if_false]; exact ih m1
      | throw msg => simp [Lexer.tokenize, hg]
      | unsupported =>
        exfalso
        revert hg
        simp only [Lexer.getNextToken]
        split
        · simp
        · split_ifs <;> try simp
          split <;> simp
      | outOfFuel => simp [Lexer.tokenize, hg]
  cases hres : ((Lexer.new source).tokenize (source.length + 1)).2 with
  | ok t => exact Or.inl ⟨t, rfl, hend _ _ t hres⟩
  | throw m => exact Or.inr ⟨m, rfl⟩
  | unsupported => exact absurd hres (hunsup _ _)
  | outOfFuel => exact absurd hres h5

theorem tokenization_is_finite_witness :
    (0 < 3 ∧ ("let x".toList.drop 3).length < ("let x".toList.drop 0).length) ∧
    ((Lexer.new "let x").tokenize 9).1.length ≤ "let x".length :=
  have h := tokenization_is_finite "let x" ⟨"let x".toList, 0⟩ ⟨"let x".toList, 3⟩
    ⟨.LET, .string "let"⟩ 9 (by decide) (by decide)
  ⟨⟨h.1, h.2.1⟩, h.2.2.1⟩

/-! ## Complete programs -/

theorem Res.bind_eq_ok {α β : Type} {r : Res α} {f : α → Res β} {b : β}
    (h : r.bind f = .ok b) : ∃ a, r = .ok a ∧ f a = .ok b := by
  cases r with
  | ok a => exact ⟨a, rfl, h⟩
  | throw m => simp [Res.bind] at h
  | unsupported => simp [Res.bind] at h
  | outOfFuel => simp [Res.bind] at h

theorem Parser.programLoop_eof (fuel : Nat) : ∀ (ss ss1 : List AST) (p p1 : Parser),
    Parser.programLoop fuel ss p = .ok (ss1, p1) → p1.currentToken.type = .EOF := by
  induction fuel with
  | zero => intro ss ss1 p p1 h; simp [Parser.programLoop] at h
  | succ fuel ih =>
    intro ss ss1 p p1 h
    simp only [Parser.programLoop] at h
    split_ifs at h with hc
    · obtain ⟨r, -, hr⟩ := Res.bind_eq_ok h
      exact ih _ _ _ _ hr
    · injection h with h
      injection h with h1 h2
      subst h2
      simpa using hc

theorem Parser.factor_reject (fuel : Nat) (p : Parser)
    (h : p.currentToken.type ∉ factorStarts) :
    Parser.factor (fuel + 1) p = .throw "Invalid syntax" := by
  simp only [factorStarts, List.mem_cons, List.mem_singleton, List.not_mem_nil, or_false,
    not_or] at h
  obtain ⟨h1, h2, h3, h4, h5, h6⟩ := h
  simp only [Parser.factor, if_neg h1, if_neg h2, if_neg h3, if_neg h4, if_neg h5, if_neg h6,
    Parser.error]

theorem parse_stray_paren (fuel : Nat) :
    parseSource (fuel + 8) "1 )" =
      .throw "Invalid syntax" := by
  have hs : Lexer.new "1 )" = ⟨strayParenSource, 0⟩ := rfl
  have h0 : Lexer.getNextToken ⟨strayParenSource, 0⟩ =
      .ok (⟨.NUMBER, .number (.fin 1)⟩, ⟨strayParenSource, 1⟩) := by decide!
  have h1 : Lexer.getNextToken ⟨strayParenSource, 1⟩ =
      .ok (⟨.RPAREN, .string ")"⟩, ⟨strayParenSource, 3⟩) := by decide
  simp [parseSource, Parser.new, Parser.parse, Parser.program, exprOps, termOps, hs,
    h0, h1]

theorem parse_unclosed_paren (fuel : Nat) :
    parseSource (fuel + 8) "(1" = .throw "Invalid syntax" := by
  have hs : Lexer.new "(1" = ⟨unclosedParenSource, 0⟩ := rfl
  have h0 : Lexer.getNextToken ⟨unclosedParenSource, 0⟩ =
      .ok (⟨.LPAREN, .string "("⟩, ⟨unclosedParenSource, 1⟩) := by decide
  have h1 : Lexer.getNextToken ⟨unclosedParenSource, 1⟩ =
      .ok (⟨.NUMBER, .number (.fin 1)⟩, ⟨unclosedParenSource, 2⟩) := by decide!
  have h2 : Lexer.getNextToken ⟨unclosedParenSource, 2⟩ =
      .ok (⟨.EOF, .null⟩, ⟨unclosedParenSource, 2⟩) := by decide
  simp [parseSource, Parser.new, Parser.parse, Parser.program, exprOps, termOps, hs,
    h0, h1, h2]

theorem parse_if_without_paren (fuel : Nat) :
    parseSource (fuel + 8) "if 1" = .throw "Invalid syntax" := by
  have hs : Lexer.new "if 1" = ⟨ifNoParenSource, 0⟩ := rfl
  have h0 : Lexer.getNextToken ⟨ifNoParenSource, 0⟩ =
      .ok (⟨.IF, .string "if"⟩, ⟨ifNoParenSource, 2⟩) := by decide
  have h1 : Lexer.getNextToken ⟨ifNoParenSource, 2⟩ =
      .ok (⟨.NUMBER, .number (.fin 1)⟩, ⟨ifNoParenSource, 4⟩) := by decide!
  simp [parseSource, Parser.new, Parser.parse, Parser.program, exprOps, termOps, hs,
    h0, h1]

theorem parse_let_number (fuel : Nat) :
    parseSource (fuel + 8) "let 1 = 2" = .throw "Invalid syntax" := by
  have hs : Lexer.new "let 1 = 2" = ⟨letNumberSource, 0⟩ := rfl
  have h0 : Lexer.getNextToken ⟨letNumberSource, 0⟩ =
      .ok (⟨.LET, .string "let"⟩, ⟨letNumberSource, 3⟩) := by decide
  have h1 : Lexer.getNextToken ⟨letNumberSource, 3⟩ =
      .ok (⟨.NUMBER, .number (.fin 1)⟩, ⟨letNumberSource, 5⟩) := by decide!
  simp [parseSource, Parser.new, Parser.parse, Parser.program, exprOps, termOps, hs,
    h0, h1]

theorem parse_dangling_plus (fuel : Nat) :
    parseSource (fuel + 8) "1 +" = .throw "Invalid syntax" := by
  have hs : Lexer.new "1 +" = ⟨danglingPlusSource, 0⟩ := rfl
  have h0 : Lexer.getNextToken ⟨danglingPlusSource, 0⟩ =
      .ok (⟨.NUMBER, .number (.fin 1)⟩, ⟨danglingPlusSource, 1⟩) := by decide!
  have h1 : Lexer.getNextToken ⟨danglingPlusSource, 1⟩ =
      .ok (⟨.PLUS, .string "+"⟩, ⟨danglingPlusSource, 3⟩) := by decide
  have h2 : Lexer.getNextToken ⟨danglingPlusSource, 3⟩ =
      .ok (⟨.EOF, .null⟩, ⟨danglingPlusSource, 3⟩) := by decide
  simp [parseSource, Parser.new, Parser.parse, Parser.program, exprOps, termOps, hs,
    h0, h1, h2]

/-- C14: `parse` accepts only complete programs.  When `parse` returns, it returns a Program
and the current token of the parser is EOF, so the whole token stream was consumed.  A token
that no production can consume where the parser stands fails with "Invalid syntax": `eat`
fails so on every token other than the one asked for (and otherwise moves to the next token);
`factor` fails so on every token with which no factor starts, also after a binary operator of
`term` or of `expr`, and `statement` on every token with which no statement starts.  The
error of a statement is the error of the program.  The sources `1 )`, `(1`, `if 1`,
`let 1 = 2` and `1 +` fail so. -/
theorem parse_accepts_complete_programs (fuel : Nat) (p p1 q : Parser) (tree node : AST)
    (ss : List AST) (t : TokenType) (m : String) :
    (Parser.parse fuel p = .ok (tree, p1) →
      p1.currentToken.type = .EOF ∧ ∃ ss, tree = .Program ss) ∧
    (p.currentToken.type ≠ t → p.eat t = .throw "Invalid syntax") ∧
    (p.currentToken.type = t → p.eat t = p.lexer.getNextToken.bind fun r => .ok ⟨r.2, r.1⟩) ∧
    (p.currentToken.type ∉ factorStarts →
      Parser.factor (fuel + 1) p = .throw "Invalid syntax") ∧
    (p.currentToken.type ∉ statementStarts →
      Parser.statement (fuel + 4) p = .throw "Invalid syntax") ∧
    (p.currentToken.type ∈ termOps → p.eat p.currentToken.type = .ok q →
      q.currentToken.type ∉ factorStarts →
      Parser.termLoop (fuel + 2) node p = .throw "Invalid syntax") ∧
    (p.currentToken.type ∈ exprOps → p.eat p.currentToken.type = .ok q →
      q.currentToken.type ∉ factorStarts →
      Parser.exprLoop (fuel + 3) node p = .throw "Invalid syntax") ∧
    (p.currentToken.type ≠ .EOF → Parser.statement fuel p = .throw m →
      Parser.programLoop (fuel + 1) ss p = .throw m ∧ Parser.parse (fuel + 1) p = .throw m) ∧
    parseSource (fuel + 8) "1 )" = .throw "Invalid syntax" ∧
    parseSource (fuel + 8) "(1" = .throw "Invalid syntax" ∧
    parseSource (fuel + 8) "if 1" = .throw "Invalid syntax" ∧
    parseSource (fuel + 8) "let 1 = 2" = .throw "Invalid syntax" ∧
    parseSource (fuel + 8) "1 +" = .throw "Invalid syntax" := by
  refine ⟨?_, ?_, ?_, Parser.factor_reject fuel p, ?_, ?_, ?_, ?_, parse_stray_paren fuel,
    parse_unclosed_paren fuel, parse_if_without_paren fuel, parse_let_number fuel,
    parse_dangling_plus fuel⟩
  · intro h
    simp only [Parser.parse, Parser.program] at h
    obtain ⟨r, hr, h2⟩ := Res.bind_eq_ok h
    obtain ⟨q, hq, h3⟩ := Res.bind_eq_ok hr
    injection h3 with h3
    subst h3
    have he := Parser.programLoop_eof fuel _ _ _ _ hq
    simp only [he, ne_eq, not_true_eq_false, if_false] at h2
    injection h2 with h2
    injection h2 with h4 h5
    subst h4; subst h5
    exact ⟨he, _, rfl⟩
  · intro h
    simp [Parser.eat, h, Parser.error]
  · intro h
    simp [Parser.eat, h]
  · intro h
    obtain ⟨l, ⟨u, v⟩⟩ := p
    simp only [statementStarts] at h
    cases u <;> simp [factorStarts] at h ⊢
  · intro h1 h2 h3
    rw [show fuel + 2 = (fuel + 1) + 1 by omega]
    simp only [Parser.termLoop, if_pos h1, h2, Res.bind, Parser.factor_reject fuel q h3]
  · intro h1 h2 h3
    rw [show fuel + 3 = (fuel + 2) + 1 by omega]
    simp only [Parser.exprLoop, if_pos h1, h2, Res.bind, Parser.term,
      Parser.factor_reject fuel q h3]
  · intro h1 h2
    simp [Parser.parse, Parser.program, Parser.programLoop, h1, h2, Res.bind]

theorem parse_accepts_complete_programs_witness :
    (⟨⟨"1".toList, 1⟩, ⟨.EOF, .null⟩⟩ : Parser).currentToken.type = .EOF ∧
    (∃ ss, AST.Program [numLit 1] = .Program ss) ∧
    Parser.eat ⟨⟨"1".toList, 1⟩, numTok 1⟩ .RPAREN = .throw "Invalid syntax" :=
  ⟨((parse_accepts_complete_programs 6 ⟨⟨"1".toList, 1⟩, numTok 1⟩
      ⟨⟨"1".toList, 1⟩, ⟨.EOF, .null⟩⟩ ⟨⟨"1".toList, 1⟩, ⟨.EOF, .null⟩⟩ (.Program [numLit 1])
      (numLit 1) [] .RPAREN "").1 (by decide!)).1,
    ((parse_accepts_complete_programs 6 ⟨⟨"1".toList, 1⟩, numTok 1⟩
      ⟨⟨"1".toList, 1⟩, ⟨.EOF, .null⟩⟩ ⟨⟨"1".toList, 1⟩, ⟨.EOF, .null⟩⟩ (.Program [numLit 1])
      (numLit 1) [] .RPAREN "").1 (by decide!)).2,
    (parse_accepts_complete_programs 6 ⟨⟨"1".toList, 1⟩, numTok 1⟩
      ⟨⟨"1".toList, 1⟩, ⟨.EOF, .null⟩⟩ ⟨⟨"1".toList, 1⟩, ⟨.EOF, .null⟩⟩ (.Program [numLit 1])
      (numLit 1) [] .RPAREN "").2.1 (by decide)⟩

/-! ## Statements that start with an identifier -/

theorem parse_bare_identifier (fuel : Nat) :
    parseSource (fuel + 8) "x" =
      .throw "Invalid syntax" := by
  have hs : Lexer.new "x" = ⟨bareSource, 0⟩ := rfl
  have h0 : Lexer.getNextToken ⟨bareSource, 0⟩ =
      .ok (⟨.IDENTIFIER, .string "x"⟩, ⟨bareSource, 1⟩) := by decide
  have h1 : Lexer.getNextToken ⟨bareSource, 1⟩ =
      .ok (⟨.EOF, .null⟩, ⟨bareSource, 1⟩) := by decide
  simp [parseSource, Parser.new, Parser.parse, Parser.program, exprOps, termOps, hs,
    h0, h1]

theorem parse_bare_identifier_semi (fuel : Nat) :
    parseSource (fuel + 8) "x;" =
      .throw "Invalid syntax" := by
  have hs : Lexer.new "x;" = ⟨bareSemiSource, 0⟩ := rfl
  have h0 : Lexer.getNextToken ⟨bareSemiSource, 0⟩ =
      .ok (⟨.IDENTIFIER, .string "x"⟩, ⟨bareSemiSource, 1⟩) := by decide
  have h1 : Lexer.getNextToken ⟨bareSemiSource, 1⟩ =
      .ok (⟨.SEMICOLON, .string ";"⟩, ⟨bareSemiSource, 2⟩) := by decide
  simp [parseSource, Parser.new, Parser.parse, Parser.program, exprOps, termOps, hs,
    h0, h1]

theorem parse_assignment (fuel : Nat) :
    parseSource (fuel + 8) "x = 1" =
      .ok (.Program [.Assign (.string "x") (numLit 1)]) := by
  have hs : Lexer.new "x = 1" = ⟨assignSource, 0⟩ := rfl
  have h0 : Lexer.getNextToken ⟨assignSource, 0⟩ =
      .ok (⟨.IDENTIFIER, .string "x"⟩, ⟨assignSource, 1⟩) := by decide
  have h1 : Lexer.getNextToken ⟨assignSource, 1⟩ =
      .ok (⟨.ASSIGN, .string "="⟩, ⟨assignSource, 3⟩) := by decide
  have h2 : Lexer.getNextToken ⟨assignSource, 3⟩ =
      .ok (⟨.NUMBER, .number (.fin 1)⟩, ⟨assignSource, 5⟩) := by decide!
  have h3 : Lexer.getNextToken ⟨assignSource, 5⟩ =
      .ok (⟨.EOF, .null⟩, ⟨assignSource, 5⟩) := by decide
  simp [parseSource, Parser.new, Parser.parse, Parser.program, exprOps, termOps, hs,
    h0, h1, h2, h3]
  rfl

theorem parse_paren_identifier (fuel : Nat) :
    parseSource (fuel + 8) "(x)" =
      .ok (.Program [varNode "x"]) := by
  have hs : Lexer.new "(x)" = ⟨parenIdentSource, 0⟩ := rfl
  have h0 : Lexer.getNextToken ⟨parenIdentSource, 0⟩ =
      .ok (⟨.LPAREN, .string "("⟩, ⟨parenIdentSource, 1⟩) := by decide
  have h1 : Lexer.getNextToken ⟨parenIdentSource, 1⟩ =
      .ok (⟨.IDENTIFIER, .string "x"⟩, ⟨parenIdentSource, 2⟩) := by decide
  have h2 : Lexer.getNextToken ⟨parenIdentSource, 2⟩ =
      .ok (⟨.RPAREN, .string ")"⟩, ⟨parenIdentSource, 3⟩) := by decide
  have h3 : Lexer.getNextToken ⟨parenIdentSource, 3⟩ =
      .ok (⟨.EOF, .null⟩, ⟨parenIdentSource, 3⟩) := by decide
  simp [parseSource, Parser.new, Parser.parse, Parser.program, exprOps, termOps, hs,
    h0, h1, h2, h3]
  rfl

theorem parse_print_identifier (fuel : Nat) :
    parseSource (fuel + 8) "print x" =
      .ok (.Program [.Print (varNode "x")]) := by
  have hs : Lexer.new "print x" = ⟨printIdentSource, 0⟩ := rfl
  have h0 : Lexer.getNextToken ⟨printIdentSource, 0⟩ =
      .ok (⟨.PRINT, .string "print"⟩, ⟨printIdentSource, 5⟩) := by decide
  have h1 : Lexer.getNextToken ⟨printIdentSource, 5⟩ =
      .ok (⟨.IDENTIFIER, .string "x"⟩, ⟨printIdentSource, 7⟩) := by decide
  have h2 : Lexer.getNextToken ⟨printIdentSource, 7⟩ =
      .ok (⟨.EOF, .null⟩, ⟨printIdentSource, 7⟩) := by decide
  simp [parseSource, Parser.new, Parser.parse, Parser.program, exprOps, termOps, hs,
    h0, h1, h2]
  rfl

/-- C15 as stated fails: the sources `x` and `x;` do not parse, they fail with
"Invalid syntax". -/
theorem bare_identifier_does_not_parse :
    parseSource 8 "x" = .throw "Invalid syntax" ∧
    parseSource 8 "x;" = .throw "Invalid syntax" :=
  ⟨parse_bare_identifier 0, parse_bare_identifier_semi 0⟩

/-- C15, amended: a statement that starts with an identifier is committed to the assignment
form.  When the token after the identifier is not `=`, the statement fails with
"Invalid syntax"; when it is `=` and an expression `e` follows, the statement is the
assignment node of the name and `e`, and when what follows `=` fails as an expression, the
statement fails with the same error.  So `x = 1` parses to the assignment node; an identifier
is an expression only inside another construct, as in `(x)`, which is the expression
statement `Var(x)`, and in `print x`. -/
theorem identifier_statement_must_assign (fuel : Nat) (l : Lexer) (v : Value)
    (q q1 q2 : Parser) (e : AST) (m : String)
    (h : Parser.eat ⟨l, ⟨.IDENTIFIER, v⟩⟩ .IDENTIFIER = .ok q) :
    (q.currentToken.type ≠ .ASSIGN →
      Parser.statement (fuel + 2) ⟨l, ⟨.IDENTIFIER, v⟩⟩ = .throw "Invalid syntax") ∧
    (q.eat .ASSIGN = .ok q1 → Parser.expr fuel q1 = .ok (e, q2) →
      Parser.statement (fuel + 2) ⟨l, ⟨.IDENTIFIER, v⟩⟩ = .ok (.Assign v e, q2)) ∧
    (q.eat .ASSIGN = .ok q1 → Parser.expr fuel q1 = .throw m →
      Parser.statement (fuel + 2) ⟨l, ⟨.IDENTIFIER, v⟩⟩ = .throw m) ∧
    parseSource (fuel + 8) "x = 1" = .ok (.Program [.Assign (.string "x") (numLit 1)]) ∧
    parseSource (fuel + 8) "(x)" = .ok (.Program [varNode "x"]) ∧
    parseSource (fuel + 8) "print x" = .ok (.Program [.Print (varNode "x")]) := by
  refine ⟨?_, ?_, ?_, parse_assignment fuel, parse_paren_identifier fuel,
    parse_print_identifier fuel⟩
  · intro hq
    rw [Parser.statement_at]
    simp only [Parser.assignmentStatement_at, h, Res.ok_bind]
    simp [Parser.eat, hq, Parser.error]
  · intro h1 h2
    rw [Parser.statement_at]
    simp only [Parser.assignmentStatement_at, h, Res.ok_bind, h1, h2]
  · intro h1 h2
    rw [Parser.statement_at]
    simp only [Parser.assignmentStatement_at, h, Res.ok_bind, h1, h2, Res.throw_bind]

theorem identifier_statement_must_assign_witness :
    Parser.statement (0 + 2) ⟨⟨"x + 1".toList, 1⟩, ⟨.IDENTIFIER, .string "x"⟩⟩ =
      .throw "Invalid syntax" ∧
    Parser.statement (4 + 2) ⟨⟨assignSource, 1⟩, ⟨.IDENTIFIER, .string "x"⟩⟩ =
      .ok (.Assign (.string "x") (numLit 1), ⟨⟨assignSource, 5⟩, ⟨.EOF, .null⟩⟩) :=
  ⟨(identifier_statement_must_assign 0 ⟨"x + 1".toList, 1⟩ (.string "x")
      ⟨⟨"x + 1".toList, 3⟩, ⟨.PLUS, .string "+"⟩⟩ ⟨⟨"x + 1".toList, 3⟩, ⟨.PLUS, .string "+"⟩⟩
      ⟨⟨"x + 1".toList, 3⟩, ⟨.PLUS, .string "+"⟩⟩ (numLit 1) "" (by decide)).1 (by decide),
    (identifier_statement_must_assign 4 ⟨assignSource, 1⟩ (.string "x")
      ⟨⟨assignSource, 3⟩, ⟨.ASSIGN, .string "="⟩⟩ ⟨⟨assignSource, 5⟩, numTok 1⟩
      ⟨⟨assignSource, 5⟩, ⟨.EOF, .null⟩⟩ (numLit 1) "" (by decide)).2.1 (by decide!)
      (by decide!)⟩

/-! ## The result of a program -/

theorem Step.bind_assoc (r : Step) (f g : Value → Interpreter → Step) :
    (r.bind f).bind g = r.bind fun v i => (f v i).bind g := by
  obtain ⟨a, i⟩ := r
  cases a <;> rfl

theorem Step.eq_ok_of_bind {r : Step} {f : Value → Interpreter → Step} {v : Value}
    {i : Interpreter} (h : r.bind f = (.ok v, i)) :
    ∃ w j, r = (.ok w, j) ∧ f w j = (.ok v, i) := by
  obtain ⟨a, j⟩ := r
  cases a with
  | ok w => exact ⟨w, j, rfl, h⟩
  | throw m => simp [Step.bind] at h
  | unsupported => simp [Step.bind] at h
  | outOfFuel => simp [Step.bind] at h

theorem visitStatements_append (V : AST → Interpreter → Step) (ss tt : List AST) :
    ∀ (r : Value) (i : Interpreter), visitStatements V (ss ++ tt) r i =
      (visitStatements V ss r i).bind fun v i1 => visitStatements V tt v i1 := by
  induction ss with
  | nil => intro r i; rfl
  | cons s ss ih =>
    intro r i
    simp only [List.cons_append, visitStatements, Step.bind_assoc]
    congr 1
    funext v i1
    exact ih v i1

theorem visitStatements_single (V : AST → Interpreter → Step) (s : AST) (r : Value)
    (i : Interpreter) : visitStatements V [s] r i = V s i := by
  simp only [visitStatements]
  exact Step.bind_ok _

/-- C16: `interpret` returns the result of the last statement.  The empty Program (and Block)
returns undefined, the "none" of the host; when a Program (or Block) with the statements `ss`
followed by `s` evaluates without error, the statements `ss` ran without error to a state
`i1` and the value returned is the one the last statement `s` returns from `i1`; so `1 2`
returns 2, and `let x = 1`, whose last statement is a declaration, returns undefined. -/
theorem result_is_last_statement (fuel : Nat) (ss : List AST) (s : AST) (v : Value)
    (i i2 : Interpreter)
    (h : Interpreter.interpret (fuel + 1) (.Program (ss ++ [s])) i = (.ok v, i2)) :
    (∃ r i1, Interpreter.interpret (fuel + 1) (.Program ss) i = (.ok r, i1) ∧
      Interpreter.visit fuel s i1 = (.ok v, i2)) ∧
    Interpreter.interpret (fuel + 1) (.Block (ss ++ [s])) i = (.ok v, i2) ∧
    Interpreter.interpret (fuel + 1) (.Program []) i = (.ok .undefined, i) ∧
    Interpreter.interpret (fuel + 1) (.Block []) i = (.ok .undefined, i) ∧
    evaluate (fuel + 8) "1 2" = (.ok (.number (.fin 2)), Interpreter.new) ∧
    (evaluate (fuel + 8) "let x = 1").1 = .ok .undefined := by
  simp only [Interpreter.interpret, Interpreter.visit, visitStatements_append,
    visitStatements_single] at h ⊢
  obtain ⟨r, i1, h1, h2⟩ := Step.eq_ok_of_bind h
  refine ⟨⟨r, i1, h1, h2⟩, by rw [h1]; exact h2, rfl, rfl,
    evaluate_of_le (n := 8) (by decide!) (by decide) (by omega), ?_⟩
  rw [evaluate_of_le (n := 8) (r := (.ok .undefined, ⟨[("x", .number (.fin 1))], []⟩))
    (by decide!) (by decide) (by omega)]

theorem result_is_last_statement_witness :
    ∃ r i1, Interpreter.interpret (1 + 1) (.Program [numLit 1]) Interpreter.new = (.ok r, i1) ∧
      Interpreter.visit 1 (numLit 2) i1 = (.ok (.number (.fin 2)), Interpreter.new) :=
  (result_is_last_statement 1 [numLit 1] (numLit 2) (.number (.fin 2)) Interpreter.new
    Interpreter.new (by decide)).1

/-! ## Truthiness of conditions -/

theorem parse_nanCondition (fuel : Nat) :
    parseSource (fuel + 10) "if (0 / 0) print 1" =
      .ok nanConditionTree := by
  have hs : Lexer.new "if (0 / 0) print 1" = ⟨nanConditionSource, 0⟩ := rfl
  have h0 : Lexer.getNextToken ⟨nanConditionSource, 0⟩ =
      .ok (⟨.IF, .string "if"⟩, ⟨nanConditionSource, 2⟩) := by decide
  have h1 : Lexer.getNextToken ⟨nanConditionSource, 2⟩ =
      .ok (⟨.LPAREN, .string "("⟩, ⟨nanConditionSource, 4⟩) := by decide
  have h2 : Lexer.getNextToken ⟨nanConditionSource, 4⟩ =
      .ok (⟨.NUMBER, .number (.fin 0)⟩, ⟨nanConditionSource, 5⟩) := by decide!
  have h3 : Lexer.getNextToken ⟨nanConditionSource, 5⟩ =
      .ok (⟨.DIVIDE, .string "/"⟩, ⟨nanConditionSource, 7⟩) := by decide
  have h4 : Lexer.getNextToken ⟨nanConditionSource, 7⟩ =
      .ok (⟨.NUMBER, .number (.fin 0)⟩, ⟨nanConditionSource, 9⟩) := by decide!
  have h5 : Lexer.getNextToken ⟨nanConditionSource, 9⟩ =
      .ok (⟨.RPAREN, .string ")"⟩, ⟨nanConditionSource, 10⟩) := by decide
  have h6 : Lexer.getNextToken ⟨nanConditionSource, 10⟩ =
      .ok (⟨.PRINT, .string "print"⟩, ⟨nanConditionSource, 16⟩) := by decide
  have h7 : Lexer.getNextToken ⟨nanConditionSource, 16⟩ =
      .ok (⟨.NUMBER, .number (.fin 1)⟩, ⟨nanConditionSource, 18⟩) := by decide!
  have h8 : Lexer.getNextToken ⟨nanConditionSource, 18⟩ =
      .ok (⟨.EOF, .null⟩, ⟨nanConditionSource, 18⟩) := by decide
  simp [parseSource, Parser.new, Parser.parse, Parser.program, exprOps, termOps, hs,
    h0, h1, h2, h3, h4, h5, h6, h7, h8]
  rfl

theorem Value.truthy_false_iff (v : Value) :
    v.truthy = false ↔ v = .number (.fin 0) ∨ v = .number .negZero ∨ v = .number .nan ∨
      v = .string "" ∨ v = .boolean false ∨ v = .undefined ∨ v = .null := by
  cases v with
  | number n =>
    cases n with
    | fin q => by_cases hq : q = 0 <;> simp [Value.truthy, JSNum.isZero, hq]
    | negZero => simp [Value.truthy, JSNum.isZero]
    | posInf => simp [Value.truthy, JSNum.isZero]
    | negInf => simp [Value.truthy, JSNum.isZero]
    | nan => simp [Value.truthy, JSNum.isZero]
  | string s => simp [Value.truthy]
  | boolean b => cases b <;> simp [Value.truthy]
  | undefined => simp [Value.truthy]
  | null => simp [Value.truthy]
  | hostMember n => simp [Value.truthy]

/-- C17 as stated fails: the condition `0 / 0` evaluates to NaN, which is not the number zero,
not the empty string and not false, and yet the branch of `if (0 / 0) print 1` is not run:
nothing is printed. -/
theorem nan_condition_is_falsy :
    Interpreter.visit 2 (.BinOp (numLit 0) ⟨.DIVIDE, .string "/"⟩ (numLit 0)) Interpreter.new =
      (.ok (.number .nan), Interpreter.new) ∧
    Value.number .nan ≠ .number (.fin 0) ∧ Value.number .nan ≠ .number .negZero ∧
    Value.number .nan ≠ .string "" ∧ Value.number .nan ≠ .boolean false ∧
    parseSource 10 "if (0 / 0) print 1" = .ok nanConditionTree ∧
    evaluate 10 "if (0 / 0) print 1" = (.ok .undefined, Interpreter.new) := by
  refine ⟨by decide!, by decide, by decide, by decide, by decide, parse_nanCondition 0, ?_⟩
  simp only [evaluate, parse_nanCondition 0, Res.run, Interpreter.interpret]
  decide!

/-- C17, amended: the branch of an `If` and the body of a `While` run if and only if the value
`v` of the condition is truthy, and the falsy values are the number zero of either sign, NaN,
the empty string, false, undefined and null; every other value is truthy.  With a falsy
condition an `If` without else and a `While` return undefined and leave the state as the
evaluation of the condition left it. -/
theorem condition_truthiness (fuel : Nat) (c t e b : AST) (v r : Value) (i i1 : Interpreter)
    (hc : Interpreter.visit fuel c i = (.ok v, i1)) :
    (v.truthy = false ↔ v = .number (.fin 0) ∨ v = .number .negZero ∨ v = .number .nan ∨
      v = .string "" ∨ v = .boolean false ∨ v = .undefined ∨ v = .null) ∧
    Interpreter.visit (fuel + 1) (.If c t none) i =
      (if v.truthy then Interpreter.visit fuel t i1 else (.ok .undefined, i1)) ∧
    Interpreter.visit (fuel + 1) (.If c t (some e)) i =
      (if v.truthy then Interpreter.visit fuel t i1 else Interpreter.visit fuel e i1) ∧
    Interpreter.whileLoop (fuel + 1) c b r i =
      (if v.truthy then
        (Interpreter.visit fuel b i1).bind fun w i2 => Interpreter.whileLoop fuel c b w i2
      else (.ok r, i1)) ∧
    (v.truthy = false →
      Interpreter.visit (fuel + 2) (.While c b) i = (.ok .undefined, i1)) := by
  refine ⟨Value.truthy_false_iff v, ?_, ?_, ?_, ?_⟩
  · simp only [Interpreter.visit, hc, Step.bind]
  · simp only [Interpreter.visit, hc, Step.bind]
  · simp only [Interpreter.whileLoop, hc, Step.bind]
  · intro hv
    rw [show fuel + 2 = (fuel + 1) + 1 by omega]
    simp only [Interpreter.visit]
    simp only [Interpreter.whileLoop, hc, Step.bind, hv, Bool.false_eq_true, if_false]

theorem condition_truthiness_witness :
    Interpreter.visit (1 + 1) (.If (numLit 0) (.Print (numLit 1)) none) Interpreter.new =
      (if (Value.number (.fin ((0 : Nat) : ℚ))).truthy
        then Interpreter.visit 1 (.Print (numLit 1)) Interpreter.new
        else (.ok .undefined, Interpreter.new)) :=
  (condition_truthiness 1 (numLit 0) (.Print (numLit 1)) (numLit 0) (numLit 0)
    (.number (.fin ((0 : Nat) : ℚ))) .undefined Interpreter.new Interpreter.new rfl).2.1

/-! ## Equality -/

theorem JSNum.eq_true_iff (x y : JSNum) :
    JSNum.eq x y = true ↔
      x ≠ .nan ∧ y ≠ .nan ∧ (x = y ∨ (x.isZero = true ∧ y.isZero = true)) := by
  cases x <;> cases y <;>
    simp [JSNum.eq, JSNum.rank, JSNum.isZero, Prod.ext_iff, eq_comm]
  intro h1 h2
  rw [h1, h2]

/-- C18 as stated fails: NaN, the value of `0 / 0`, is of the same kind and content as
itself, and `==` on it yields false (and `!=` true). -/
theorem nan_differs_from_itself :
    applyBinOp .EQUALS (.number .nan) (.number .nan) = .ok (.boolean false) ∧
    applyBinOp .NOT_EQUALS (.number .nan) (.number .nan) = .ok (.boolean true) ∧
    evaluate 10 "0 / 0 == 0 / 0" = (.ok (.boolean false), Interpreter.new) :=
  ⟨by decide, by decide, by decide!⟩

/-- C18, amended: `==` is the strict equality of the host and `!=` is its negation.  On two
numbers it yields true exactly when neither is NaN and they are the same number, the two zeros
counting as the same; on two strings or two booleans exactly when they are the same; on
operands of different kinds among Number, String and Boolean it yields false, so `1 == "1"` is
false. -/
theorem equality_is_strict (l r : Value) (x y : JSNum) (s t : String) (a b : Bool)
    (fuel : Nat) :
    applyBinOp .EQUALS l r = .ok (.boolean (Value.strictEq l r)) ∧
    applyBinOp .NOT_EQUALS l r = .ok (.boolean (!Value.strictEq l r)) ∧
    (Value.strictEq (.number x) (.number y) = true ↔
      x ≠ .nan ∧ y ≠ .nan ∧ (x = y ∨ (x.isZero = true ∧ y.isZero = true))) ∧
    (Value.strictEq (.string s) (.string t) = true ↔ s = t) ∧
    (Value.strictEq (.boolean a) (.boolean b) = true ↔ a = b) ∧
    Value.strictEq (.number x) (.string s) = false ∧
    Value.strictEq (.string s) (.number x) = false ∧
    Value.strictEq (.number x) (.boolean a) = false ∧
    Value.strictEq (.boolean a) (.number x) = false ∧
    Value.strictEq (.string s) (.boolean a) = false ∧
    Value.strictEq (.boolean a) (.string s) = false ∧
    evaluate (fuel + 8) "1 == \"1\"" = (.ok (.boolean false), Interpreter.new) ∧
    evaluate (fuel + 8) "1 != \"1\"" = (.ok (.boolean true), Interpreter.new) := by
  refine ⟨rfl, rfl, JSNum.eq_true_iff x y, by simp [Value.strictEq], by simp [Value.strictEq],
    rfl, rfl, rfl, rfl, rfl, rfl,
    evaluate_of_le (n := 8) (by decide!) (by decide) (by omega),
    evaluate_of_le (n := 8) (by decide!) (by decide) (by omega)⟩

/-! ## Output and failure -/

theorem Step.output_bind {i : Interpreter} {r : Step} {f : Value → Interpreter → Step}
    (h : i.output <+: r.2.output) (hf : ∀ v j, j.output <+: (f v j).2.output) :
    i.output <+: (r.bind f).2.output := by
  obtain ⟨a, j⟩ := r
  cases a with
  | ok v => exact h.trans (hf v j)
  | throw m => exact h
  | unsupported => exact h
  | outOfFuel => exact h

theorem Res.output_run {α : Type} (r : Res α) (i j : Interpreter) {f : α → Step}
    (h : i.output <+: j.output) (hf : ∀ a, i.output <+: (f a).2.output) :
    i.output <+: (r.run j f).2.output := by
  cases r with
  | ok a => exact hf a
  | throw m => exact h
  | unsupported => exact h
  | outOfFuel => exact h

theorem visitStatements_output {V : AST → Interpreter → Step}
    (hV : ∀ node i, i.output <+: (V node i).2.output) :
    ∀ ss r i, i.output <+: (visitStatements V ss r i).2.output := by
  intro ss
  induction ss with
  | nil => intro r i; exact List.prefix_refl _
  | cons s ss ih =>
    intro r i
    simp only [visitStatements]
    exact Step.output_bind (hV s i) fun v j => ih v j

/-- No visit removes a line of output: the output before is a prefix of the output after. -/
theorem Interpreter.output_grows (fuel : Nat) :
    (∀ node i, i.output <+: (Interpreter.visit fuel node i).2.output) ∧
    (∀ c b r i, i.output <+: (Interpreter.whileLoop fuel c b r i).2.output) := by
  induction fuel with
  | zero =>
    exact ⟨fun _ _ => by simp [Interpreter.visit],
      fun _ _ _ _ => by simp [Interpreter.whileLoop]⟩
  | succ n ih =>
    obtain ⟨hv, hw⟩ := ih
    have hrefl : ∀ i : Interpreter, i.output <+: i.output := fun i => List.prefix_refl _
    refine ⟨?_, ?_⟩
    · intro node i
      cases node with
      | Program ss => simp only [Interpreter.visit]; exact visitStatements_output hv ss _ i
      | Block ss => simp only [Interpreter.visit]; exact visitStatements_output hv ss _ i
      | VarDecl name init =>
        simp only [Interpreter.visit]
        exact Step.output_bind (hv _ _) fun v j =>
          Res.output_run _ j j (hrefl j) fun _ => hrefl j
      | Assign name value =>
        simp only [Interpreter.visit]
        refine Res.output_run _ i i (hrefl i) fun key => ?_
        split_ifs
        · exact hrefl i
        · exact Step.output_bind (hv _ _) fun v j =>
            Res.output_run _ j j (hrefl j) fun _ => hrefl j
      | Var token =>
        simp only [Interpreter.visit]
        refine Res.output_run _ i i (hrefl i) fun key => ?_
        split_ifs <;> exact hrefl i
      | BinOp l op r =>
        simp only [Interpreter.visit]
        exact Step.output_bind (hv _ _) fun v j =>
          Step.output_bind (hv _ _) fun _ k => hrefl k
      | UnaryOp op e =>
        simp only [Interpreter.visit]
        split_ifs
        · exact Step.output_bind (hv _ _) fun v j => hrefl j
        · exact Step.output_bind (hv _ _) fun v j => hrefl j
        · exact hrefl i
      | Num token => simp only [Interpreter.visit]; exact hrefl i
      | Str token => simp only [Interpreter.visit]; exact hrefl i
      | If c t e =>
        simp only [Interpreter.visit]
        refine Step.output_bind (hv _ _) fun v j => ?_
        split_ifs
        · exact hv _ _
        · cases e with
          | some e => exact hv _ _
          | none => exact hrefl j
      | While c b => simp only [Interpreter.visit]; exact hw _ _ _ _
      | Print e =>
        simp only [Interpreter.visit]
        exact Step.output_bind (hv _ _) fun v j => List.prefix_append _ _
    · intro c b r i
      simp only [Interpreter.whileLoop]
      refine Step.output_bind (hv _ _) fun v j => ?_
      split_ifs
      · exact Step.output_bind (hv _ _) fun _ k => hw _ _ _ k
      · exact hrefl j

theorem parse_print_then_fail (fuel : Nat) :
    parseSource (fuel + 8) "print 1 print y" =
      .ok (.Program [.Print (numLit 1), .Print (varNode "y")]) := by
  have hs : Lexer.new "print 1 print y" = ⟨printFailSource, 0⟩ := rfl
  have h0 : Lexer.getNextToken ⟨printFailSource, 0⟩ =
      .ok (⟨.PRINT, .string "print"⟩, ⟨printFailSource, 5⟩) := by decide
  have h1 : Lexer.getNextToken ⟨printFailSource, 5⟩ =
      .ok (⟨.NUMBER, .number (.fin 1)⟩, ⟨printFailSource, 7⟩) := by decide!
  have h2 : Lexer.getNextToken ⟨printFailSource, 7⟩ =
      .ok (⟨.PRINT, .string "print"⟩, ⟨printFailSource, 13⟩) := by decide
  have h3 : Lexer.getNextToken ⟨printFailSource, 13⟩ =
      .ok (⟨.IDENTIFIER, .string "y"⟩, ⟨printFailSource, 15⟩) := by decide
  have h4 : Lexer.getNextToken ⟨printFailSource, 15⟩ =
      .ok (⟨.EOF, .null⟩, ⟨printFailSource, 15⟩) := by decide
  simp [parseSource, Parser.new, Parser.parse, Parser.program, exprOps, termOps, hs,
    h0, h1, h2, h3, h4]
  exact ⟨rfl, rfl⟩

/-- C19: execution is not transactional.  An executed `Print` appends exactly one entry, its
value, to the output; when the statement `s` fails after the statements `ss` before it ran,
the program fails with the same error in the state that `s` reached from the state left by
`ss`, and the output left by `ss` is a prefix of the final output; `print 1 print y` emits the
single line 1 and fails with the error for `y`, and `print y` fails with no line emitted. -/
theorem execution_is_not_transactional (fuel : Nat) (e s : AST) (ss tl : List AST)
    (v r : Value) (m : String) (i i1 j j1 j2 : Interpreter)
    (he : Interpreter.visit fuel e i = (.ok v, i1))
    (hss : Interpreter.visit (fuel + 1) (.Program ss) j = (.ok r, j1))
    (hs : Interpreter.visit fuel s j1 = (.throw m, j2)) :
    Interpreter.visit (fuel + 1) (.Print e) i = (.ok v, ⟨i1.globalScope, i1.output ++ [v]⟩) ∧
    Interpreter.visit (fuel + 1) (.Program (ss ++ s :: tl)) j = (.throw m, j2) ∧
    j1.output <+: j2.output ∧ j.output <+: j1.output ∧
    evaluate (fuel + 8) "print 1 print y" =
      (.throw "Variable 'y' is not defined", ⟨[], [.number (.fin 1)]⟩) ∧
    (Value.number (.fin 1)).toText = .ok "1" ∧
    evaluate (fuel + 8) "print y" = (.throw "Variable 'y' is not defined", ⟨[], []⟩) := by
  refine ⟨by simp [Interpreter.visit, he, Step.bind], ?_, ?_, ?_, ?_, by decide!,
    evaluate_of_le (n := 8) (by decide!) (by decide) (by omega)⟩
  · simp only [Interpreter.visit, visitStatements_append] at hss ⊢
    simp [hss, Step.bind, visitStatements, hs]
  · have := (Interpreter.output_grows fuel).1 s j1
    rwa [hs] at this
  · have := (Interpreter.output_grows (fuel + 1)).1 (.Program ss) j
    rwa [hss] at this
  · simp only [evaluate, parse_print_then_fail, Res.run, Interpreter.interpret]
    rw [Interpreter.visit_fuel 8 (fuel + 8) _ _ (by omega) (by decide!)]
    decide!

theorem execution_is_not_transactional_witness :
    Interpreter.visit (2 + 1) (.Program ([.Print (numLit 1)] ++ varNode "y" :: [numLit 2]))
      Interpreter.new = (.throw "Variable 'y' is not defined", ⟨[], [.number (.fin 1)]⟩) :=
  (execution_is_not_transactional 2 (numLit 1) (varNode "y") [.Print (numLit 1)] [numLit 2]
    (.number (.fin 1)) (.number (.fin 1)) "Variable 'y' is not defined" Interpreter.new
    Interpreter.new Interpreter.new ⟨[], [.number (.fin 1)]⟩ ⟨[], [.number (.fin 1)]⟩
    (by decide!) (by decide!) (by decide!)).2.1

/-! ## Purity of expressions -/

theorem IsExpression.inert {e : AST} (h : IsExpression e) : Inert e := by
  induction h with
  | num t => exact .num t
  | str t => exact .str t
  | var t => exact .var t
  | unaryOp op e _ ih => exact .unaryOp op e ih
  | binOp l op r _ _ ihl ihr => exact .binOp l op r ihl ihr

theorem Step.state_bind {i : Interpreter} {r : Step} {f : Value → Interpreter → Step}
    (h : r.2 = i) (hf : ∀ v, (f v i).2 = i) : (r.bind f).2 = i := by
  obtain ⟨a, j⟩ := r
  simp only at h
  subst h
  cases a with
  | ok v => exact hf v
  | throw m => rfl
  | unsupported => rfl
  | outOfFuel => rfl

theorem Res.state_run {α : Type} (r : Res α) (i : Interpreter) {f : α → Step}
    (hf : ∀ a, (f a).2 = i) : (r.run i f).2 = i := by
  cases r with
  | ok a => exact hf a
  | throw m => rfl
  | unsupported => rfl
  | outOfFuel => rfl

theorem visitStatements_state {V : AST → Interpreter → Step} (i : Interpreter) :
    ∀ (ss : List AST) (r : Value), (∀ s ∈ ss, (V s i).2 = i) →
      (visitStatements V ss r i).2 = i := by
  intro ss
  induction ss with
  | nil => intro r _; rfl
  | cons s ss ih =>
    intro r h
    simp only [visitStatements]
    exact Step.state_bind (h s (List.mem_cons_self _ _))
      fun v => ih v fun t ht => h t (List.mem_cons_of_mem _ ht)

/-- A tree without `VarDecl`, `Assign` and `Print` leaves the interpreter as it found it,
whatever the outcome. -/
theorem Interpreter.inert_state (fuel : Nat) :
    (∀ node i, Inert node → (Interpreter.visit fuel node i).2 = i) ∧
    (∀ c b r i, Inert c → Inert b → (Interpreter.whileLoop fuel c b r i).2 = i) := by
  induction fuel with
  | zero =>
    exact ⟨fun _ _ _ => by simp [Interpreter.visit],
      fun _ _ _ _ _ _ => by simp [Interpreter.whileLoop]⟩
  | succ n ih =>
    obtain ⟨hv, hw⟩ := ih
    refine ⟨?_, ?_⟩
    · intro node i h
      cases h with
      | num t => simp only [Interpreter.visit]
      | str t => simp only [Interpreter.visit]
      | var t =>
        simp only [Interpreter.visit]
        refine Res.state_run _ i fun key => ?_
        split_ifs <;> rfl
      | unaryOp op e he =>
        simp only [Interpreter.visit]
        split_ifs
        · exact Step.state_bind (hv e i he) fun v => rfl
        · exact Step.state_bind (hv e i he) fun v => rfl
        · rfl
      | binOp l op r hl hr =>
        simp only [Interpreter.visit]
        exact Step.state_bind (hv l i hl) fun v => Step.state_bind (hv r i hr) fun _ => rfl
      | program ss hss =>
        simp only [Interpreter.visit]
        exact visitStatements_state i ss _ fun s hs => hv s i (hss s hs)
      | block ss hss =>
        simp only [Interpreter.visit]
        exact visitStatements_state i ss _ fun s hs => hv s i (hss s hs)
      | ifThen c t hc ht =>
        simp only [Interpreter.visit]
        refine Step.state_bind (hv c i hc) fun v => ?_
        split_ifs
        · exact hv t i ht
        · rfl
      | ifThenElse c t e hc ht he =>
        simp only [Interpreter.visit]
        refine Step.state_bind (hv c i hc) fun v => ?_
        split_ifs
        · exact hv t i ht
        · exact hv e i he
      | loop c b hc hb =>
        simp only [Interpreter.visit]
        exact hw c b _ i hc hb
    · intro c b r i hc hb
      simp only [Interpreter.whileLoop]
      refine Step.state_bind (hv c i hc) fun v => ?_
      split_ifs
      · exact Step.state_bind (hv b i hb) fun w => hw c b w i hc hb
      · rfl

/-- C20: expressions are pure.  Interpreting a tree built only from `Num`, `Str`, `Var`,
`UnaryOp` and `BinOp` leaves the environment and the output as they were, whether it returns
a value, fails with the error of an unbound name or stops otherwise; the same holds for every
tree in which no `VarDecl`, `Assign` or `Print` occurs, while each of these three does change
the state. -/
theorem expressions_are_pure (fuel : Nat) (e node : AST) (i : Interpreter)
    (he : IsExpression e) (hn : Inert node) :
    (Interpreter.visit fuel e i).2 = i ∧
    (Interpreter.visit fuel node i).2 = i ∧
    (Interpreter.visit 1 (varNode "y") Interpreter.new =
      (.throw "Variable 'y' is not defined", Interpreter.new)) ∧
    (Interpreter.visit 2 (.VarDecl (.string "x") (numLit 1)) Interpreter.new).2 ≠
      Interpreter.new ∧
    (Interpreter.visit 2 (.Assign (.string "x") (numLit 2))
      ⟨[("x", .number (.fin 1))], []⟩).2 ≠ ⟨[("x", .number (.fin 1))], []⟩ ∧
    (Interpreter.visit 2 (.Print (numLit 1)) Interpreter.new).2 ≠ Interpreter.new :=
  ⟨(Interpreter.inert_state fuel).1 e i he.inert, (Interpreter.inert_state fuel).1 node i hn,
    by decide, by decide!, by decide!, by decide!⟩

theorem expressions_are_pure_witness :
    (Interpreter.visit 3
      (.BinOp (varNode "y") ⟨.PLUS, .string "+"⟩ (numLit 1)) Interpreter.new).2 =
      Interpreter.new :=
  (expressions_are_pure 3 (.BinOp (varNode "y") ⟨.PLUS, .string "+"⟩ (numLit 1))
    (numLit 1) Interpreter.new
    (.binOp _ _ _ (.var _) (.num _)) (.num _)).1

/-! ## The dangling else -/

theorem Parser.statement_fuel {n : Nat} (k : Nat) {p : Parser} {r : AST × Parser}
    (h : Parser.statement n p = .ok r) : Parser.statement (n + k) p = .ok r := by
  have := Res.eq_of_le ((stmtMono_add n k).1 p) (by rw [h]; simp)
  rw [this, h]

theorem parse_dangling (fuel : Nat) :
    parseSource (fuel + 12) "if (1) if (2) print 3 else print 4" =
      .ok danglingTree := by
  have hs : Lexer.new "if (1) if (2) print 3 else print 4" = ⟨danglingSource, 0⟩ := rfl
  have h0 : Lexer.getNextToken ⟨danglingSource, 0⟩ =
      .ok (⟨.IF, .string "if"⟩, ⟨danglingSource, 2⟩) := by decide
  have h1 : Lexer.getNextToken ⟨danglingSource, 2⟩ =
      .ok (⟨.LPAREN, .string "("⟩, ⟨danglingSource, 4⟩) := by decide
  have h2 : Lexer.getNextToken ⟨danglingSource, 4⟩ =
      .ok (⟨.NUMBER, .number (.fin 1)⟩, ⟨danglingSource, 5⟩) := by decide!
  have h3 : Lexer.getNextToken ⟨danglingSource, 5⟩ =
      .ok (⟨.RPAREN, .string ")"⟩, ⟨danglingSource, 6⟩) := by decide
  have h4 : Lexer.getNextToken ⟨danglingSource, 6⟩ =
      .ok (⟨.IF, .string "if"⟩, ⟨danglingSource, 9⟩) := by decide
  have h5 : Lexer.getNextToken ⟨danglingSource, 9⟩ =
      .ok (⟨.LPAREN, .string "("⟩, ⟨danglingSource, 11⟩) := by decide
  have h6 : Lexer.getNextToken ⟨danglingSource, 11⟩ =
      .ok (⟨.NUMBER, .number (.fin 2)⟩, ⟨danglingSource, 12⟩) := by decide!
  have h7 : Lexer.getNextToken ⟨danglingSource, 12⟩ =
      .ok (⟨.RPAREN, .string ")"⟩, ⟨danglingSource, 13⟩) := by decide
  have h8 : Lexer.getNextToken ⟨danglingSource, 13⟩ =
      .ok (⟨.PRINT, .string "print"⟩, ⟨danglingSource, 19⟩) := by decide
  have h9 : Lexer.getNextToken ⟨danglingSource, 19⟩ =
      .ok (⟨.NUMBER, .number (.fin 3)⟩, ⟨danglingSource, 21⟩) := by decide!
  have h10 : Lexer.getNextToken ⟨danglingSource, 21⟩ =
      .ok (⟨.ELSE, .string "else"⟩, ⟨danglingSource, 26⟩) := by decide
  have h11 : Lexer.getNextToken ⟨danglingSource, 26⟩ =
      .ok (⟨.PRINT, .string "print"⟩, ⟨danglingSource, 32⟩) := by decide
  have h12 : Lexer.getNextToken ⟨danglingSource, 32⟩ =
      .ok (⟨.NUMBER, .number (.fin 4)⟩, ⟨danglingSource, 34⟩) := by decide!
  have h13 : Lexer.getNextToken ⟨danglingSource, 34⟩ =
      .ok (⟨.EOF, .null⟩, ⟨danglingSource, 34⟩) := by decide
  simp [parseSource, Parser.new, Parser.parse, Parser.program, exprOps, termOps, hs,
    h0, h1, h2, h3, h4, h5, h6, h7, h8, h9, h10, h11, h12, h13]
  rfl

/-- C21: a dangling else binds to the nearest if.  When the parser reads `if (c1)`, then
`if (c2)`, a statement `s1` after which the current token is `else`, and after the `else` a
statement `s2` that no further `else` follows, the statement parsed is
`If(c1, If(c2, s1, s2), none)` and not `If(c1, If(c2, s1, none), s2)`; the source
`if (1) if (2) print 3 else print 4` parses so. -/
theorem dangling_else_binds_to_nearest_if (fuel : Nat) (l0 l1 : Lexer) (v0 v1 : Value)
    (pa pb pc pd pe pf pg ph pi pj : Parser) (c1 c2 s1 s2 : AST)
    (e1 : Parser.eat ⟨l0, ⟨.IF, v0⟩⟩ .IF = .ok pa) (e2 : pa.eat .LPAREN = .ok pb)
    (hc1 : Parser.expr fuel pb = .ok (c1, pc))
    (e3 : pc.eat .RPAREN = .ok ⟨l1, ⟨.IF, v1⟩⟩)
    (e4 : Parser.eat ⟨l1, ⟨.IF, v1⟩⟩ .IF = .ok pd) (e5 : pd.eat .LPAREN = .ok pe)
    (hc2 : Parser.expr fuel pe = .ok (c2, pf)) (e6 : pf.eat .RPAREN = .ok pg)
    (hs1 : Parser.statement fuel pg = .ok (s1, ph))
    (helse : ph.currentToken.type = .ELSE) (e7 : ph.eat .ELSE = .ok pi)
    (hs2 : Parser.statement fuel pi = .ok (s2, pj))
    (hend : pj.currentToken.type ≠ .ELSE) :
    Parser.statement (fuel + 4) ⟨l0, ⟨.IF, v0⟩⟩ =
      .ok (.If c1 (.If c2 s1 (some s2)) none, pj) ∧
    Parser.statement (fuel + 4) ⟨l0, ⟨.IF, v0⟩⟩ ≠
      .ok (.If c1 (.If c2 s1 none) (some s2), pj) ∧
    parseSource (fuel + 12) "if (1) if (2) print 3 else print 4" = .ok danglingTree := by
  have a1 := Parser.expr_fuel 2 hc1
  have inner : Parser.statement (fuel + 2) ⟨l1, ⟨.IF, v1⟩⟩ =
      .ok (.If c2 s1 (some s2), pj) := by
    rw [Parser.statement_at]
    simp only [Parser.ifStatement_at, e4, Res.ok_bind, e5, hc2, e6, hs1, helse, if_true, e7, hs2]
  have main : Parser.statement (fuel + 4) ⟨l0, ⟨.IF, v0⟩⟩ =
      .ok (.If c1 (.If c2 s1 (some s2)) none, pj) := by
    rw [Parser.statement_at]
    simp only [Parser.ifStatement_at, e1, Res.ok_bind, e2, a1, e3, inner, hend, if_false]
  refine ⟨main, ?_, parse_dangling fuel⟩
  rw [main]
  simp

theorem dangling_else_binds_to_nearest_if_witness :
    Parser.statement (5 + 4) ⟨⟨danglingSource, 2⟩, ⟨.IF, .string "if"⟩⟩ =
      .ok (.If (numLit 1) (.If (numLit 2) (.Print (numLit 3)) (some (.Print (numLit 4)))) none,
        ⟨⟨danglingSource, 34⟩, ⟨.EOF, .null⟩⟩) :=
  (dangling_else_binds_to_nearest_if 5 ⟨danglingSource, 2⟩ ⟨danglingSource, 9⟩
    (.string "if") (.string "if")
    ⟨⟨danglingSource, 4⟩, ⟨.LPAREN, .string "("⟩⟩ ⟨⟨danglingSource, 5⟩, numTok 1⟩
    ⟨⟨danglingSource, 6⟩, ⟨.RPAREN, .string ")"⟩⟩
    ⟨⟨danglingSource, 11⟩, ⟨.LPAREN, .string "("⟩⟩ ⟨⟨danglingSource, 12⟩, numTok 2⟩
    ⟨⟨danglingSource, 13⟩, ⟨.RPAREN, .string ")"⟩⟩
    ⟨⟨danglingSource, 19⟩, ⟨.PRINT, .string "print"⟩⟩
    ⟨⟨danglingSource, 26⟩, ⟨.ELSE, .string "else"⟩⟩
    ⟨⟨danglingSource, 32⟩, ⟨.PRINT, .string "print"⟩⟩
    ⟨⟨danglingSource, 34⟩, ⟨.EOF, .null⟩⟩
    (numLit 1) (numLit 2) (.Print (numLit 3)) (.Print (numLit 4))
    (by decide!) (by decide!) (by decide!) (by decide!) (by decide!) (by decide!) (by decide!)
    (by decide!) (by decide!) (by decide!) (by decide!) (by decide!) (by decide!)).1

/-! ## Flat scope: a binding outlives the construct that made it -/

theorem setProperty_keeps (scope scope1 : List (String × Value)) (key n : String) (v : Value)
    (h : setProperty scope key v = .ok scope1) (hb : (ownProperty scope n).isSome = true) :
    (ownProperty scope1 n).isSome = true := by
  unfold setProperty at h
  split_ifs at h with h1 h2
  · cases h
    rw [ownProperty_map_set]
    split_ifs with hk
    · subst hk; simpa using hb
    · exact hb
  · cases v <;> simp at h <;> (subst h; exact hb)
  · cases h
    have hnone : ownProperty scope key = none := by simpa using h1
    rw [ownProperty_append _ _ _ _ hnone]
    split_ifs
    · rfl
    · exact hb

theorem Step.binds_bind {n : String} {r : Step} {f : Value → Interpreter → Step}
    (h : r.2.binds n = true) (hf : ∀ v j, j.binds n = true → (f v j).2.binds n = true) :
    (r.bind f).2.binds n = true := by
  obtain ⟨a, j⟩ := r
  cases a with
  | ok v => exact hf v j h
  | throw m => exact h
  | unsupported => exact h
  | outOfFuel => exact h

theorem Res.binds_run {α : Type} {n : String} (r : Res α) (j : Interpreter) {f : α → Step}
    (h : j.binds n = true) (hf : ∀ a, (f a).2.binds n = true) :
    (r.run j f).2.binds n = true := by
  cases r with
  | ok a => exact hf a
  | throw m => exact h
  | unsupported => exact h
  | outOfFuel => exact h

theorem visitStatements_binds {n : String} {V : AST → Interpreter → Step}
    (hV : ∀ node i, i.binds n = true → (V node i).2.binds n = true) :
    ∀ ss r i, i.binds n = true → (visitStatements V ss r i).2.binds n = true := by
  intro ss
  induction ss with
  | nil => intro r i h; exact h
  | cons s ss ih =>
    intro r i h
    simp only [visitStatements]
    exact Step.binds_bind (hV s i h) fun v j hj => ih v j hj

theorem setProperty_binds (j : Interpreter) (key n : String) (v : Value)
    (h : j.binds n = true) :
    ((setProperty j.globalScope key v).run j fun scope =>
      ((.ok .undefined, { j with globalScope := scope }) : Step)).2.binds n = true := by
  cases hs : setProperty j.globalScope key v with
  | ok scope1 => exact setProperty_keeps _ _ key n v hs h
  | throw m => exact h
  | unsupported => exact h
  | outOfFuel => exact h

/-- No visit removes a binding: a name bound before a visit is bound after it. -/
theorem Interpreter.scope_grows (n : String) (fuel : Nat) :
    (∀ node i, i.binds n = true → (Interpreter.visit fuel node i).2.binds n = true) ∧
    (∀ c b r i, i.binds n = true →
      (Interpreter.whileLoop fuel c b r i).2.binds n = true) := by
  induction fuel with
  | zero =>
    exact ⟨fun _ _ h => by simpa [Interpreter.visit] using h,
      fun _ _ _ _ h => by simpa [Interpreter.whileLoop] using h⟩
  | succ k ih =>
    obtain ⟨hv, hw⟩ := ih
    refine ⟨?_, ?_⟩
    · intro node i h
      cases node with
      | Program ss => simp only [Interpreter.visit]; exact visitStatements_binds hv ss _ i h
      | Block ss => simp only [Interpreter.visit]; exact visitStatements_binds hv ss _ i h
      | VarDecl name init =>
        simp only [Interpreter.visit]
        refine Step.binds_bind (hv _ _ h) fun v j hj => ?_
        cases name.toText with
        | ok key => exact setProperty_binds j key n v hj
        | throw m => exact hj
        | unsupported => exact hj
        | outOfFuel => exact hj
      | Assign name value =>
        simp only [Interpreter.visit]
        refine Res.binds_run _ i h fun key => ?_
        split_ifs
        · exact h
        · exact Step.binds_bind (hv _ _ h) fun v j hj => setProperty_binds j key n v hj
      | Var token =>
        simp only [Interpreter.visit]
        refine Res.binds_run _ i h fun key => ?_
        split_ifs <;> exact h
      | BinOp l op r =>
        simp only [Interpreter.visit]
        exact Step.binds_bind (hv _ _ h) fun v j hj =>
          Step.binds_bind (hv _ _ hj) fun _ k hk => hk
      | UnaryOp op e =>
        simp only [Interpreter.visit]
        split_ifs
        · exact Step.binds_bind (hv _ _ h) fun v j hj => hj
        · exact Step.binds_bind (hv _ _ h) fun v j hj => hj
        · exact h
      | Num token => simp only [Interpreter.visit]; exact h
      | Str token => simp only [Interpreter.visit]; exact h
      | If c t e =>
        simp only [Interpreter.visit]
        refine Step.binds_bind (hv _ _ h) fun v j hj => ?_
        split_ifs
        · exact hv _ _ hj
        · cases e with
          | some e => exact hv _ _ hj
          | none => exact hj
      | While c b => simp only [Interpreter.visit]; exact hw _ _ _ _ h
      | Print e =>
        simp only [Interpreter.visit]
        exact Step.binds_bind (hv _ _ h) fun v j hj => hj
    · intro c b r i h
      simp only [Interpreter.whileLoop]
      refine Step.binds_bind (hv _ _ h) fun v j hj => ?_
      split_ifs
      · exact Step.binds_bind (hv _ _ hj) fun _ k hk => hw _ _ _ k hk
      · exact hj

/-- C6: Block, If and While introduce no scope.  Interpreting `Block(ss)` is running the
statements of `ss` one after another on the one interpreter state, exactly as `Program(ss)`
does, and a block around a single statement behaves as the statement alone.  An `If` ends in
the very state (and with the result) its branch ends in, run from the state the condition
left; a `While` whose condition holds runs its body from the state the condition left and
goes on from the state the body left.  No visit removes a binding.  A declaration of any name
but `__proto__` binds it; what a statement of a block, the branch of an `If` or the body of a
`While` has bound is bound when the block, the `If` or the `While` is left, and reading a
bound name succeeds.  In the example of the specification `y`, declared inside the body of
the loop, is bound to 2 after the loop and printed. -/
theorem block_has_no_scope (fuel : Nat) (s c t body e : AST) (ss pre post : List AST)
    (els : Option AST) (i : Interpreter) (n : String) :
    Interpreter.visit (fuel + 1) (.Block ss) i =
      visitStatements (Interpreter.visit fuel) ss .undefined i ∧
    Interpreter.visit (fuel + 1) (.Block ss) i = Interpreter.visit (fuel + 1) (.Program ss) i ∧
    Interpreter.visit (fuel + 1) (.Block (s :: ss)) i =
      (Interpreter.visit fuel s i).bind
        (fun v i1 => visitStatements (Interpreter.visit fuel) ss v i1) ∧
    Interpreter.visit (fuel + 2) (.Block [s]) i = Interpreter.visit (fuel + 1) s i ∧
    (∀ cv i1, Interpreter.visit fuel c i = (.ok cv, i1) → cv.truthy = true →
      Interpreter.visit (fuel + 1) (.If c t els) i = Interpreter.visit fuel t i1) ∧
    (∀ cv i1, Interpreter.visit fuel c i = (.ok cv, i1) → cv.truthy = false →
      Interpreter.visit (fuel + 1) (.If c t (some e)) i = Interpreter.visit fuel e i1) ∧
    (∀ cv i1, Interpreter.visit fuel c i = (.ok cv, i1) → cv.truthy = true →
      Interpreter.visit (fuel + 2) (.While c body) i =
        (Interpreter.visit fuel body i1).bind fun w i2 =>
          Interpreter.whileLoop fuel c body w i2) ∧
    (∀ node, i.binds n = true → (Interpreter.visit fuel node i).2.binds n = true) ∧
    (∀ v i1, n ≠ "__proto__" → Interpreter.visit fuel e i = (.ok v, i1) →
      (Interpreter.visit (fuel + 1) (.VarDecl (.string n) e) i).1 = .ok .undefined ∧
      ownProperty (Interpreter.visit (fuel + 1) (.VarDecl (.string n) e) i).2.globalScope n =
        some v) ∧
    (∀ r0 i0 r1 i1, visitStatements (Interpreter.visit fuel) pre .undefined i = (.ok r0, i0) →
      Interpreter.visit fuel t i0 = (.ok r1, i1) → i1.binds n = true →
      (Interpreter.visit (fuel + 1) (.Block (pre ++ t :: post)) i).2.binds n = true) ∧
    (∀ cv i0 r1 i1, Interpreter.visit fuel c i = (.ok cv, i0) → cv.truthy = true →
      Interpreter.visit fuel t i0 = (.ok r1, i1) → i1.binds n = true →
      (Interpreter.visit (fuel + 1) (.If c t els) i).2.binds n = true) ∧
    (∀ cv i0 r1 i1, Interpreter.visit fuel c i = (.ok cv, i0) → cv.truthy = true →
      Interpreter.visit fuel body i0 = (.ok r1, i1) → i1.binds n = true →
      (Interpreter.visit (fuel + 2) (.While c body) i).2.binds n = true) ∧
    (i.binds n = true → ∃ v, Interpreter.visit (fuel + 1) (varNode n) i = (.ok v, i)) ∧
    parseSource (fuel + 16) flatScopeText = .ok flatScopeTree ∧
    Interpreter.interpret (fuel + 12) flatScopeTree Interpreter.new =
      (.ok (.number (.fin 2)),
        ⟨[("x", .number (.fin 3)), ("y", .number (.fin 2))], [.number (.fin 2)]⟩) := by
  have hIf : ∀ cv i1, Interpreter.visit fuel c i = (.ok cv, i1) → cv.truthy = true →
      Interpreter.visit (fuel + 1) (.If c t els) i = Interpreter.visit fuel t i1 := by
    intro cv i1 h ht
    simp [Interpreter.visit, h, Step.bind, ht]
  have hWhile : ∀ cv i1, Interpreter.visit fuel c i = (.ok cv, i1) → cv.truthy = true →
      Interpreter.visit (fuel + 2) (.While c body) i =
        (Interpreter.visit fuel body i1).bind fun w i2 =>
          Interpreter.whileLoop fuel c body w i2 := by
    intro cv i1 h ht
    rw [show fuel + 2 = (fuel + 1) + 1 by omega]
    simp [Interpreter.visit, Interpreter.whileLoop, h, Step.bind, ht]
  refine ⟨by simp [Interpreter.visit], by simp [Interpreter.visit],
    by simp [Interpreter.visit, visitStatements], ?_, hIf, ?_, hWhile,
    fun node h => (Interpreter.scope_grows n fuel).1 node i h, ?_, ?_, ?_, ?_, ?_,
    parse_flatScope fuel, ?_⟩
  · rw [show fuel + 2 = (fuel + 1) + 1 by omega]
    simp only [Interpreter.visit, visitStatements]
    exact Step.bind_ok _
  · intro cv i1 h ht
    simp [Interpreter.visit, h, Step.bind, ht]
  · intro v i1 hn h
    obtain ⟨scope1, h1, h2, -⟩ := visit_VarDecl_spec fuel n e v i i1 hn h
    rw [h1]
    exact ⟨rfl, h2⟩
  · intro r0 i0 r1 i1 h0 h1 hb
    simp only [Interpreter.visit, visitStatements_append, h0, Step.bind, visitStatements, h1]
    exact visitStatements_binds (Interpreter.scope_grows n fuel).1 post r1 i1 hb
  · intro cv i0 r1 i1 h0 ht h1 hb
    rw [hIf cv i0 h0 ht, h1]
    exact hb
  · intro cv i0 r1 i1 h0 ht h1 hb
    rw [hWhile cv i0 h0 ht, h1]
    exact (Interpreter.scope_grows n fuel).2 c body r1 i1 hb
  · intro hb
    obtain ⟨v, hv⟩ := Option.isSome_iff_exists.1 hb
    exact ⟨v, visit_Var_bound fuel n v i hv⟩
  · have h := Interpreter.visit_fuel 12 (fuel + 12) flatScopeTree Interpreter.new
      (by omega) (by decide!)
    rw [Interpreter.interpret, h]; decide!

theorem block_has_no_scope_witness :
    (Interpreter.visit (2 + 1) (.Block ([] ++ .VarDecl (.string "y") (numLit 2) ::
      [.Print (varNode "y")])) Interpreter.new).2.binds "y" = true ∧
    (Interpreter.visit (2 + 2) (.While (numLit 1) (.VarDecl (.string "y") (numLit 2)))
      Interpreter.new).2.binds "y" = true :=
  ⟨(block_has_no_scope 2 (numLit 0) (numLit 1) (.VarDecl (.string "y") (numLit 2))
      (.VarDecl (.string "y") (numLit 2)) (numLit 2) [] [] [.Print (varNode "y")] none
      Interpreter.new "y").2.2.2.2.2.2.2.2.2.1 .undefined Interpreter.new .undefined
      ⟨[("y", .number (.fin 2))], []⟩ rfl (by decide) (by decide),
    (block_has_no_scope 2 (numLit 0) (numLit 1) (.VarDecl (.string "y") (numLit 2))
      (.VarDecl (.string "y") (numLit 2)) (numLit 2) [] [] [.Print (varNode "y")] none
      Interpreter.new "y").2.2.2.2.2.2.2.2.2.2.2.1 (.number (.fin 1)) Interpreter.new
      .undefined ⟨[("y", .number (.fin 2))], []⟩ (by decide) (by decide) (by decide)
      (by decide)⟩

end TinyLang
